import Mathlib

/-!
flcli: the action-string interpreter of `src/main.c`.

A shallow embedding of `parseLine` and of the helpers it uses (`isHexDigit`,
`calcChecksum`, `getHexNibble`, `getHexByte`, the `errMessages` table and the
`ReturnCode` enumeration).

* The action string `line` is a `List Char`; the cursor `ptr` is a natural
  number, the offset `ptr - line`.  Reading `*ptr` at or past the end of the
  list yields the terminating NUL.
* Calls that leave the program (the FPGALink device, libbuffer, the C library's
  allocator and file functions) are answered by an environment `Env`; every
  answer may depend on the calls made so far.  Each call is recorded, with its
  answer, in the `trace` of the state.
* `FAIL(code)` (from `makestuff.h`: set `returnCode`, `goto cleanup`) is the
  `Except.error` result carrying the code and the state at the jump; a piece
  that follows another one is chained with `Except.bind`, which passes a
  `FAIL` on unchanged.
* Machine integers are natural numbers reduced modulo `2^w` where the C type
  truncates (`4294967296 = 2^32` for `uint32`, `65536 = 2^16` for `uint16`).
-/

namespace Flcli

/-! ## Constants and character helpers -/

/-- `#define TIMEOUT (10*60*1000)` -/
def TIMEOUT : Nat := 10 * 60 * 1000

/-- The NUL character that terminates a C string. -/
def NUL : Char := '\x00'

/-- `static bool isHexDigit(char ch)` -/
def isHexDigit (ch : Char) : Bool :=
  (decide ('0' ≤ ch) && decide (ch ≤ '9')) ||
  (decide ('a' ≤ ch) && decide (ch ≤ 'f')) ||
  (decide ('A' ≤ ch) && decide (ch ≤ 'F'))

/-- The loop of `calcChecksum`: `while ( length-- ) cksum += *data++;` with
`cksum` a `uint16`. -/
def calcChecksumLoop : List Nat → Nat → Nat → Nat
  | _, 0, cksum => cksum
  | data, length + 1, cksum =>
    calcChecksumLoop data.tail length ((cksum + data.headD 0) % 65536)

/-- `static uint16 calcChecksum(const uint8 *data, uint32 length)` -/
def calcChecksum (data : List Nat) (length : Nat) : Nat :=
  calcChecksumLoop data length 0

/-- `static bool getHexNibble(char hexDigit, uint8 *nibble)`: `some n` when the C
function stores `n` and returns `false`, `none` when it returns `true`. -/
def getHexNibble (hexDigit : Char) : Option Nat :=
  if '0' ≤ hexDigit ∧ hexDigit ≤ '9' then
    some ((hexDigit.toNat - '0'.toNat) % 256)
  else if 'a' ≤ hexDigit ∧ hexDigit ≤ 'f' then
    some ((hexDigit.toNat - 'a'.toNat + 10) % 256)
  else if 'A' ≤ hexDigit ∧ hexDigit ≤ 'F' then
    some ((hexDigit.toNat - 'A'.toNat + 10) % 256)
  else
    none

/-- The character `*ptr` for the cursor at offset `ptr` of `line`. -/
def peek (line : List Char) (ptr : Nat) : Char :=
  line.getD ptr NUL

/-- `static int getHexByte(uint8 *byte)`: reads `ptr[0]` and, only when that is a
hex digit, `ptr[1]`; `some b` when the C function stores `b` and returns 0,
`none` when it returns 1 (nothing stored). The cursor is not moved. -/
def getHexByte (line : List Char) (ptr : Nat) : Option Nat :=
  match getHexNibble (peek line ptr) with
  | none => none
  | some upperNibble =>
    match getHexNibble (peek line (ptr + 1)) with
    | none => none
    | some lowerNibble => some (((upperNibble <<< 4) ||| lowerNibble) % 256)

/-- `static const char *const errMessages[]`; `none` is a `NULL` entry. -/
def errMessages : List (Option String) :=
  [ none,
    none,
    some "Unparseable hex number",
    some "Channel out of range",
    some "Illegal character",
    some "Unterminated string",
    some "No memory",
    some "Empty string",
    some "Odd number of digits",
    some "Cannot load file",
    some "Cannot save file",
    some "Bad arguments" ]

/-- `typedef enum { ... } ReturnCode;` -/
inductive ReturnCode where
  | FLP_SUCCESS
  | FLP_LIBERR
  | FLP_BAD_HEX
  | FLP_CHAN_RANGE
  | FLP_CONDUIT_RANGE
  | FLP_ILL_CHAR
  | FLP_UNTERM_STRING
  | FLP_NO_MEMORY
  | FLP_EMPTY_STRING
  | FLP_ODD_DIGITS
  | FLP_CANNOT_LOAD
  | FLP_CANNOT_SAVE
  | FLP_ARGS
  deriving DecidableEq, Repr

open ReturnCode

/-- The ordinal of an enumerator, the `int` that `parseLine` returns. -/
def ReturnCode.toNat : ReturnCode → Nat
  | FLP_SUCCESS => 0
  | FLP_LIBERR => 1
  | FLP_BAD_HEX => 2
  | FLP_CHAN_RANGE => 3
  | FLP_CONDUIT_RANGE => 4
  | FLP_ILL_CHAR => 5
  | FLP_UNTERM_STRING => 6
  | FLP_NO_MEMORY => 7
  | FLP_EMPTY_STRING => 8
  | FLP_ODD_DIGITS => 9
  | FLP_CANNOT_LOAD => 10
  | FLP_CANNOT_SAVE => 11
  | FLP_ARGS => 12

/-! ## The world outside `parseLine` -/

/-- One call that leaves `parseLine`, with the answer it got. -/
inductive Event where
  /-- `flReadChannel(handle, timeout, chan, count, buf, error)`: `accOffset` is
  `some oldLength` when `buf` is `dataFromFPGA.data + oldLength` and `none`
  when it is the scratch buffer `data`; `stored` is the content of the
  `count` bytes of `buf` after the call. -/
  | flReadChannel (timeout chan count : Nat) (accOffset : Option Nat)
      (status : Nat) (stored : List Nat)
  /-- `flWriteChannel(handle, timeout, chan, count, data, error)`; `data` is
  `none` for a `NULL` pointer. -/
  | flWriteChannel (timeout chan count : Nat) (data : Option (List Nat)) (status : Nat)
  /-- `flFifoMode(handle, conduit, error)` -/
  | flFifoMode (conduit : Nat) (status : Nat)
  /-- `flLoadFile(fileName, &length)`; `none` is a `NULL` result. -/
  | flLoadFile (fileName : List Char) (result : Option (List Nat))
  /-- `fopen(fileName, "wb")`; `ok` is false for a `NULL` result. -/
  | fopen (fileName : List Char) (ok : Bool)
  /-- `fwrite(data, 1, count, file)` and the number of bytes it reports written. -/
  | fwrite (fileName : List Char) (data : List Nat) (count : Nat) (written : Nat)
  /-- `fclose(file)` -/
  | fclose (fileName : List Char)
  /-- `dump(address, data, length)` -/
  | dump (address : Nat) (data : List Nat) (length : Nat)
  deriving DecidableEq, Repr

/-- The answers of everything `parseLine` calls but does not define, and the
two properties of the platform its behaviour depends on. -/
structure Env where
  /-- Width of `unsigned long` in bits. -/
  ulongBits : Nat
  /-- Whether `strtoul` sets `errno` to `EINVAL` when it converts nothing (the C
  standard leaves it open; glibc does not, the BSD libc does). -/
  strtoulEinval : Bool
  /-- The global `enableBenchmarking`, set once in `main`. -/
  enableBenchmarking : Bool
  /-- Status of `bufInitialise(&dataFromFPGA, 1024, 0x00, error)`. -/
  bufInitialise : Nat
  /-- Status of `bufAppendConst(&dataFromFPGA, 0x00, count, error)`, given the
  calls so far and the current length. -/
  bufAppendConst : List Event → Nat → Nat → Nat
  /-- Status of `flReadChannel` and the bytes it stores in the buffer, given the
  calls so far, the timeout, the channel and the count. -/
  flReadChannel : List Event → Nat → Nat → Nat → Nat × List Nat
  /-- Status of `flWriteChannel`. -/
  flWriteChannel : List Event → Nat → Nat → Nat → Option (List Nat) → Nat
  /-- Status of `flFifoMode`. -/
  flFifoMode : List Event → Nat → Nat
  /-- Result of `flLoadFile`: the content of the file, `none` for `NULL`. -/
  flLoadFile : List Event → List Char → Option (List Nat)
  /-- Whether `malloc(size)` for the file name returns a non-`NULL` pointer. -/
  mallocFileName : List Event → Nat → Bool
  /-- Whether `fopen(fileName, "wb")` returns a non-`NULL` stream. -/
  fopen : List Event → List Char → Bool
  /-- The return value of `fwrite(data, 1, count, file)`. -/
  fwrite : List Event → List Char → List Nat → Nat → Nat

/-- A line printed to standard output when benchmarking is enabled, without
the throughput figure (wall-clock time is not modelled). `cksum` is `none`
when `calcChecksum` is handed a `NULL` pointer. -/
structure BenchLine where
  isRead : Bool
  length : Nat
  cksum : Option Nat
  chan : Nat
  deriving DecidableEq, Repr

/-- The variables of `parseLine` that live across commands, the global cursor
`ptr`, and what has been sent out so far. -/
structure State where
  /-- The global `ptr`, as the offset `ptr - line`. -/
  ptr : Nat
  /-- The bytes of the buffer `dataFromFPGA` (its `length` is the list's). -/
  dataFromFPGA : List Nat
  /-- The `uint8 *data`; `none` is `NULL`. -/
  data : Option (List Nat)
  /-- The `char *fileName`; `none` is `NULL`. -/
  fileName : Option (List Char)
  /-- The `FILE *file`, as the name it was opened with; `none` is `NULL`. -/
  file : Option (List Char)
  /-- The calls made so far, oldest first. -/
  trace : List Event
  /-- The benchmark lines printed so far. -/
  stdout : List BenchLine
  deriving DecidableEq, Repr

/-- What a piece of `parseLine` yields: the state to continue with, or
`FAIL(code)` with the state at the jump to `cleanup`. -/
abbrev Exec := Except (ReturnCode × State) State

/-! ## `strtoul` (C library) -/

/-- The `isspace` of the C locale. -/
def isspace (c : Char) : Bool :=
  c == ' ' || c == '\t' || c == '\n' || c == '\x0b' || c == '\x0c' || c == '\r'

/-- The number a run of hex digits denotes, most significant digit first. -/
def hexValue (digits : List Char) : Nat :=
  digits.foldl (fun acc c => 16 * acc + (getHexNibble c).getD 0) 0

/-- The `errno` value `EINVAL`. -/
def EINVAL : Nat := 22

/-- The `errno` value `ERANGE`. -/
def ERANGE : Nat := 34

/-- What a call `errno = 0; v = strtoul(ptr, &end, 16);` leaves behind. -/
structure Strtoul where
  /-- The `unsigned long` returned. -/
  value : Nat
  /-- The pointer `end`, as an offset of `line`. -/
  endp : Nat
  /-- The value of `errno` after the call. -/
  errno : Nat
  deriving DecidableEq, Repr

/-- The call `strtoul(ptr, &end, 16)` of the C library (ISO C 7.22.1.4), which is
not part of this repository: skip white space, take an optional sign, an
optional `0x`/`0X` that hex digits follow, and the longest run of hex digits.
Without a digit nothing is converted: the result is 0 and `end` is the start.
A value above `ULONG_MAX` yields `ULONG_MAX` with `errno = ERANGE`; a minus
sign negates the value in `unsigned long`. -/
def strtoul (env : Env) (line : List Char) (ptr : Nat) : Strtoul :=
  let s := line.drop ptr
  let ws := (s.takeWhile isspace).length
  let s1 := s.drop ws
  let negative : Bool := s1.headD NUL == '-'
  let sign := if s1.headD NUL = '-' ∨ s1.headD NUL = '+' then 1 else 0
  let s2 := s1.drop sign
  let skip0x :=
    if s2.headD NUL = '0' ∧ (s2.getD 1 NUL = 'x' ∨ s2.getD 1 NUL = 'X')
        ∧ isHexDigit (s2.getD 2 NUL) = true then 2 else 0
  let digits := (s2.drop skip0x).takeWhile isHexDigit
  if digits = [] then
    { value := 0, endp := ptr, errno := if env.strtoulEinval then EINVAL else 0 }
  else if hexValue digits > 2 ^ env.ulongBits - 1 then
    { value := 2 ^ env.ulongBits - 1, endp := ptr + ws + sign + skip0x + digits.length,
      errno := ERANGE }
  else
    { value := if negative then (2 ^ env.ulongBits - hexValue digits) % 2 ^ env.ulongBits
               else hexValue digits,
      endp := ptr + ws + sign + skip0x + digits.length, errno := 0 }

/-! ## The pieces of `parseLine` -/

/-- The double quote character. -/
def DQUOTE : Char := Char.ofNat 34

/-- The single quote character. -/
def SQUOTE : Char := Char.ofNat 39

/-- `while ( *ptr == ';' ) ptr++;` -/
def skipSemicolons (line : List Char) (ptr : Nat) : Nat :=
  ptr + ((line.drop ptr).takeWhile (fun c => c == ';')).length

/-- `p = ptr; while ( *p != quoteChar && *p != '\0' ) p++;` -/
def scanQuote (line : List Char) (ptr : Nat) (quoteChar : Char) : Nat :=
  ptr + ((line.drop ptr).takeWhile (fun c => c != quoteChar && c != NUL)).length

/-- `p = ptr + 1; while ( isHexDigit(*p) ) p++;` -/
def scanHexRun (line : List Char) (ptr : Nat) : Nat :=
  ptr + 1 + ((line.drop (ptr + 1)).takeWhile isHexDigit).length

/-- The content of a buffer of `buf.length` bytes after a callee has stored
`bytes` at its start (no more than fit). -/
def overwrite (buf bytes : List Nat) : List Nat :=
  bytes.take buf.length ++ buf.drop bytes.length

/-- `if ( enableBenchmarking ) printf("Read/Wrote %d bytes (checksum 0x%04X) ...")`:
the state with the line added when benchmarking is enabled. -/
def benchmark (env : Env) (isRead : Bool) (length : Nat) (data : Option (List Nat))
    (chan : Nat) (st : State) : State :=
  if env.enableBenchmarking then
    { st with stdout := st.stdout ++
        [{ isRead := isRead, length := length,
           cksum := data.map (fun d => calcChecksum d length), chan := chan }] }
  else st

/-- The `for` loop of the hex-byte branch of `case 'w'`:
`for ( i = 0; i < length; i++ ) { getHexByte(dataPtr++); ptr += 2; }`.
The first argument counts the iterations left. A byte `getHexByte` does not
store stays as `malloc` left it, written 0 here. -/
def hexByteLoop (line : List Char) : Nat → Nat → List Nat → Nat × List Nat
  | 0, ptr, data => (ptr, data)
  | n + 1, ptr, data =>
    hexByteLoop line n (ptr + 2) (data ++ [(getHexByte line ptr).getD 0])

/-- The quoted file name that both `case 'r'` and `case 'w'` read, from `ptr++`
after the quote character has been fetched: scan to the closing quote, allocate
and copy the name. Yields the offset `p` of the closing quote; `ptr` stays at
the first character of the name. -/
def quotedFileName (env : Env) (line : List Char) (quoteChar : Char) (st : State) :
    Except (ReturnCode × State) (Nat × State) :=
  let st := { st with ptr := st.ptr + 1 }
  let p := scanQuote line st.ptr quoteChar
  if peek line p = NUL then .error (FLP_UNTERM_STRING, st) else
  if env.mallocFileName st.trace (p - st.ptr + 1) = false then
    .error (FLP_NO_MEMORY, st) else
  let st := { st with fileName := some [] }
  if p - st.ptr = 0 then .error (FLP_EMPTY_STRING, st) else
  .ok (p, { st with fileName := some ((line.drop st.ptr).take (p - st.ptr)) })

/-- In `case 'r'`, the parsing after the channel: the optional length and the
optional quoted file name (source lines 162-194). Yields `length`. -/
def readOperands (env : Env) (line : List Char) (st : State) :
    Except (ReturnCode × State) (Nat × State) :=
  if peek line st.ptr = ' ' then
    let st := { st with ptr := st.ptr + 1 }
    let r := strtoul env line st.ptr
    let length := r.value % 4294967296
    if r.errno ≠ 0 then .error (FLP_BAD_HEX, st) else
    let st := { st with ptr := r.endp }
    if peek line st.ptr ≠ NUL ∧ peek line st.ptr ≠ ';' ∧ peek line st.ptr ≠ ' ' then
      .error (FLP_ILL_CHAR, st) else
    if peek line st.ptr = ' ' then
      let st := { st with ptr := st.ptr + 1 }
      let quoteChar := peek line st.ptr
      if quoteChar ≠ DQUOTE ∧ quoteChar ≠ SQUOTE then .error (FLP_ILL_CHAR, st) else
      (quotedFileName env line quoteChar st).bind fun found =>
        .ok (length, { found.2 with ptr := found.1 + 1 })
    else .ok (length, st)
  else .ok (1, st)

/-- In `case 'r'`, the transfer (source lines 195-266): to a file when a name
was given, else into `dataFromFPGA`. The scratch buffer `malloc(length)` is
written as zeros before the device fills it. -/
def readExecute (env : Env) (chan length : Nat) (st : State) : Exec :=
  match st.fileName with
  | some fileName =>
    let st := { st with data := some (List.replicate length 0) }
    let answer := env.flReadChannel st.trace TIMEOUT (chan % 256) length
    let stored := overwrite (List.replicate length 0) answer.2
    let st := { st with
      data := some stored,
      trace := st.trace ++ [Event.flReadChannel TIMEOUT (chan % 256) length none answer.1 stored] }
    let st := benchmark env true length st.data chan st
    if answer.1 ≠ 0 then .error (FLP_LIBERR, st) else
    let opened := env.fopen st.trace fileName
    let st := { st with
      file := if opened then some fileName else none,
      trace := st.trace ++ [Event.fopen fileName opened] }
    if opened = false then .error (FLP_CANNOT_SAVE, st) else
    let st := { st with fileName := none }
    let written := env.fwrite st.trace fileName stored length
    let st := { st with trace := st.trace ++ [Event.fwrite fileName stored length written] }
    if written % 4294967296 ≠ length then .error (FLP_CANNOT_SAVE, st) else
    .ok { st with data := none, file := none, trace := st.trace ++ [Event.fclose fileName] }
  | none =>
    let oldLength := st.dataFromFPGA.length
    if env.bufAppendConst st.trace oldLength length ≠ 0 then .error (FLP_LIBERR, st) else
    let st := { st with dataFromFPGA := st.dataFromFPGA ++ List.replicate length 0 }
    let answer := env.flReadChannel st.trace TIMEOUT (chan % 256) length
    let stored := overwrite (st.dataFromFPGA.drop oldLength) answer.2
    let st := { st with
      dataFromFPGA := st.dataFromFPGA.take oldLength ++ stored,
      trace := st.trace ++
        [Event.flReadChannel TIMEOUT (chan % 256) length (some oldLength) answer.1 stored] }
    let st := benchmark env true length (some stored) chan st
    if answer.1 ≠ 0 then .error (FLP_LIBERR, st) else
    .ok st

/-- `case 'r':` of the `switch` in `parseLine`, entered with `*ptr == 'r'`. -/
def caseRead (env : Env) (line : List Char) (st : State) : Exec :=
  let st := { st with ptr := st.ptr + 1 }
  let r := strtoul env line st.ptr
  let chan := r.value % 4294967296
  if r.errno ≠ 0 then .error (FLP_BAD_HEX, st) else
  if chan > 127 then .error (FLP_CHAN_RANGE, st) else
  let st := { st with ptr := r.endp }
  if peek line st.ptr ≠ NUL ∧ peek line st.ptr ≠ ';' ∧ peek line st.ptr ≠ ' ' then
    .error (FLP_ILL_CHAR, st) else
  (readOperands env line st).bind fun parsed => readExecute env chan parsed.1 parsed.2

/-- In `case 'w'`, the parsing after the channel (source lines 287-329): a
quoted file name whose content is loaded, or a run of hex digits decoded into
bytes. Yields `length`. -/
def writeOperands (env : Env) (line : List Char) (st : State) :
    Except (ReturnCode × State) (Nat × State) :=
  if peek line st.ptr = ' ' then
    let st := { st with ptr := st.ptr + 1 }
    let quoteChar := peek line st.ptr
    if quoteChar = DQUOTE ∨ quoteChar = SQUOTE then
      (quotedFileName env line quoteChar st).bind fun found =>
        let p := found.1
        let st := found.2
        let fileName := st.fileName.getD []
        let loaded := env.flLoadFile st.trace fileName
        let length := (loaded.map fun bytes => bytes.length % 4294967296).getD 1
        let st := { st with
          data := loaded, fileName := none,
          trace := st.trace ++ [Event.flLoadFile fileName loaded] }
        if loaded = none then .error (FLP_CANNOT_LOAD, st) else
        .ok (length, { st with ptr := p + 1 })
    else if isHexDigit (peek line st.ptr) = true then
      let p := scanHexRun line st.ptr
      if (p - st.ptr) % 2 ≠ 0 then .error (FLP_ODD_DIGITS, st) else
      let length := (p - st.ptr) % 4294967296 / 2
      let filled := hexByteLoop line length st.ptr []
      .ok (length, { st with data := some filled.2, ptr := filled.1 })
    else .error (FLP_ILL_CHAR, st)
  else .ok (1, st)

/-- `case 'w':` of the `switch` in `parseLine`, entered with `*ptr == 'w'`. -/
def caseWrite (env : Env) (line : List Char) (st : State) : Exec :=
  let st := { st with ptr := st.ptr + 1 }
  let r := strtoul env line st.ptr
  let chan := r.value
  if r.errno ≠ 0 then .error (FLP_BAD_HEX, st) else
  if chan > 127 then .error (FLP_CHAN_RANGE, st) else
  let st := { st with ptr := r.endp }
  if peek line st.ptr ≠ NUL ∧ peek line st.ptr ≠ ';' ∧ peek line st.ptr ≠ ' ' then
    .error (FLP_ILL_CHAR, st) else
  (writeOperands env line st).bind fun parsed =>
    let length := parsed.1
    let st := parsed.2
    let fStatus := env.flWriteChannel st.trace TIMEOUT (chan % 256) length st.data
    let st := { st with
      trace := st.trace ++ [Event.flWriteChannel TIMEOUT (chan % 256) length st.data fStatus] }
    let st := benchmark env false length st.data chan st
    if fStatus ≠ 0 then .error (FLP_LIBERR, st) else
    .ok { st with data := none }

/-- `case '+':` of the `switch` in `parseLine`, entered with `*ptr == '+'`. -/
def casePlus (env : Env) (line : List Char) (st : State) : Exec :=
  let st := { st with ptr := st.ptr + 1 }
  let r := strtoul env line st.ptr
  let conduit := r.value % 4294967296
  if r.errno ≠ 0 then .error (FLP_BAD_HEX, st) else
  if conduit > 255 then .error (FLP_CONDUIT_RANGE, st) else
  let st := { st with ptr := r.endp }
  if peek line st.ptr ≠ NUL ∧ peek line st.ptr ≠ ';' then .error (FLP_ILL_CHAR, st) else
  let fStatus := env.flFifoMode st.trace (conduit % 256)
  let st := { st with trace := st.trace ++ [Event.flFifoMode (conduit % 256) fStatus] }
  if fStatus ≠ 0 then .error (FLP_LIBERR, st) else
  .ok st

/-- One pass through the body of the `do { ... } while ( *ptr == ';' )` loop:
skip semicolons, then the `switch ( *ptr )`. -/
def command (env : Env) (line : List Char) (st : State) : Exec :=
  let st := { st with ptr := skipSemicolons line st.ptr }
  if peek line st.ptr = 'r' then caseRead env line st
  else if peek line st.ptr = 'w' then caseWrite env line st
  else if peek line st.ptr = '+' then casePlus env line st
  else .error (FLP_ILL_CHAR, st)

/-- The loop `do { ... } while ( *ptr == ';' );`. The first argument bounds the
number of passes; `none` means the bound was too small. -/
def parseLoop (env : Env) (line : List Char) : Nat → State → Option Exec
  | 0, _ => none
  | fuel + 1, st =>
    match command env line st with
    | .error e => some (.error e)
    | .ok st => if peek line st.ptr = ';' then parseLoop env line fuel st else some (.ok st)

/-- The text `errMessages[returnCode]` as `%s` prints it; an entry that is `NULL`
or outside the table shows as `(null)`. -/
def errMessage (returnCode : ReturnCode) : String :=
  ((errMessages.getD returnCode.toNat none).getD "(null)")

/-- The text written to `stderr` by the block `if ( returnCode > FLP_LIBERR )`
after `cleanup:`. -/
def diagnostic (line : List Char) (returnCode : ReturnCode) (column : Nat) : String :=
  errMessage returnCode ++ " at column " ++ toString column ++ "\n  " ++ String.mk line
    ++ "\n  " ++ String.mk (List.replicate column ' ') ++ "^\n"

/-- What one invocation of `parseLine` amounts to. -/
structure Result where
  /-- The value returned. -/
  returnCode : ReturnCode
  /-- The state on arrival at the label `cleanup:`. -/
  atCleanup : State
  /-- The state at `return`, after the releases below `cleanup:`. -/
  final : State
  /-- The diagnostics written to `stderr`. -/
  stderr : List String
  deriving DecidableEq, Repr

/-- The code from the label `cleanup:` to `return returnCode;`. -/
def cleanup (line : List Char) (returnCode : ReturnCode) (st : State) : Result :=
  { returnCode := returnCode,
    atCleanup := st,
    final := { st with
      dataFromFPGA := [],
      file := none,
      fileName := none,
      data := none,
      trace := st.trace ++ (match st.file with
        | some name => [Event.fclose name]
        | none => []) },
    stderr := if returnCode.toNat > FLP_LIBERR.toNat then [diagnostic line returnCode st.ptr]
              else [] }

/-- The state of `parseLine` after its declarations. -/
def initialState : State :=
  { ptr := 0, dataFromFPGA := [], data := none, fileName := none, file := none,
    trace := [], stdout := [] }

/-- `static int parseLine(struct FLContext *handle, const char *line, const char **error)`.
`none` only if the loop bound `line.length + 1` were too small. When
`bufInitialise` fails the cursor still holds its value from before the call,
written 0 here (no diagnostic uses it). -/
def parseLine (env : Env) (line : List Char) : Option Result :=
  if env.bufInitialise ≠ 0 then some (cleanup line FLP_LIBERR initialState) else
  match parseLoop env line (line.length + 1) initialState with
  | none => none
  | some (.error (returnCode, st)) => some (cleanup line returnCode st)
  | some (.ok st) =>
    if peek line st.ptr ≠ NUL then some (cleanup line FLP_ILL_CHAR st) else
    some (cleanup line FLP_SUCCESS
      { st with trace := st.trace ++ [Event.dump 0 st.dataFromFPGA st.dataFromFPGA.length] })

/-! ## Concrete environments -/

/-- A 64-bit platform with glibc conventions on which every call succeeds: a
read of `count` bytes from channel `chan` stores `chan, chan + 1, ...` (modulo
256), files load as three bytes, and `fwrite` writes everything. -/
def idealEnv : Env :=
  { ulongBits := 64,
    strtoulEinval := false,
    enableBenchmarking := false,
    bufInitialise := 0,
    bufAppendConst := fun _ _ _ => 0,
    flReadChannel := fun _ _ chan count => (0, (List.range count).map (fun i => (chan + i) % 256)),
    flWriteChannel := fun _ _ _ _ _ => 0,
    flFifoMode := fun _ _ => 0,
    flLoadFile := fun _ _ => some [1, 2, 3],
    mallocFileName := fun _ _ => true,
    fopen := fun _ _ => true,
    fwrite := fun _ _ _ count => count }

/-- The environment `idealEnv` with a device whose reads fail once one read has
been made: the first `flReadChannel` succeeds, every later one returns status 1
after storing nothing. -/
def secondReadFailsEnv : Env :=
  { idealEnv with
    flReadChannel := fun trace _ chan count =>
      if trace = [] then (0, (List.range count).map (fun i => (chan + i) % 256))
      else (1, []) }

/-- The value of one hex digit (0 for a character that is none). -/
def digitValue (c : Char) : Nat :=
  (getHexNibble c).getD 0

/-- The bytes a run of hex digits spells, two digits per byte, the first digit
of a pair being the upper nibble: byte `i` is
`16 * value(digit 2i) + value(digit 2i+1)`. A last unpaired digit is left out. -/
def hexPairs : List Char → List Nat
  | a :: b :: rest => (16 * digitValue a + digitValue b) :: hexPairs rest
  | _ => []

/-- The state in which a piece of `parseLine` ends, whether it falls through
or jumps to `cleanup`. -/
def Exec.state : Exec → State
  | .ok st => st
  | .error e => e.2

/-- The state in which the parsing of a command's operands ends. -/
def operandsState : Except (ReturnCode × State) (Nat × State) → State
  | .ok parsed => parsed.2
  | .error e => e.2

/-- The bytes an event adds to the accumulator `dataFromFPGA`: those a
`flReadChannel` call left in the buffer when the buffer was the accumulator's
tail, nothing otherwise. -/
def Event.accumulated : Event → List Nat
  | .flReadChannel _ _ _ (some _) _ stored => stored
  | _ => []

/-- The concatenation, in the order of the calls, of the bytes the device
returned for the reads that were not redirected to a file. -/
def accumulatedBytes : List Event → List Nat
  | [] => []
  | e :: es => e.accumulated ++ accumulatedBytes es

/-- Whether an event is a call to `dump`. -/
def Event.isDump : Event → Bool
  | .dump _ _ _ => true
  | _ => false

/-- The calls to `dump` of a trace. -/
def dumpCalls (trace : List Event) : List Event :=
  trace.filter Event.isDump

/-- The accumulator holds exactly the bytes of the accumulating reads made so
far, and `dump` has not been called. -/
def AccInv (st : State) : Prop :=
  st.dataFromFPGA = accumulatedBytes st.trace ∧ dumpCalls st.trace = []

/-- The state right after the `flReadChannel` call of a read that is not
redirected to a file: the bytes stored by the device stand at the previous tail
of the accumulator and the call is recorded. -/
def afterRead (env : Env) (chan length : Nat) (st : State) : State :=
  let answer := env.flReadChannel st.trace TIMEOUT (chan % 256) length
  let stored := overwrite (List.replicate length 0) answer.2
  benchmark env true length (some stored) chan
    { st with
      dataFromFPGA := st.dataFromFPGA ++ stored,
      trace := st.trace ++ [Event.flReadChannel TIMEOUT (chan % 256) length
        (some st.dataFromFPGA.length) answer.1 stored] }

/-- The state right after the `flFifoMode` call of a `+` command. -/
def afterFifo (env : Env) (conduit : Nat) (st : State) : State :=
  { st with
    trace := st.trace ++ [Event.flFifoMode (conduit % 256)
      (env.flFifoMode st.trace (conduit % 256))] }

/-- The state with the cursor moved `k` characters to the right. -/
def State.shift (k : Nat) (st : State) : State :=
  { st with ptr := k + st.ptr }

/-- The outcome with the cursor moved `k` characters to the right. -/
def Exec.shift (k : Nat) : Exec → Exec
  | .ok st => .ok (st.shift k)
  | .error e => .error (e.1, e.2.shift k)

/-- The outcome of parsing a command's operands, with the cursor moved `k`
characters to the right. -/
def operandsShift (k : Nat) :
    Except (ReturnCode × State) (Nat × State) → Except (ReturnCode × State) (Nat × State)
  | .ok parsed => .ok (parsed.1, parsed.2.shift k)
  | .error e => .error (e.1, e.2.shift k)

/-- The outcome of `quotedFileName`, with the cursor and the offset of the
closing quote moved `k` characters to the right. -/
def quotedShift (k : Nat) :
    Except (ReturnCode × State) (Nat × State) → Except (ReturnCode × State) (Nat × State)
  | .ok found => .ok (k + found.1, found.2.shift k)
  | .error e => .error (e.1, e.2.shift k)

/-- A call `getHexByte(&b)` with the global cursor at `ptr`: what the call
reports and the cursor after it. The function reads `ptr[0]` and `ptr[1]` and
assigns to no global; its `byte += 2` changes its own parameter only. -/
def getHexByteCall (line : List Char) (ptr : Nat) : Option Nat × Nat :=
  (getHexByte line ptr, ptr)

/-- The platform of `idealEnv` with a C library whose `strtoul` sets `errno` to
`EINVAL` when it converts nothing (as the BSD libc does). -/
def einvalEnv : Env :=
  { idealEnv with strtoulEinval := true }

/-- The environment `idealEnv` with a file system on which every `fwrite`
comes one byte short (a full disk). -/
def shortWriteEnv : Env :=
  { idealEnv with fwrite := fun _ _ _ count => count - 1 }

/-- The action string `r5 10 "out.bin"`. -/
def readToOutBin : List Char :=
  "r5 10 ".data ++ DQUOTE :: ("out.bin".data ++ [DQUOTE])

/-- One step of replaying the file calls of a trace. The first argument is
`some held`, with `held` the file that is open (`none` when no file is open), or
`none` once a call has been out of order: an `fopen` while a file is open (the
handle in `file` would be lost), or an `fwrite` or `fclose` on anything but the
file that is open. -/
def fileStep (held : Option (Option (List Char))) (e : Event) : Option (Option (List Char)) :=
  match held, e with
  | none, _ => none
  | some none, .fopen name ok => some (if ok then some name else none)
  | some (some _), .fopen _ _ => none
  | some h, .fclose name => if h = some name then some none else none
  | some h, .fwrite name _ _ _ => if h = some name then some h else none
  | some h, _ => some h

/-- Replays the file calls of a trace from the start, where no file is open:
`some held` when every call was in order, `held` being the file left open. -/
def fileTrack (trace : List Event) : Option (Option (List Char)) :=
  trace.foldl fileStep (some none)

/-- The calls so far were in order and the file they leave open is the one the
variable `file` holds. -/
def FileInv (st : State) : Prop :=
  fileTrack st.trace = some st.file

/-- No per-command resource is held: `fileName`, `data` and `file` are `NULL`. -/
def Clean (st : State) : Prop :=
  st.fileName = none ∧ st.data = none ∧ st.file = none

/-- A command of an action string, by the grammar of the specification: a read
into the accumulator with its length (`r<chan> <length>`) or with the default
length 1 (`r<chan>`), a read to a file (`r<chan> <length> "<name>"`), a write
of hex data (`w<chan> <digits>`), a write of the content of a file
(`w<chan> "<name>"`), the selection of a conduit (`+<n>`), or a letter that
starts no command. A file name stands between two double quotes or two single
quotes, `quote`. -/
inductive ChainCmd where
  | read (chan length : Nat)
  | readOne (chan : Nat)
  | readTo (chan length : Nat) (quote : Char) (name : List Char)
  | write (chan : Nat) (digits : List Char)
  | writeFrom (chan : Nat) (quote : Char) (name : List Char)
  | conduit (n : Nat)
  | unknown (letter : Char)
  deriving DecidableEq, Repr

/-- The text of a command: the letter, then the numbers in hex as `%x` prints
them, separated by one space; a file name stands between its quotes. -/
def ChainCmd.text : ChainCmd → List Char
  | .read chan length => 'r' :: (Nat.toDigits 16 chan ++ ' ' :: Nat.toDigits 16 length)
  | .readOne chan => 'r' :: Nat.toDigits 16 chan
  | .readTo chan length quote name =>
    'r' :: (Nat.toDigits 16 chan ++ ' ' :: (Nat.toDigits 16 length ++
      ' ' :: quote :: (name ++ [quote])))
  | .write chan digits => 'w' :: (Nat.toDigits 16 chan ++ ' ' :: digits)
  | .writeFrom chan quote name =>
    'w' :: (Nat.toDigits 16 chan ++ ' ' :: quote :: (name ++ [quote]))
  | .conduit n => '+' :: Nat.toDigits 16 n
  | .unknown letter => [letter]

/-- The action string of a chain: the texts of its commands, separated by `;`. -/
def chainText : List ChainCmd → List Char
  | [] => []
  | [cmd] => cmd.text
  | cmd :: next :: rest => cmd.text ++ ';' :: chainText (next :: rest)

/-- What makes the text of a command stand for that command: numbers fit 32
bits, a quote is the double or the single quote, a file name is not empty and
holds neither its quote nor NUL, the data of a write is a non-empty run of hex
digits, and the letter of `unknown` is none of `r`, `w`, `+`, `;` and NUL. A
channel above 127, a conduit above 255 and an odd number of data digits are
allowed: they are the parse errors the chain semantics knows. -/
def ChainCmd.wellFormed : ChainCmd → Prop
  | .read chan length => chan < 2 ^ 32 ∧ length < 2 ^ 32
  | .readOne chan => chan < 2 ^ 32
  | .readTo chan length quote name =>
    chan < 2 ^ 32 ∧ length < 2 ^ 32 ∧ (quote = DQUOTE ∨ quote = SQUOTE) ∧ name ≠ [] ∧
      ∀ c ∈ name, c ≠ quote ∧ c ≠ NUL
  | .write chan digits =>
    chan < 2 ^ 32 ∧ digits ≠ [] ∧ (∀ c ∈ digits, isHexDigit c = true) ∧
      digits.length < 2 ^ 32
  | .writeFrom chan quote name =>
    chan < 2 ^ 32 ∧ (quote = DQUOTE ∨ quote = SQUOTE) ∧ name ≠ [] ∧
      ∀ c ∈ name, c ≠ quote ∧ c ≠ NUL
  | .conduit n => n < 2 ^ 32
  | .unknown letter =>
    letter ≠ 'r' ∧ letter ≠ 'w' ∧ letter ≠ '+' ∧ letter ≠ ';' ∧ letter ≠ NUL

/-- The specification's account of one command, given the calls made so far
and the accumulator: `.error (kind, calls)` when the command fails, with the
calls made up to the failure, `.ok (calls, accumulator)` when it succeeds.
A read without a path grows the accumulator and is one device read whose bytes
are appended to it (one byte when no length is given); a read with a path is
one device read into a scratch buffer followed by `fopen`, `fwrite` of exactly
`length` bytes and `fclose`, any shortfall being `FLP_CANNOT_SAVE`; a write of
hex data is one device write of the decoded bytes; a write of a file loads the
file, `FLP_CANNOT_LOAD` if that fails, and is one device write of its content;
`+` is one `flFifoMode` call. A channel above 127, a conduit above 255, an odd
digit count and an unknown letter fail before any call. -/
def specStep (env : Env) (cmd : ChainCmd) (trace : List Event) (acc : List Nat) :
    Except (ReturnCode × List Event) (List Event × List Nat) :=
  match cmd with
  | .read chan length =>
    if chan > 127 then .error (FLP_CHAN_RANGE, trace) else
    if env.bufAppendConst trace acc.length length ≠ 0 then .error (FLP_LIBERR, trace) else
    if (env.flReadChannel trace TIMEOUT chan length).1 ≠ 0 then
      .error (FLP_LIBERR, trace ++ [Event.flReadChannel TIMEOUT chan length (some acc.length)
        (env.flReadChannel trace TIMEOUT chan length).1
        (overwrite (List.replicate length 0) (env.flReadChannel trace TIMEOUT chan length).2)])
    else
      .ok (trace ++ [Event.flReadChannel TIMEOUT chan length (some acc.length)
        (env.flReadChannel trace TIMEOUT chan length).1
        (overwrite (List.replicate length 0) (env.flReadChannel trace TIMEOUT chan length).2)],
        acc ++ overwrite (List.replicate length 0)
          (env.flReadChannel trace TIMEOUT chan length).2)
  | .readOne chan =>
    if chan > 127 then .error (FLP_CHAN_RANGE, trace) else
    if env.bufAppendConst trace acc.length 1 ≠ 0 then .error (FLP_LIBERR, trace) else
    if (env.flReadChannel trace TIMEOUT chan 1).1 ≠ 0 then
      .error (FLP_LIBERR, trace ++ [Event.flReadChannel TIMEOUT chan 1 (some acc.length)
        (env.flReadChannel trace TIMEOUT chan 1).1
        (overwrite (List.replicate 1 0) (env.flReadChannel trace TIMEOUT chan 1).2)])
    else
      .ok (trace ++ [Event.flReadChannel TIMEOUT chan 1 (some acc.length)
        (env.flReadChannel trace TIMEOUT chan 1).1
        (overwrite (List.replicate 1 0) (env.flReadChannel trace TIMEOUT chan 1).2)],
        acc ++ overwrite (List.replicate 1 0) (env.flReadChannel trace TIMEOUT chan 1).2)
  | .readTo chan length _ name =>
    if chan > 127 then .error (FLP_CHAN_RANGE, trace) else
    let stored := overwrite (List.replicate length 0)
      (env.flReadChannel trace TIMEOUT chan length).2
    let trace1 := trace ++ [Event.flReadChannel TIMEOUT chan length none
      (env.flReadChannel trace TIMEOUT chan length).1 stored]
    if (env.flReadChannel trace TIMEOUT chan length).1 ≠ 0 then .error (FLP_LIBERR, trace1) else
    let trace2 := trace1 ++ [Event.fopen name (env.fopen trace1 name)]
    if env.fopen trace1 name = false then .error (FLP_CANNOT_SAVE, trace2) else
    let trace3 := trace2 ++
      [Event.fwrite name stored length (env.fwrite trace2 name stored length)]
    if env.fwrite trace2 name stored length ≠ length then .error (FLP_CANNOT_SAVE, trace3) else
    .ok (trace3 ++ [Event.fclose name], acc)
  | .write chan digits =>
    if chan > 127 then .error (FLP_CHAN_RANGE, trace) else
    if digits.length % 2 ≠ 0 then .error (FLP_ODD_DIGITS, trace) else
    let status := env.flWriteChannel trace TIMEOUT chan (digits.length / 2)
      (some (hexPairs digits))
    let trace1 := trace ++ [Event.flWriteChannel TIMEOUT chan (digits.length / 2)
      (some (hexPairs digits)) status]
    if status ≠ 0 then .error (FLP_LIBERR, trace1) else .ok (trace1, acc)
  | .writeFrom chan _ name =>
    if chan > 127 then .error (FLP_CHAN_RANGE, trace) else
    match env.flLoadFile trace name with
    | none => .error (FLP_CANNOT_LOAD, trace ++ [Event.flLoadFile name none])
    | some bytes =>
      let trace1 := trace ++ [Event.flLoadFile name (some bytes)]
      let status := env.flWriteChannel trace1 TIMEOUT chan bytes.length (some bytes)
      let trace2 := trace1 ++
        [Event.flWriteChannel TIMEOUT chan bytes.length (some bytes) status]
      if status ≠ 0 then .error (FLP_LIBERR, trace2) else .ok (trace2, acc)
  | .conduit n =>
    if n > 255 then .error (FLP_CONDUIT_RANGE, trace) else
    let status := env.flFifoMode trace n
    let trace1 := trace ++ [Event.flFifoMode n status]
    if status ≠ 0 then .error (FLP_LIBERR, trace1) else .ok (trace1, acc)
  | .unknown _ => .error (FLP_ILL_CHAR, trace)

/-- The specification's account of a chain: the commands are carried out from
left to right, each from the calls and the accumulator the one before it left,
and the first command that fails ends the chain with its error; no later
command is looked at. -/
def specChain (env : Env) :
    List ChainCmd → List Event → List Nat →
      Except (ReturnCode × List Event) (List Event × List Nat)
  | [], trace, acc => .ok (trace, acc)
  | cmd :: rest, trace, acc =>
    (specStep env cmd trace acc).bind fun next => specChain env rest next.1 next.2

/-- The specification's account of an invocation on a chain: the result and
the calls made up to the label `cleanup`. A failure to set up the accumulator
is `FLP_LIBERR` with no call; a chain that fails yields its error and its
calls; a chain that succeeds yields `FLP_SUCCESS` and its calls followed by one
`dump` of the accumulator at base address 0. -/
def specOutcome (env : Env) (chain : List ChainCmd) : ReturnCode × List Event :=
  if env.bufInitialise ≠ 0 then (FLP_LIBERR, []) else
  match specChain env chain [] [] with
  | .error failure => failure
  | .ok (trace, acc) => (FLP_SUCCESS, trace ++ [Event.dump 0 acc acc.length])

/-- A piece of `parseLine` agrees with the specification's account of it: both
fail with the same code and the same calls, or both succeed with the same
calls and the same accumulator, the cursor at `ptr` and no file name held. -/
def Agrees (out : Exec)
    (spec : Except (ReturnCode × List Event) (List Event × List Nat)) (ptr : Nat) : Prop :=
  match out, spec with
  | .error (code, st), .error (code', trace) => code = code' ∧ st.trace = trace
  | .ok st, .ok (trace, acc) =>
    st.trace = trace ∧ st.dataFromFPGA = acc ∧ st.ptr = ptr ∧ st.fileName = none
  | _, _ => False

/-- Whether an event is a call to the device: `flReadChannel`, `flWriteChannel`
or `flFifoMode`. -/
def Event.isDeviceOp : Event → Bool
  | .flReadChannel _ _ _ _ _ _ => true
  | .flWriteChannel _ _ _ _ _ => true
  | .flFifoMode _ _ => true
  | _ => false

/-- The device operations of a trace, in the order they were issued. -/
def deviceOps (trace : List Event) : List Event :=
  trace.filter Event.isDeviceOp

/-! ## Facts about the cursor helpers -/

theorem bind_ok {ε α β : Type} (a : α) (f : α → Except ε β) :
    (Except.ok a : Except ε α).bind f = f a := rfl

theorem bind_error {ε α β : Type} (e : ε) (f : α → Except ε β) :
    (Except.error e : Except ε α).bind f = Except.error e := rfl

theorem peek_eq_headD (line : List Char) (ptr : Nat) :
    peek line ptr = (line.drop ptr).headD NUL := by
  unfold peek
  rw [List.getD_eq_getElem?_getD, List.headD_eq_head?_getD, List.head?_drop]

theorem peek_of_drop {line : List Char} {ptr : Nat} {c : Char} {rest : List Char}
    (h : line.drop ptr = c :: rest) : peek line ptr = c := by
  rw [peek_eq_headD, h]; rfl

theorem peek_of_drop_nil {line : List Char} {ptr : Nat}
    (h : line.drop ptr = []) : peek line ptr = NUL := by
  rw [peek_eq_headD, h]; rfl

theorem drop_add_of_drop {line : List Char} {ptr : Nat} {pre rest : List Char}
    (h : line.drop ptr = pre ++ rest) : line.drop (ptr + pre.length) = rest := by
  rw [← List.drop_drop, h, List.drop_left]

theorem takeWhile_run {p : Char → Bool} {ds rest : List Char}
    (hds : ∀ c ∈ ds, p c = true) (hrest : ∀ c, rest.head? = some c → p c = false) :
    (ds ++ rest).takeWhile p = ds := by
  induction ds with
  | nil =>
    cases rest with
    | nil => rfl
    | cons c rest => simp [List.takeWhile, hrest c rfl]
  | cons d ds ih =>
    have hd : p d = true := hds d (by simp)
    rw [List.cons_append, List.takeWhile_cons, hd]
    simp only [if_true]
    rw [ih (fun c hc => hds c (by simp [hc]))]

theorem isHexDigit_iff (c : Char) :
    isHexDigit c = true ↔ (getHexNibble c).isSome = true := by
  unfold isHexDigit getHexNibble
  split_ifs with h1 h2 h3 <;> simp_all

theorem isHexDigit_ne {c d : Char} (h : isHexDigit c = true) (hd : isHexDigit d = false) :
    c ≠ d := by
  intro heq
  rw [heq, hd] at h
  exact Bool.false_ne_true h

theorem isspace_of_isHexDigit {c : Char} (h : isHexDigit c = true) : isspace c = false := by
  cases hs : isspace c with
  | false => rfl
  | true =>
    exfalso
    simp only [isspace, Bool.or_eq_true, beq_iff_eq] at hs
    rcases hs with ((((hs | hs) | hs) | hs) | hs) | hs <;>
      exact isHexDigit_ne h (by decide) hs

/-- On a run of hex digits that no hex digit and no `x` follows, `strtoul`
converts exactly the run. -/
theorem strtoul_run (env : Env) {line : List Char} {ptr : Nat} {ds rest : List Char}
    (hdrop : line.drop ptr = ds ++ rest) (hne : ds ≠ [])
    (hds : ∀ c ∈ ds, isHexDigit c = true)
    (hrest : isHexDigit (rest.headD NUL) = false)
    (hx : rest.headD NUL ≠ 'x' ∧ rest.headD NUL ≠ 'X') :
    strtoul env line ptr =
      if hexValue ds > 2 ^ env.ulongBits - 1 then
        { value := 2 ^ env.ulongBits - 1, endp := ptr + ds.length, errno := ERANGE }
      else { value := hexValue ds, endp := ptr + ds.length, errno := 0 } := by
  obtain ⟨d, ds', rfl⟩ := List.exists_cons_of_ne_nil hne
  have hd : isHexDigit d = true := hds d (by simp)
  have hsp : isspace d = false := isspace_of_isHexDigit hd
  have hm : d ≠ '-' := isHexDigit_ne hd (by decide)
  have hp : d ≠ '+' := isHexDigit_ne hd (by decide)
  have hrest' : ∀ c, rest.head? = some c → isHexDigit c = false := by
    intro c hc
    cases rest with
    | nil => simp at hc
    | cons r rest => simp at hc; subst hc; simpa using hrest
  have h1 : ((d :: ds' ++ rest).getD 1 NUL = 'x' ∨ (d :: ds' ++ rest).getD 1 NUL = 'X') → False := by
    cases ds' with
    | nil =>
      cases rest with
      | nil => simp [NUL]
      | cons r rest =>
        simp only [List.headD_cons] at hx
        simp [hx.1, hx.2]
    | cons e ds'' =>
      have he : isHexDigit e = true := hds e (by simp)
      simp [isHexDigit_ne he (show isHexDigit 'x' = false by decide),
        isHexDigit_ne he (show isHexDigit 'X' = false by decide)]
  have htw : (d :: ds' ++ rest).takeWhile isHexDigit = d :: ds' := takeWhile_run hds hrest'
  have hws : (d :: ds' ++ rest).takeWhile isspace = [] := by
    simp [List.takeWhile_cons, hsp]
  have hhead : (d :: ds' ++ rest).headD NUL = d := rfl
  have h0x : ¬ (d = '0' ∧
      ((d :: ds' ++ rest).getD 1 NUL = 'x' ∨ (d :: ds' ++ rest).getD 1 NUL = 'X') ∧
      isHexDigit ((d :: ds' ++ rest).getD 2 NUL) = true) := fun h => h1 h.2.1
  generalize hs : d :: ds' ++ rest = s at hdrop htw hws hhead h0x
  unfold strtoul
  simp only [hdrop, hws, List.length_nil, List.drop_zero, hhead, hm, hp, or_self, if_false,
    h0x, htw, Nat.add_zero, beq_iff_eq, decide_False, Bool.false_eq_true]
  simp [gt_iff_lt]

theorem hexValue_append_singleton (ds : List Char) (c : Char) :
    hexValue (ds ++ [c]) = 16 * hexValue ds + (getHexNibble c).getD 0 := by
  simp [hexValue, List.foldl_append]

theorem getHexNibble_digitChar : ∀ k : Fin 16, getHexNibble (Nat.digitChar k.val) = some k.val := by
  decide

theorem toDigitsCore_hex (fuel : Nat) : ∀ (n : Nat) (ds : List Char), n < fuel →
    ∃ run : List Char, Nat.toDigitsCore 16 fuel n ds = run ++ ds ∧ run ≠ [] ∧
      (∀ c ∈ run, isHexDigit c = true) ∧ hexValue run = n := by
  induction fuel with
  | zero => intro n ds h; omega
  | succ fuel ih =>
    intro n ds hn
    have hdig : getHexNibble (Nat.digitChar (n % 16)) = some (n % 16) :=
      getHexNibble_digitChar ⟨n % 16, Nat.mod_lt _ (by decide)⟩
    have hhex : isHexDigit (Nat.digitChar (n % 16)) = true := by
      rw [isHexDigit_iff, hdig]; rfl
    by_cases h0 : n / 16 = 0
    · refine ⟨[Nat.digitChar (n % 16)], ?_, by simp, ?_, ?_⟩
      · simp [Nat.toDigitsCore, h0]
      · intro c hc
        simp only [List.mem_singleton] at hc
        rw [hc]; exact hhex
      · have := hexValue_append_singleton [] (Nat.digitChar (n % 16))
        simp only [List.nil_append] at this
        rw [this, hdig]
        simp only [hexValue, List.foldl_nil, Option.getD_some]
        omega
    · obtain ⟨run, hrun, -, hall, hval⟩ :=
        ih (n / 16) (Nat.digitChar (n % 16) :: ds) (by omega)
      refine ⟨run ++ [Nat.digitChar (n % 16)], ?_, by simp, ?_, ?_⟩
      · simp [Nat.toDigitsCore, h0, hrun]
      · intro c hc
        rcases List.mem_append.mp hc with hc | hc
        · exact hall c hc
        · simp only [List.mem_singleton] at hc
          rw [hc]; exact hhex
      · rw [hexValue_append_singleton, hval, hdig]
        simp only [Option.getD_some]
        omega

/-- The digits `Nat.toDigits 16 n` (what `%x` prints for `n`) are a non-empty
run of hex digits whose value is `n`. -/
theorem toDigits_hex (n : Nat) :
    Nat.toDigits 16 n ≠ [] ∧ (∀ c ∈ Nat.toDigits 16 n, isHexDigit c = true) ∧
      hexValue (Nat.toDigits 16 n) = n := by
  obtain ⟨run, hrun, hne, hall, hval⟩ := toDigitsCore_hex (n + 1) n [] (Nat.lt_succ_self n)
  rw [List.append_nil] at hrun
  unfold Nat.toDigits
  rw [hrun]
  exact ⟨hne, hall, hval⟩

theorem strtoul_run_small (env : Env) {line : List Char} {ptr : Nat} {ds rest : List Char}
    (hdrop : line.drop ptr = ds ++ rest) (hne : ds ≠ [])
    (hds : ∀ c ∈ ds, isHexDigit c = true)
    (hrest : rest.headD NUL = NUL ∨ rest.headD NUL = ';' ∨ rest.headD NUL = ' ')
    (hW : 32 ≤ env.ulongBits) (hv : hexValue ds < 2 ^ 32) :
    strtoul env line ptr = { value := hexValue ds, endp := ptr + ds.length, errno := 0 } := by
  have h1 : isHexDigit (rest.headD NUL) = false := by
    rcases hrest with h | h | h <;> rw [h] <;> decide
  have h2 : rest.headD NUL ≠ 'x' ∧ rest.headD NUL ≠ 'X' := by
    rcases hrest with h | h | h <;> rw [h] <;> decide
  rw [strtoul_run env hdrop hne hds h1 h2]
  have : 2 ^ 32 ≤ 2 ^ env.ulongBits := Nat.pow_le_pow_right (by decide) hW
  rw [if_neg (by omega)]

theorem readOperands_plain (env : Env) {line : List Char} {st : State} {ld rest : List Char}
    (hdrop : line.drop st.ptr = ' ' :: (ld ++ rest))
    (hlne : ld ≠ []) (hld : ∀ c ∈ ld, isHexDigit c = true)
    (hrest : rest.headD NUL = NUL ∨ rest.headD NUL = ';')
    (hW : 32 ≤ env.ulongBits) (hlen : hexValue ld < 2 ^ 32) :
    readOperands env line st =
      .ok (hexValue ld, { st with ptr := st.ptr + 1 + ld.length }) := by
  have h3 : line.drop (st.ptr + 1) = ld ++ rest := by
    have := @drop_add_of_drop line st.ptr [' '] (ld ++ rest) hdrop
    simpa using this
  have h4 : line.drop (st.ptr + 1 + ld.length) = rest := drop_add_of_drop h3
  have s2 := strtoul_run_small env h3 hlne hld
    (hrest.elim Or.inl (fun h => Or.inr (Or.inl h))) hW hlen
  have p2 : peek line st.ptr = ' ' := peek_of_drop hdrop
  have p4 : peek line (st.ptr + 1 + ld.length) = NUL ∨
      peek line (st.ptr + 1 + ld.length) = ';' := by
    rw [peek_eq_headD, h4]; exact hrest
  have m2 : hexValue ld % 4294967296 = hexValue ld := Nat.mod_eq_of_lt hlen
  unfold readOperands
  simp only [p2, s2, m2]
  rcases p4 with p4 | p4 <;> simp [p4, NUL]

theorem caseRead_plain (env : Env) {line : List Char} {st : State} {cd ld rest : List Char}
    (hdrop : line.drop st.ptr = 'r' :: (cd ++ ' ' :: (ld ++ rest)))
    (hcne : cd ≠ []) (hcd : ∀ c ∈ cd, isHexDigit c = true)
    (hlne : ld ≠ []) (hld : ∀ c ∈ ld, isHexDigit c = true)
    (hrest : rest.headD NUL = NUL ∨ rest.headD NUL = ';')
    (hW : 32 ≤ env.ulongBits) (hchan : hexValue cd ≤ 127) (hlen : hexValue ld < 2 ^ 32) :
    caseRead env line st = readExecute env (hexValue cd) (hexValue ld)
      { st with ptr := st.ptr + 1 + cd.length + 1 + ld.length } := by
  have h1 : line.drop (st.ptr + 1) = cd ++ ' ' :: (ld ++ rest) := by
    have := @drop_add_of_drop line st.ptr ['r'] (cd ++ ' ' :: (ld ++ rest)) hdrop
    simpa using this
  have h2 : line.drop (st.ptr + 1 + cd.length) = ' ' :: (ld ++ rest) := drop_add_of_drop h1
  have s1 := strtoul_run_small env h1 hcne hcd (Or.inr (Or.inr rfl)) hW (by omega)
  have p2 : peek line (st.ptr + 1 + cd.length) = ' ' := peek_of_drop h2
  have m1 : hexValue cd % 4294967296 = hexValue cd := Nat.mod_eq_of_lt (by omega)
  have ro := @readOperands_plain env line { st with ptr := st.ptr + 1 + cd.length } ld rest
    h2 hlne hld hrest hW hlen
  unfold caseRead
  simp only [s1, m1, p2, ro, bind_ok]
  simp [hchan]

theorem skipSemicolons_of_ne {line : List Char} {ptr : Nat} (h : peek line ptr ≠ ';') :
    skipSemicolons line ptr = ptr := by
  unfold skipSemicolons
  rw [peek_eq_headD] at h
  cases hd : line.drop ptr with
  | nil => simp
  | cons c rest =>
    rw [hd] at h
    simp only [List.headD_cons] at h
    simp [List.takeWhile_cons, h]

theorem overwrite_of_length {buf bytes : List Nat} (h : bytes.length = buf.length) :
    overwrite buf bytes = bytes := by
  unfold overwrite
  rw [← h, List.take_length, List.drop_eq_nil_of_le (le_of_eq h.symm), List.append_nil]

theorem length_overwrite (buf bytes : List Nat) : (overwrite buf bytes).length = buf.length := by
  unfold overwrite
  simp only [List.length_append, List.length_take, List.length_drop]
  omega

@[simp] theorem benchmark_ptr (env : Env) (b : Bool) (n : Nat) (d : Option (List Nat)) (c : Nat)
    (st : State) : (benchmark env b n d c st).ptr = st.ptr := by
  unfold benchmark; split <;> rfl

@[simp] theorem benchmark_trace (env : Env) (b : Bool) (n : Nat) (d : Option (List Nat)) (c : Nat)
    (st : State) : (benchmark env b n d c st).trace = st.trace := by
  unfold benchmark; split <;> rfl

@[simp] theorem benchmark_dataFromFPGA (env : Env) (b : Bool) (n : Nat) (d : Option (List Nat))
    (c : Nat) (st : State) : (benchmark env b n d c st).dataFromFPGA = st.dataFromFPGA := by
  unfold benchmark; split <;> rfl

@[simp] theorem benchmark_data (env : Env) (b : Bool) (n : Nat) (d : Option (List Nat)) (c : Nat)
    (st : State) : (benchmark env b n d c st).data = st.data := by
  unfold benchmark; split <;> rfl

@[simp] theorem benchmark_fileName (env : Env) (b : Bool) (n : Nat) (d : Option (List Nat))
    (c : Nat) (st : State) : (benchmark env b n d c st).fileName = st.fileName := by
  unfold benchmark; split <;> rfl

@[simp] theorem benchmark_file (env : Env) (b : Bool) (n : Nat) (d : Option (List Nat)) (c : Nat)
    (st : State) : (benchmark env b n d c st).file = st.file := by
  unfold benchmark; split <;> rfl

theorem command_read_plain (env : Env) {line : List Char} {st : State} {cd ld rest : List Char}
    (hdrop : line.drop st.ptr = 'r' :: (cd ++ ' ' :: (ld ++ rest)))
    (hcne : cd ≠ []) (hcd : ∀ c ∈ cd, isHexDigit c = true)
    (hlne : ld ≠ []) (hld : ∀ c ∈ ld, isHexDigit c = true)
    (hrest : rest.headD NUL = NUL ∨ rest.headD NUL = ';')
    (hW : 32 ≤ env.ulongBits) (hchan : hexValue cd ≤ 127) (hlen : hexValue ld < 2 ^ 32) :
    command env line st = readExecute env (hexValue cd) (hexValue ld)
      { st with ptr := st.ptr + 1 + cd.length + 1 + ld.length } := by
  have hp : peek line st.ptr = 'r' := peek_of_drop hdrop
  have hs : skipSemicolons line st.ptr = st.ptr := skipSemicolons_of_ne (by rw [hp]; decide)
  unfold command
  simp only [hs, hp, if_true]
  exact caseRead_plain env hdrop hcne hcd hlne hld hrest hW hchan hlen

/-- A read into the accumulator: the outcome of `readExecute` when no file name
is set and `bufAppendConst` succeeds. -/
theorem readExecute_accumulate (env : Env) (chan length : Nat) (st : State)
    (hname : st.fileName = none)
    (happend : env.bufAppendConst st.trace st.dataFromFPGA.length length = 0) :
    ∃ st', (readExecute env chan length st = .ok st' ∨
        readExecute env chan length st = .error (FLP_LIBERR, st')) ∧
      (readExecute env chan length st = .ok st' ↔
        (env.flReadChannel st.trace TIMEOUT (chan % 256) length).1 = 0) ∧
      st'.ptr = st.ptr ∧
      st'.dataFromFPGA = st.dataFromFPGA ++
        overwrite (List.replicate length 0)
          (env.flReadChannel st.trace TIMEOUT (chan % 256) length).2 ∧
      st'.trace = st.trace ++ [Event.flReadChannel TIMEOUT (chan % 256) length
        (some st.dataFromFPGA.length) (env.flReadChannel st.trace TIMEOUT (chan % 256) length).1
        (overwrite (List.replicate length 0)
          (env.flReadChannel st.trace TIMEOUT (chan % 256) length).2)] ∧
      st'.data = st.data ∧ st'.fileName = none ∧ st'.file = st.file := by
  unfold readExecute
  simp only [hname, happend]
  by_cases hs : (env.flReadChannel st.trace TIMEOUT (chan % 256) length).1 = 0
  · simp [hs, hname]
  · simp [hs, hname]

theorem peek_of_length_le {line : List Char} {ptr : Nat} (h : line.length ≤ ptr) :
    peek line ptr = NUL := by
  unfold peek
  rw [List.getD_eq_getElem?_getD, List.getElem?_eq_none h]; rfl

theorem parseLoop_succ (env : Env) (line : List Char) (fuel : Nat) (st : State) :
    parseLoop env line (fuel + 1) st =
      match command env line st with
      | .error e => some (.error e)
      | .ok st => if peek line st.ptr = ';' then parseLoop env line fuel st else some (.ok st) :=
  rfl

theorem parseLoop_last {env : Env} {line : List Char} {st st' : State} (fuel : Nat)
    (hcmd : command env line st = .ok st') (hpeek : peek line st'.ptr ≠ ';') :
    parseLoop env line (fuel + 1) st = some (.ok st') := by
  rw [parseLoop_succ, hcmd]
  simp only [hpeek, if_false]

theorem parseLoop_error {env : Env} {line : List Char} {st : State} {e : ReturnCode × State}
    (fuel : Nat) (hcmd : command env line st = .error e) :
    parseLoop env line (fuel + 1) st = some (.error e) := by
  rw [parseLoop_succ, hcmd]

theorem parseLoop_continue {env : Env} {line : List Char} {st st' : State} (fuel : Nat)
    (hcmd : command env line st = .ok st') (hpeek : peek line st'.ptr = ';') :
    parseLoop env line (fuel + 1) st = parseLoop env line fuel st' := by
  rw [parseLoop_succ, hcmd]
  simp only [hpeek, if_true]

theorem parseLine_of_ok {env : Env} {line : List Char} {st : State}
    (hinit : env.bufInitialise = 0)
    (hloop : parseLoop env line (line.length + 1) initialState = some (.ok st))
    (hpeek : peek line st.ptr = NUL) :
    parseLine env line = some (cleanup line FLP_SUCCESS
      { st with trace := st.trace ++ [Event.dump 0 st.dataFromFPGA st.dataFromFPGA.length] }) := by
  unfold parseLine
  rw [if_neg (by simp [hinit]), hloop]
  simp only [hpeek, ne_eq, not_true_eq_false, if_false]

theorem parseLine_of_trailing {env : Env} {line : List Char} {st : State}
    (hinit : env.bufInitialise = 0)
    (hloop : parseLoop env line (line.length + 1) initialState = some (.ok st))
    (hpeek : peek line st.ptr ≠ NUL) :
    parseLine env line = some (cleanup line FLP_ILL_CHAR st) := by
  unfold parseLine
  rw [if_neg (by simp [hinit]), hloop]
  simp only [hpeek, ne_eq, not_false_eq_true, if_true]

theorem parseLine_of_error {env : Env} {line : List Char} {st : State} {code : ReturnCode}
    (hinit : env.bufInitialise = 0)
    (hloop : parseLoop env line (line.length + 1) initialState = some (.error (code, st))) :
    parseLine env line = some (cleanup line code st) := by
  unfold parseLine
  rw [if_neg (by simp [hinit]), hloop]

@[simp] theorem deviceOps_nil : deviceOps [] = [] := rfl

@[simp] theorem deviceOps_append (a b : List Event) :
    deviceOps (a ++ b) = deviceOps a ++ deviceOps b := by
  simp [deviceOps]

/-- C1. For every channel `chan` in 0..127 and every `length` below `2^32`, on the
action string `r<chan in hex> <length in hex>` (with the accumulator set up and
grown successfully) `parseLine` returns, and the device operations it issued are
exactly one `flReadChannel` call, with timeout 600000, for channel `chan`, of
`length` bytes, into the accumulator at its previous tail (offset 0); when that
call succeeds and returns `length` bytes, the result is `FLP_SUCCESS` and the
accumulator holds exactly those bytes. In any state without a file name, a
successful read appends the bytes returned at the previous tail of the
accumulator. -/
theorem read_command_issues_one_read (env : Env) (chan length : Nat)
    (hW : 32 ≤ env.ulongBits) (hchan : chan ≤ 127) (hlen : length < 2 ^ 32)
    (hinit : env.bufInitialise = 0) (happend : env.bufAppendConst [] 0 length = 0) :
    (∃ r stored,
      parseLine env ('r' :: (Nat.toDigits 16 chan ++ ' ' :: Nat.toDigits 16 length)) = some r ∧
      deviceOps r.final.trace =
        [Event.flReadChannel 600000 chan length (some 0)
          (env.flReadChannel [] 600000 chan length).1 stored] ∧
      stored.length = length ∧
      ((env.flReadChannel [] 600000 chan length).1 = 0 →
        (env.flReadChannel [] 600000 chan length).2.length = length →
          r.returnCode = FLP_SUCCESS ∧
          stored = (env.flReadChannel [] 600000 chan length).2 ∧
          r.atCleanup.dataFromFPGA = (env.flReadChannel [] 600000 chan length).2)) ∧
    (∀ st : State, st.fileName = none →
      env.bufAppendConst st.trace st.dataFromFPGA.length length = 0 →
      (env.flReadChannel st.trace 600000 chan length).1 = 0 →
      (env.flReadChannel st.trace 600000 chan length).2.length = length →
      ∃ st', readExecute env chan length st = .ok st' ∧
        st'.dataFromFPGA =
          st.dataFromFPGA ++ (env.flReadChannel st.trace 600000 chan length).2) := by
  have hc256 : chan % 256 = chan := Nat.mod_eq_of_lt (by omega)
  constructor
  · obtain ⟨hcne, hcd, hcv⟩ := toDigits_hex chan
    obtain ⟨hlne, hld, hlv⟩ := toDigits_hex length
    generalize Nat.toDigits 16 chan = cd at hcne hcd hcv
    generalize Nat.toDigits 16 length = ld at hlne hld hlv
    have hdrop : List.drop initialState.ptr ('r' :: (cd ++ ' ' :: ld)) =
        'r' :: (cd ++ ' ' :: (ld ++ [])) := by
      simp [initialState]
    have hcmd := command_read_plain env hdrop hcne hcd hlne hld (Or.inl rfl) hW
      (by omega) (by omega)
    rw [hcv, hlv] at hcmd
    obtain ⟨st', hres, hok, hptr, hacc, htrace, -, -, hfile⟩ :=
      readExecute_accumulate env chan length
        { initialState with ptr := initialState.ptr + 1 + cd.length + 1 + ld.length } rfl
        (by simpa [initialState] using happend)
    simp only [initialState, hc256, TIMEOUT, List.length_nil, List.nil_append, Nat.zero_add,
      Nat.reduceMul] at hres hok hptr hacc htrace hfile hcmd
    have hpeek : peek ('r' :: (cd ++ ' ' :: ld)) st'.ptr = NUL :=
      peek_of_length_le (by rw [hptr]; simp; omega)
    have hlenS : (overwrite (List.replicate length 0)
        (env.flReadChannel [] 600000 chan length).2).length = length := by
      rw [length_overwrite, List.length_replicate]
    rcases hres with hres | hres
    · have hst := hok.mp hres
      rw [← hcmd] at hres
      have hloop := parseLoop_last (('r' :: (cd ++ ' ' :: ld)).length) hres
        (by rw [hpeek]; decide)
      refine ⟨_, overwrite (List.replicate length 0) (env.flReadChannel [] 600000 chan length).2,
        parseLine_of_ok hinit hloop hpeek, ?_, hlenS, ?_⟩
      · simp [cleanup, hfile, htrace, deviceOps, List.filter, Event.isDeviceOp]
      · intro _ hl
        have hov := overwrite_of_length
          (show (env.flReadChannel [] 600000 chan length).2.length
            = (List.replicate length 0).length by rw [hl, List.length_replicate])
        simp [cleanup, hacc, hov]
    · have hst : ¬ (env.flReadChannel [] 600000 chan length).1 = 0 := by
        intro h
        have := hok.mpr h
        rw [hres] at this
        cases this
      rw [← hcmd] at hres
      have hloop := parseLoop_error (('r' :: (cd ++ ' ' :: ld)).length) hres
      refine ⟨_, overwrite (List.replicate length 0) (env.flReadChannel [] 600000 chan length).2,
        parseLine_of_error hinit hloop, ?_, hlenS, ?_⟩
      · simp [cleanup, hfile, htrace, deviceOps, List.filter, Event.isDeviceOp]
      · intro h; exact absurd h hst
  · intro st hname happ hstat hl
    obtain ⟨st', hres, hok, -, hacc, -⟩ := readExecute_accumulate env chan length st hname happ
    rw [hc256] at hok hacc
    simp only [TIMEOUT, Nat.reduceMul] at hok hacc
    refine ⟨st', hok.mpr hstat, ?_⟩
    rw [hacc, overwrite_of_length (by rw [hl, List.length_replicate])]

theorem read_command_issues_one_read_witness :
    (32 ≤ idealEnv.ulongBits ∧ 5 ≤ 127 ∧ 16 < 2 ^ 32 ∧ idealEnv.bufInitialise = 0 ∧
      idealEnv.bufAppendConst [] 0 16 = 0) ∧
    ((∃ r stored,
      parseLine idealEnv ('r' :: (Nat.toDigits 16 5 ++ ' ' :: Nat.toDigits 16 16)) = some r ∧
      deviceOps r.final.trace =
        [Event.flReadChannel 600000 5 16 (some 0)
          (idealEnv.flReadChannel [] 600000 5 16).1 stored] ∧
      stored.length = 16 ∧
      ((idealEnv.flReadChannel [] 600000 5 16).1 = 0 →
        (idealEnv.flReadChannel [] 600000 5 16).2.length = 16 →
          r.returnCode = FLP_SUCCESS ∧
          stored = (idealEnv.flReadChannel [] 600000 5 16).2 ∧
          r.atCleanup.dataFromFPGA = (idealEnv.flReadChannel [] 600000 5 16).2)) ∧
    (∀ st : State, st.fileName = none →
      idealEnv.bufAppendConst st.trace st.dataFromFPGA.length 16 = 0 →
      (idealEnv.flReadChannel st.trace 600000 5 16).1 = 0 →
      (idealEnv.flReadChannel st.trace 600000 5 16).2.length = 16 →
      ∃ st', readExecute idealEnv 5 16 st = .ok st' ∧
        st'.dataFromFPGA =
          st.dataFromFPGA ++ (idealEnv.flReadChannel st.trace 600000 5 16).2)) :=
  ⟨⟨by decide, by decide, by decide, rfl, rfl⟩,
    read_command_issues_one_read idealEnv 5 16 (by decide) (by decide) (by decide) rfl rfl⟩

theorem char_le_iff (a b : Char) : a ≤ b ↔ a.toNat ≤ b.toNat := by
  rw [Char.le_def]
  exact Iff.rfl

theorem getHexNibble_lt {c : Char} {v : Nat} (h : getHexNibble c = some v) : v < 16 := by
  unfold getHexNibble at h
  simp only [char_le_iff] at h
  have e0 : '0'.toNat = 48 := rfl
  have e9 : '9'.toNat = 57 := rfl
  have ea : 'a'.toNat = 97 := rfl
  have ef : 'f'.toNat = 102 := rfl
  have eA : 'A'.toNat = 65 := rfl
  have eF : 'F'.toNat = 70 := rfl
  rw [e0, e9, ea, ef, eA, eF] at h
  split_ifs at h with h1 h2 h3 <;> simp only [Option.some.injEq] at h <;> omega

theorem shift_or_nibbles {u l : Nat} (hu : u < 16) (hl : l < 16) :
    ((u <<< 4) ||| l) % 256 = 16 * u + l := by
  interval_cases u <;> interval_cases l <;> rfl

theorem getHexNibble_of_hex {c : Char} (h : isHexDigit c = true) :
    getHexNibble c = some (digitValue c) := by
  rw [isHexDigit_iff, Option.isSome_iff_exists] at h
  obtain ⟨v, hv⟩ := h
  simp [digitValue, hv]

theorem digitValue_lt (c : Char) : digitValue c < 16 := by
  unfold digitValue
  cases h : getHexNibble c with
  | none => simp
  | some v => simpa using getHexNibble_lt h

theorem getHexByte_of_drop {line : List Char} {ptr : Nat} {a b : Char} {rest : List Char}
    (hdrop : line.drop ptr = a :: b :: rest)
    (ha : isHexDigit a = true) (hb : isHexDigit b = true) :
    getHexByte line ptr = some (16 * digitValue a + digitValue b) := by
  have p0 : peek line ptr = a := peek_of_drop hdrop
  have h1 : line.drop (ptr + 1) = b :: rest := by
    have := @drop_add_of_drop line ptr [a] (b :: rest) hdrop
    simpa using this
  have p1 : peek line (ptr + 1) = b := peek_of_drop h1
  unfold getHexByte
  simp only [p0, p1, getHexNibble_of_hex ha, getHexNibble_of_hex hb,
    shift_or_nibbles (digitValue_lt a) (digitValue_lt b)]

theorem hexByteLoop_run {line : List Char} (n : Nat) :
    ∀ (ptr : Nat) (acc : List Nat) (ds rest : List Char),
      line.drop ptr = ds ++ rest → (∀ c ∈ ds, isHexDigit c = true) → ds.length = 2 * n →
      hexByteLoop line n ptr acc = (ptr + 2 * n, acc ++ hexPairs ds) := by
  induction n with
  | zero =>
    intro ptr acc ds rest _ _ hlen
    have : ds = [] := List.length_eq_zero.mp (by omega)
    subst this
    simp [hexByteLoop, hexPairs]
  | succ n ih =>
    intro ptr acc ds rest hdrop hds hlen
    match ds, hlen, hds, hdrop with
    | a :: b :: ds', hlen, hds, hdrop =>
      have ha : isHexDigit a = true := hds a (by simp)
      have hb : isHexDigit b = true := hds b (by simp)
      have hbyte := @getHexByte_of_drop line ptr a b (ds' ++ rest) hdrop ha hb
      have h2 : line.drop (ptr + 2) = ds' ++ rest := by
        have := @drop_add_of_drop line ptr [a, b] (ds' ++ rest) hdrop
        simpa using this
      have := ih (ptr + 2) (acc ++ [16 * digitValue a + digitValue b]) ds' rest h2
        (fun c hc => hds c (by simp [hc])) (by simp at hlen; omega)
      simp only [hexByteLoop, hbyte, Option.getD_some, this, hexPairs]
      simp
      omega
    | [_], hlen, _, _ => simp at hlen; omega
    | [], hlen, _, _ => simp at hlen

theorem length_hexPairs : ∀ ds : List Char, (hexPairs ds).length = ds.length / 2
  | [] => rfl
  | [_] => by simp [hexPairs]
  | a :: b :: ds => by
    simp only [hexPairs, List.length_cons, length_hexPairs ds]
    omega

theorem getElem?_hexPairs : ∀ (ds : List Char) (i : Nat), i < ds.length / 2 →
    (hexPairs ds)[i]? =
      some (16 * digitValue (ds.getD (2 * i) NUL) + digitValue (ds.getD (2 * i + 1) NUL))
  | [], i, h => by simp at h
  | [_], i, h => by simp only [List.length_singleton] at h; omega
  | a :: b :: ds, 0, _ => by simp [hexPairs]
  | a :: b :: ds, i + 1, h => by
    have := getElem?_hexPairs ds i (by simp only [List.length_cons] at h; omega)
    simp only [hexPairs, List.getElem?_cons_succ, this]
    have e1 : 2 * (i + 1) = (2 * i + 1) + 1 := by omega
    have e2 : 2 * (i + 1) + 1 = (2 * i + 1 + 1) + 1 := by omega
    rw [e1]
    simp only [List.getD_cons_succ]

theorem scanHexRun_of_drop {line : List Char} {ptr : Nat} {ds rest : List Char}
    (hdrop : line.drop ptr = ds ++ rest) (hne : ds ≠ [])
    (hds : ∀ c ∈ ds, isHexDigit c = true) (hrest : isHexDigit (rest.headD NUL) = false) :
    scanHexRun line ptr = ptr + ds.length := by
  obtain ⟨d, ds', rfl⟩ := List.exists_cons_of_ne_nil hne
  have h1 : line.drop (ptr + 1) = ds' ++ rest := by
    have := @drop_add_of_drop line ptr [d] (ds' ++ rest) hdrop
    simpa using this
  have hrest' : ∀ c, rest.head? = some c → isHexDigit c = false := by
    intro c hc
    cases rest with
    | nil => simp at hc
    | cons r rest => simp at hc; subst hc; simpa using hrest
  unfold scanHexRun
  rw [h1, takeWhile_run (fun c hc => hds c (by simp [hc])) hrest']
  simp only [List.length_cons]
  omega

theorem writeOperands_hex (env : Env) {line : List Char} {st : State} {ds rest : List Char}
    (hdrop : line.drop st.ptr = ' ' :: (ds ++ rest)) (hne : ds ≠ [])
    (hds : ∀ c ∈ ds, isHexDigit c = true) (hrest : isHexDigit (rest.headD NUL) = false)
    (hlen : ds.length < 2 ^ 32) :
    writeOperands env line st =
      if ds.length % 2 ≠ 0 then .error (FLP_ODD_DIGITS, { st with ptr := st.ptr + 1 })
      else .ok (ds.length / 2,
        { st with data := some (hexPairs ds), ptr := st.ptr + 1 + ds.length }) := by
  have p0 : peek line st.ptr = ' ' := peek_of_drop hdrop
  have h1 : line.drop (st.ptr + 1) = ds ++ rest := by
    have := @drop_add_of_drop line st.ptr [' '] (ds ++ rest) hdrop
    simpa using this
  obtain ⟨d, ds', hd⟩ := List.exists_cons_of_ne_nil hne
  have hdhex : isHexDigit d = true := hds d (by simp [hd])
  have p1 : peek line (st.ptr + 1) = d := by
    rw [hd] at h1
    exact peek_of_drop h1
  have hq : ¬ (d = DQUOTE ∨ d = SQUOTE) := by
    intro h
    rcases h with h | h
    · exact isHexDigit_ne hdhex (by decide) h
    · exact isHexDigit_ne hdhex (by decide) h
  have hscan := scanHexRun_of_drop h1 hne hds hrest
  have hmod : ds.length % 4294967296 = ds.length := Nat.mod_eq_of_lt hlen
  unfold writeOperands
  simp only [p0, p1, hq, hdhex, hscan, if_true, if_false, Nat.add_sub_cancel_left, hmod]
  by_cases hodd : ds.length % 2 = 0
  · have hloop := @hexByteLoop_run line (ds.length / 2) (st.ptr + 1) [] ds rest h1 hds
      (by omega)
    have e : st.ptr + 1 + 2 * (ds.length / 2) = st.ptr + 1 + ds.length := by omega
    simp [hodd, hloop, e]
  · simp [hodd]

theorem caseWrite_hex (env : Env) {line : List Char} {st : State} {cd ds rest : List Char}
    (hdrop : line.drop st.ptr = 'w' :: (cd ++ ' ' :: (ds ++ rest)))
    (hcne : cd ≠ []) (hcd : ∀ c ∈ cd, isHexDigit c = true)
    (hne : ds ≠ []) (hds : ∀ c ∈ ds, isHexDigit c = true)
    (hrest : isHexDigit (rest.headD NUL) = false)
    (hW : 32 ≤ env.ulongBits) (hchan : hexValue cd ≤ 127) (hlen : ds.length < 2 ^ 32) :
    caseWrite env line st =
      if ds.length % 2 ≠ 0 then
        .error (FLP_ODD_DIGITS, { st with ptr := st.ptr + 1 + cd.length + 1 })
      else
        let fStatus := env.flWriteChannel st.trace TIMEOUT (hexValue cd) (ds.length / 2)
          (some (hexPairs ds))
        let st' := benchmark env false (ds.length / 2) (some (hexPairs ds)) (hexValue cd)
          { st with
            ptr := st.ptr + 1 + cd.length + 1 + ds.length,
            data := some (hexPairs ds),
            trace := st.trace ++ [Event.flWriteChannel TIMEOUT (hexValue cd) (ds.length / 2)
              (some (hexPairs ds)) fStatus] }
        if fStatus ≠ 0 then .error (FLP_LIBERR, st') else .ok { st' with data := none } := by
  have h1 : line.drop (st.ptr + 1) = cd ++ ' ' :: (ds ++ rest) := by
    have := @drop_add_of_drop line st.ptr ['w'] (cd ++ ' ' :: (ds ++ rest)) hdrop
    simpa using this
  have h2 : line.drop (st.ptr + 1 + cd.length) = ' ' :: (ds ++ rest) := drop_add_of_drop h1
  have s1 := strtoul_run_small env h1 hcne hcd (Or.inr (Or.inr rfl)) hW (by omega)
  have p2 : peek line (st.ptr + 1 + cd.length) = ' ' := peek_of_drop h2
  have m1 : hexValue cd % 256 = hexValue cd := Nat.mod_eq_of_lt (by omega)
  have wo := @writeOperands_hex env line { st with ptr := st.ptr + 1 + cd.length } ds rest
    h2 hne hds hrest hlen
  unfold caseWrite
  simp only [s1, m1, p2, wo]
  by_cases hodd : ds.length % 2 = 0
  · simp [hodd, hchan, bind_ok]
  · simp [hodd, hchan, bind_error]

theorem command_of_w {env : Env} {line : List Char} {st : State}
    (hp : peek line st.ptr = 'w') : command env line st = caseWrite env line st := by
  have hs : skipSemicolons line st.ptr = st.ptr := skipSemicolons_of_ne (by rw [hp]; decide)
  unfold command
  simp [hs, hp]

theorem command_of_r {env : Env} {line : List Char} {st : State}
    (hp : peek line st.ptr = 'r') : command env line st = caseRead env line st := by
  have hs : skipSemicolons line st.ptr = st.ptr := skipSemicolons_of_ne (by rw [hp]; decide)
  unfold command
  simp [hs, hp]

theorem command_of_plus {env : Env} {line : List Char} {st : State}
    (hp : peek line st.ptr = '+') : command env line st = casePlus env line st := by
  have hs : skipSemicolons line st.ptr = st.ptr := skipSemicolons_of_ne (by rw [hp]; decide)
  unfold command
  simp [hs, hp]

/-- C2. For a write command `w<chan in hex> <run of hex digits>` with `chan` in
0..127: when the run has an odd number of digits `parseLine` fails with
`FLP_ODD_DIGITS` (9) and issues no device operation; when it has an even number
`2n` of digits, the device operations are exactly one `flWriteChannel` call, with
timeout 600000, to channel `chan`, of length `n`, whose byte `i` is
`16 * value(digit 2i) + value(digit 2i+1)`, and the result is `FLP_SUCCESS`
when that call succeeds. -/
theorem write_hex_run_decodes_pairs (env : Env) (chan : Nat) (ds : List Char)
    (hW : 32 ≤ env.ulongBits) (hchan : chan ≤ 127)
    (hne : ds ≠ []) (hds : ∀ c ∈ ds, isHexDigit c = true) (hlen : ds.length < 2 ^ 32)
    (hinit : env.bufInitialise = 0) :
    ∃ r, parseLine env ('w' :: (Nat.toDigits 16 chan ++ ' ' :: ds)) = some r ∧
      (ds.length % 2 = 1 →
        r.returnCode = FLP_ODD_DIGITS ∧ r.returnCode.toNat = 9 ∧ deviceOps r.final.trace = []) ∧
      (ds.length % 2 = 0 → ∃ data status,
        deviceOps r.final.trace =
          [Event.flWriteChannel 600000 chan (ds.length / 2) (some data) status] ∧
        data.length = ds.length / 2 ∧
        (∀ i, i < ds.length / 2 → data[i]? =
          some (16 * digitValue (ds.getD (2 * i) NUL) + digitValue (ds.getD (2 * i + 1) NUL))) ∧
        (status = 0 → r.returnCode = FLP_SUCCESS)) := by
  obtain ⟨hcne, hcd, hcv⟩ := toDigits_hex chan
  generalize Nat.toDigits 16 chan = cd at hcne hcd hcv
  have hdrop : List.drop initialState.ptr ('w' :: (cd ++ ' ' :: ds)) =
      'w' :: (cd ++ ' ' :: (ds ++ [])) := by
    simp [initialState]
  have hcase := caseWrite_hex env hdrop hcne hcd hne hds (by decide) hW (by omega) hlen
  rw [← command_of_w (peek_of_drop hdrop), hcv] at hcase
  by_cases hodd : ds.length % 2 = 0
  · simp only [hodd, ne_eq, not_true_eq_false, if_false] at hcase
    by_cases hst : env.flWriteChannel initialState.trace TIMEOUT chan (ds.length / 2)
        (some (hexPairs ds)) = 0
    · simp only [hst, ne_eq, not_true_eq_false, if_false] at hcase
      have hloop := parseLoop_last (('w' :: (cd ++ ' ' :: ds)).length) hcase
        (by rw [peek_of_length_le (by simp [initialState]; omega)]; decide)
      have hfin := parseLine_of_ok hinit hloop
        (peek_of_length_le (by simp [initialState]; omega))
      refine ⟨_, hfin, fun h => by omega, fun _ => ⟨hexPairs ds, 0, ?_, length_hexPairs ds,
        getElem?_hexPairs ds, fun _ => rfl⟩⟩
      simp [cleanup, initialState, deviceOps, List.filter, Event.isDeviceOp, TIMEOUT]
    · simp only [hst, ne_eq, not_false_eq_true, if_true] at hcase
      have hloop := parseLoop_error (('w' :: (cd ++ ' ' :: ds)).length) hcase
      have hfin := parseLine_of_error hinit hloop
      refine ⟨_, hfin, fun h => by omega, fun _ => ⟨hexPairs ds,
        env.flWriteChannel [] 600000 chan (ds.length / 2) (some (hexPairs ds)), ?_,
        length_hexPairs ds, getElem?_hexPairs ds, fun h => ?_⟩⟩
      · simp [cleanup, initialState, deviceOps, List.filter, Event.isDeviceOp, TIMEOUT]
      · exact absurd h hst
  · simp only [hodd, ne_eq, not_false_eq_true, if_true] at hcase
    have hloop := parseLoop_error (('w' :: (cd ++ ' ' :: ds)).length) hcase
    have hfin := parseLine_of_error hinit hloop
    refine ⟨_, hfin, fun _ => ⟨rfl, rfl, ?_⟩, fun h => absurd h hodd⟩
    simp [cleanup, initialState, deviceOps]

theorem write_hex_run_decodes_pairs_witness :
    (32 ≤ idealEnv.ulongBits ∧ 0 ≤ 127 ∧ ['1', 'a', '2', 'b'] ≠ [] ∧
      (∀ c ∈ ['1', 'a', '2', 'b'], isHexDigit c = true) ∧
      ['1', 'a', '2', 'b'].length < 2 ^ 32 ∧ idealEnv.bufInitialise = 0) ∧
    ∃ r, parseLine idealEnv ('w' :: (Nat.toDigits 16 0 ++ ' ' :: ['1', 'a', '2', 'b'])) = some r ∧
      (['1', 'a', '2', 'b'].length % 2 = 1 →
        r.returnCode = FLP_ODD_DIGITS ∧ r.returnCode.toNat = 9 ∧ deviceOps r.final.trace = []) ∧
      (['1', 'a', '2', 'b'].length % 2 = 0 → ∃ data status,
        deviceOps r.final.trace =
          [Event.flWriteChannel 600000 0 (['1', 'a', '2', 'b'].length / 2) (some data) status] ∧
        data.length = ['1', 'a', '2', 'b'].length / 2 ∧
        (∀ i, i < ['1', 'a', '2', 'b'].length / 2 → data[i]? =
          some (16 * digitValue (['1', 'a', '2', 'b'].getD (2 * i) NUL) +
            digitValue (['1', 'a', '2', 'b'].getD (2 * i + 1) NUL))) ∧
        (status = 0 → r.returnCode = FLP_SUCCESS)) :=
  ⟨⟨by decide, by decide, by decide, by decide, by decide, rfl⟩,
    write_hex_run_decodes_pairs idealEnv 0 ['1', 'a', '2', 'b'] (by decide) (by decide)
      (by decide) (by decide) (by decide) rfl⟩

/-- The two examples of the specification: `w0 1a2` fails with `FLP_ODD_DIGITS`
without a device operation, `w0 1a2b` writes the bytes `0x1a, 0x2b` to channel 0. -/
theorem write_hex_run_examples :
    (parseLine idealEnv "w0 1a2".data).map (fun r => (r.returnCode, deviceOps r.final.trace))
      = some (FLP_ODD_DIGITS, []) ∧
    (parseLine idealEnv "w0 1a2b".data).map (fun r => (r.returnCode, deviceOps r.final.trace))
      = some (FLP_SUCCESS, [Event.flWriteChannel 600000 0 2 (some [0x1a, 0x2b]) 0]) := by
  constructor <;> rfl

/-- `strtoul` on a run of hex digits that ends the string. -/
theorem strtoul_run_end (env : Env) {line : List Char} {ptr : Nat} {ds : List Char}
    (hdrop : line.drop ptr = ds) (hne : ds ≠ []) (hds : ∀ c ∈ ds, isHexDigit c = true) :
    strtoul env line ptr =
      if hexValue ds > 2 ^ env.ulongBits - 1 then
        { value := 2 ^ env.ulongBits - 1, endp := ptr + ds.length, errno := ERANGE }
      else { value := hexValue ds, endp := ptr + ds.length, errno := 0 } :=
  strtoul_run env (by rw [hdrop, List.append_nil]) hne hds (by decide) (by decide)

theorem two_pow_pos' (n : Nat) : 0 < 2 ^ n := Nat.pow_pos (by decide)

theorem caseRead_range (env : Env) (ds : List Char) (st : State)
    (hW : 32 ≤ env.ulongBits) (hne : ds ≠ []) (hds : ∀ c ∈ ds, isHexDigit c = true)
    (hlo : 127 < hexValue ds) (hhi : hexValue ds < 2 ^ 32) :
    caseRead env ('r' :: ds) { st with ptr := 0 } =
      .error (FLP_CHAN_RANGE, { st with ptr := 1 }) := by
  have hpow : 2 ^ 32 ≤ 2 ^ env.ulongBits := Nat.pow_le_pow_right (by decide) hW
  have s1 := @strtoul_run_end env ('r' :: ds) 1 ds rfl hne hds
  rw [if_neg (by omega)] at s1
  have m : hexValue ds % 4294967296 = hexValue ds := Nat.mod_eq_of_lt hhi
  simp only [caseRead, Nat.zero_add, s1, m]
  simp [hlo]

theorem caseWrite_range (env : Env) (ds : List Char) (st : State)
    (hne : ds ≠ []) (hds : ∀ c ∈ ds, isHexDigit c = true)
    (hlo : 127 < hexValue ds) (hhi : hexValue ds < 2 ^ env.ulongBits) :
    caseWrite env ('w' :: ds) { st with ptr := 0 } =
      .error (FLP_CHAN_RANGE, { st with ptr := 1 }) := by
  have s1 := @strtoul_run_end env ('w' :: ds) 1 ds rfl hne hds
  rw [if_neg (by omega)] at s1
  simp only [caseWrite, Nat.zero_add, s1]
  simp [hlo]

theorem strtoul_overflow (env : Env) (c : Char) (ds : List Char)
    (hne : ds ≠ []) (hds : ∀ c ∈ ds, isHexDigit c = true)
    (hhi : 2 ^ env.ulongBits ≤ hexValue ds) :
    (strtoul env (c :: ds) 1).errno = ERANGE := by
  have s1 := @strtoul_run_end env (c :: ds) 1 ds rfl hne hds
  have := two_pow_pos' env.ulongBits
  rw [if_pos (by omega)] at s1
  rw [s1]

theorem caseRead_overflow (env : Env) (ds : List Char) (st : State)
    (hne : ds ≠ []) (hds : ∀ c ∈ ds, isHexDigit c = true)
    (hhi : 2 ^ env.ulongBits ≤ hexValue ds) :
    caseRead env ('r' :: ds) { st with ptr := 0 } =
      .error (FLP_BAD_HEX, { st with ptr := 1 }) := by
  have s1 := strtoul_overflow env 'r' ds hne hds hhi
  simp only [caseRead, Nat.zero_add, s1]
  simp [ERANGE]

theorem caseWrite_overflow (env : Env) (ds : List Char) (st : State)
    (hne : ds ≠ []) (hds : ∀ c ∈ ds, isHexDigit c = true)
    (hhi : 2 ^ env.ulongBits ≤ hexValue ds) :
    caseWrite env ('w' :: ds) { st with ptr := 0 } =
      .error (FLP_BAD_HEX, { st with ptr := 1 }) := by
  have s1 := strtoul_overflow env 'w' ds hne hds hhi
  simp only [caseWrite, Nat.zero_add, s1]
  simp [ERANGE]

theorem casePlus_overflow (env : Env) (ds : List Char) (st : State)
    (hne : ds ≠ []) (hds : ∀ c ∈ ds, isHexDigit c = true)
    (hhi : 2 ^ env.ulongBits ≤ hexValue ds) :
    casePlus env ('+' :: ds) { st with ptr := 0 } =
      .error (FLP_BAD_HEX, { st with ptr := 1 }) := by
  have s1 := strtoul_overflow env '+' ds hne hds hhi
  simp only [casePlus, Nat.zero_add, s1]
  simp [ERANGE]

/-- A line whose first command fails: what `parseLine` returns. -/
theorem parseLine_first_error {env : Env} {line : List Char} {code : ReturnCode} {st : State}
    (hinit : env.bufInitialise = 0)
    (hcmd : command env line initialState = .error (code, st)) :
    parseLine env line = some (cleanup line code st) :=
  parseLine_of_error hinit (parseLoop_error line.length hcmd)

theorem casePlus_range (env : Env) (ds : List Char) (st : State)
    (hW : 32 ≤ env.ulongBits) (hne : ds ≠ []) (hds : ∀ c ∈ ds, isHexDigit c = true)
    (hlo : 255 < hexValue ds) (hhi : hexValue ds < 2 ^ 32) :
    casePlus env ('+' :: ds) { st with ptr := 0 } =
      .error (FLP_CONDUIT_RANGE, { st with ptr := 1 }) := by
  have hpow : 2 ^ 32 ≤ 2 ^ env.ulongBits := Nat.pow_le_pow_right (by decide) hW
  have s1 := @strtoul_run_end env ('+' :: ds) 1 ds rfl hne hds
  rw [if_neg (by omega)] at s1
  have m : hexValue ds % 4294967296 = hexValue ds := Nat.mod_eq_of_lt hhi
  simp only [casePlus, Nat.zero_add, s1, m]
  simp [hlo]

theorem casePlus_valid (env : Env) (ds : List Char) (st : State)
    (hW : 32 ≤ env.ulongBits) (hne : ds ≠ []) (hds : ∀ c ∈ ds, isHexDigit c = true)
    (hv : hexValue ds ≤ 255) :
    casePlus env ('+' :: ds) { st with ptr := 0 } =
      if env.flFifoMode st.trace (hexValue ds) ≠ 0 then
        .error (FLP_LIBERR, { st with
          ptr := 1 + ds.length,
          trace := st.trace ++
            [Event.flFifoMode (hexValue ds) (env.flFifoMode st.trace (hexValue ds))] })
      else
        .ok { st with
          ptr := 1 + ds.length,
          trace := st.trace ++
            [Event.flFifoMode (hexValue ds) (env.flFifoMode st.trace (hexValue ds))] } := by
  have hpow : 2 ^ 32 ≤ 2 ^ env.ulongBits := Nat.pow_le_pow_right (by decide) hW
  have s1 := @strtoul_run_end env ('+' :: ds) 1 ds rfl hne hds
  rw [if_neg (by omega)] at s1
  have m : hexValue ds % 4294967296 = hexValue ds := Nat.mod_eq_of_lt (by omega)
  have m' : hexValue ds % 256 = hexValue ds := Nat.mod_eq_of_lt (by omega)
  have hp : peek ('+' :: ds) (1 + ds.length) = NUL := peek_of_length_le (by simp; omega)
  simp only [casePlus, Nat.zero_add, s1, m, m', hp]
  simp [hv]

/-- C3 (as amended). For a channel value above 127 written as a run of hex
digits `ds` (of any length), with the accumulator set up: when the value is
below `2^32` the read command `r<ds>` fails with `FLP_CHAN_RANGE` (3); when it
fits `unsigned long` the write command `w<ds>` fails with `FLP_CHAN_RANGE` (3);
when it exceeds `ULONG_MAX` both fail with `FLP_BAD_HEX` (2) instead. In each
of these cases no device operation is issued. -/
theorem channel_above_127_rejected (env : Env) (ds : List Char)
    (hW : 32 ≤ env.ulongBits) (hinit : env.bufInitialise = 0)
    (hne : ds ≠ []) (hds : ∀ c ∈ ds, isHexDigit c = true) (hlo : 127 < hexValue ds) :
    (hexValue ds < 2 ^ 32 → ∃ r, parseLine env ('r' :: ds) = some r ∧
      r.returnCode = FLP_CHAN_RANGE ∧ r.returnCode.toNat = 3 ∧ deviceOps r.final.trace = []) ∧
    (hexValue ds < 2 ^ env.ulongBits → ∃ r, parseLine env ('w' :: ds) = some r ∧
      r.returnCode = FLP_CHAN_RANGE ∧ r.returnCode.toNat = 3 ∧ deviceOps r.final.trace = []) ∧
    (2 ^ env.ulongBits ≤ hexValue ds →
      (∃ r, parseLine env ('r' :: ds) = some r ∧
        r.returnCode = FLP_BAD_HEX ∧ r.returnCode.toNat = 2 ∧ deviceOps r.final.trace = []) ∧
      (∃ r, parseLine env ('w' :: ds) = some r ∧
        r.returnCode = FLP_BAD_HEX ∧ r.returnCode.toNat = 2 ∧ deviceOps r.final.trace = [])) := by
  have hr : command env ('r' :: ds) initialState = caseRead env ('r' :: ds) initialState :=
    command_of_r rfl
  have hw : command env ('w' :: ds) initialState = caseWrite env ('w' :: ds) initialState :=
    command_of_w rfl
  refine ⟨fun hhi => ?_, fun hhi => ?_, fun hhi => ⟨?_, ?_⟩⟩
  · have h := caseRead_range env ds initialState hW hne hds hlo hhi
    exact ⟨_, parseLine_first_error hinit (hr.trans h), rfl, rfl, rfl⟩
  · have h := caseWrite_range env ds initialState hne hds hlo hhi
    exact ⟨_, parseLine_first_error hinit (hw.trans h), rfl, rfl, rfl⟩
  · have h := caseRead_overflow env ds initialState hne hds hhi
    exact ⟨_, parseLine_first_error hinit (hr.trans h), rfl, rfl, rfl⟩
  · have h := caseWrite_overflow env ds initialState hne hds hhi
    exact ⟨_, parseLine_first_error hinit (hw.trans h), rfl, rfl, rfl⟩

theorem channel_above_127_rejected_witness :
    (32 ≤ idealEnv.ulongBits ∧ idealEnv.bufInitialise = 0 ∧ ['8', '0'] ≠ [] ∧
      (∀ c ∈ ['8', '0'], isHexDigit c = true) ∧ 127 < hexValue ['8', '0']) ∧
    (hexValue ['8', '0'] < 2 ^ 32 → ∃ r, parseLine idealEnv ('r' :: ['8', '0']) = some r ∧
      r.returnCode = FLP_CHAN_RANGE ∧ r.returnCode.toNat = 3 ∧ deviceOps r.final.trace = []) ∧
    (hexValue ['8', '0'] < 2 ^ idealEnv.ulongBits →
      ∃ r, parseLine idealEnv ('w' :: ['8', '0']) = some r ∧
      r.returnCode = FLP_CHAN_RANGE ∧ r.returnCode.toNat = 3 ∧ deviceOps r.final.trace = []) ∧
    (2 ^ idealEnv.ulongBits ≤ hexValue ['8', '0'] →
      (∃ r, parseLine idealEnv ('r' :: ['8', '0']) = some r ∧
        r.returnCode = FLP_BAD_HEX ∧ r.returnCode.toNat = 2 ∧ deviceOps r.final.trace = []) ∧
      (∃ r, parseLine idealEnv ('w' :: ['8', '0']) = some r ∧
        r.returnCode = FLP_BAD_HEX ∧ r.returnCode.toNat = 2 ∧
        deviceOps r.final.trace = [])) :=
  ⟨⟨by decide, rfl, by decide, by decide, by decide⟩,
    channel_above_127_rejected idealEnv ['8', '0'] (by decide) rfl (by decide) (by decide)
      (by decide)⟩

/-- The channel value `0x10000000000000000 = 2^64` is above 127, yet on a 64-bit
platform the commands `r10000000000000000` and `w10000000000000000` fail with
`FLP_BAD_HEX` (2), not with `FLP_CHAN_RANGE` (3). -/
theorem channel_above_127_counterexample :
    127 < hexValue "10000000000000000".data ∧
    (∀ c ∈ "10000000000000000".data, isHexDigit c = true) ∧
    (parseLine idealEnv "r10000000000000000".data).map (fun r => r.returnCode)
      = some FLP_BAD_HEX ∧
    (parseLine idealEnv "w10000000000000000".data).map (fun r => r.returnCode)
      = some FLP_BAD_HEX ∧
    FLP_BAD_HEX ≠ FLP_CHAN_RANGE := by
  refine ⟨by decide, by decide, rfl, rfl, by decide⟩

/-- C5 (as amended). For a conduit value written as a run of hex digits `ds`,
with the accumulator set up, the action string `+<ds>`: when the value is at
most 255, issues exactly one `flFifoMode` call, with that conduit, and returns
`FLP_SUCCESS` when the call succeeds; when the value is above 255 and below
`2^32`, fails with `FLP_CONDUIT_RANGE` (4) and issues no device operation; when
the value exceeds `ULONG_MAX`, fails with `FLP_BAD_HEX` (2) instead, again
without a device operation. -/
theorem conduit_range_checked (env : Env) (ds : List Char)
    (hW : 32 ≤ env.ulongBits) (hinit : env.bufInitialise = 0)
    (hne : ds ≠ []) (hds : ∀ c ∈ ds, isHexDigit c = true) :
    (hexValue ds ≤ 255 → ∃ r status, parseLine env ('+' :: ds) = some r ∧
      deviceOps r.final.trace = [Event.flFifoMode (hexValue ds) status] ∧
      (status = 0 → r.returnCode = FLP_SUCCESS)) ∧
    (255 < hexValue ds → hexValue ds < 2 ^ 32 → ∃ r, parseLine env ('+' :: ds) = some r ∧
      r.returnCode = FLP_CONDUIT_RANGE ∧ r.returnCode.toNat = 4 ∧
      deviceOps r.final.trace = []) ∧
    (2 ^ env.ulongBits ≤ hexValue ds → ∃ r, parseLine env ('+' :: ds) = some r ∧
      r.returnCode = FLP_BAD_HEX ∧ r.returnCode.toNat = 2 ∧ deviceOps r.final.trace = []) := by
  have hp : command env ('+' :: ds) initialState = casePlus env ('+' :: ds) initialState :=
    command_of_plus rfl
  refine ⟨fun hv => ?_, fun hlo hhi => ?_, fun hhi => ?_⟩
  · have h := casePlus_valid env ds initialState hW hne hds hv
    by_cases hst : env.flFifoMode initialState.trace (hexValue ds) = 0
    · rw [if_neg (by simp [hst])] at h
      have hloop := parseLoop_last ('+' :: ds).length (hp.trans h)
        (by rw [peek_of_length_le (by simp; omega)]; decide)
      have hfin := parseLine_of_ok hinit hloop (peek_of_length_le (by simp; omega))
      refine ⟨_, env.flFifoMode [] (hexValue ds), hfin, ?_, fun _ => rfl⟩
      simp [cleanup, initialState, deviceOps, List.filter, Event.isDeviceOp]
    · rw [if_pos hst] at h
      refine ⟨_, env.flFifoMode [] (hexValue ds),
        parseLine_first_error hinit (hp.trans h), ?_, fun h0 => absurd h0 hst⟩
      simp [cleanup, initialState, deviceOps, List.filter, Event.isDeviceOp]
  · have h := casePlus_range env ds initialState hW hne hds hlo hhi
    exact ⟨_, parseLine_first_error hinit (hp.trans h), rfl, rfl, rfl⟩
  · have h := casePlus_overflow env ds initialState hne hds hhi
    exact ⟨_, parseLine_first_error hinit (hp.trans h), rfl, rfl, rfl⟩

theorem conduit_range_checked_witness :
    (32 ≤ idealEnv.ulongBits ∧ idealEnv.bufInitialise = 0 ∧ ['f', 'f'] ≠ [] ∧
      (∀ c ∈ ['f', 'f'], isHexDigit c = true)) ∧
    (hexValue ['f', 'f'] ≤ 255 → ∃ r status, parseLine idealEnv ('+' :: ['f', 'f']) = some r ∧
      deviceOps r.final.trace = [Event.flFifoMode (hexValue ['f', 'f']) status] ∧
      (status = 0 → r.returnCode = FLP_SUCCESS)) ∧
    (255 < hexValue ['f', 'f'] → hexValue ['f', 'f'] < 2 ^ 32 →
      ∃ r, parseLine idealEnv ('+' :: ['f', 'f']) = some r ∧
      r.returnCode = FLP_CONDUIT_RANGE ∧ r.returnCode.toNat = 4 ∧
      deviceOps r.final.trace = []) ∧
    (2 ^ idealEnv.ulongBits ≤ hexValue ['f', 'f'] →
      ∃ r, parseLine idealEnv ('+' :: ['f', 'f']) = some r ∧
      r.returnCode = FLP_BAD_HEX ∧ r.returnCode.toNat = 2 ∧ deviceOps r.final.trace = []) :=
  ⟨⟨by decide, rfl, by decide, by decide⟩,
    conduit_range_checked idealEnv ['f', 'f'] (by decide) rfl (by decide) (by decide)⟩

/-- The conduit value `0x10000000000000000 = 2^64` is above 255, yet on a 64-bit
platform the action string `+10000000000000000` fails with `FLP_BAD_HEX` (2),
not with `FLP_CONDUIT_RANGE` (4). -/
theorem conduit_range_counterexample :
    255 < hexValue "10000000000000000".data ∧
    (∀ c ∈ "10000000000000000".data, isHexDigit c = true) ∧
    (parseLine idealEnv "+10000000000000000".data).map (fun r => r.returnCode)
      = some FLP_BAD_HEX ∧
    FLP_BAD_HEX ≠ FLP_CONDUIT_RANGE := by
  refine ⟨by decide, by decide, rfl, by decide⟩

/-- The two examples of the specification: `+100` fails with `FLP_CONDUIT_RANGE`
without a device operation, `+ff` sets conduit 255. -/
theorem conduit_examples :
    (parseLine idealEnv "+100".data).map (fun r => (r.returnCode, deviceOps r.final.trace))
      = some (FLP_CONDUIT_RANGE, []) ∧
    (parseLine idealEnv "+ff".data).map (fun r => (r.returnCode, deviceOps r.final.trace))
      = some (FLP_SUCCESS, [Event.flFifoMode 255 0]) := by
  constructor <;> rfl

theorem accumulatedBytes_append (a b : List Event) :
    accumulatedBytes (a ++ b) = accumulatedBytes a ++ accumulatedBytes b := by
  induction a with
  | nil => rfl
  | cons e es ih => simp [accumulatedBytes, ih]

theorem dumpCalls_append (a b : List Event) :
    dumpCalls (a ++ b) = dumpCalls a ++ dumpCalls b := by
  simp [dumpCalls]

theorem strtoul_endp_ge (env : Env) (line : List Char) (ptr : Nat) :
    ptr ≤ (strtoul env line ptr).endp := by
  simp only [strtoul]
  split_ifs <;> simp only <;> omega

theorem skipSemicolons_ge (line : List Char) (ptr : Nat) : ptr ≤ skipSemicolons line ptr := by
  unfold skipSemicolons; omega

theorem scanQuote_ge (line : List Char) (ptr : Nat) (q : Char) : ptr ≤ scanQuote line ptr q := by
  unfold scanQuote; omega

theorem hexByteLoop_fst (line : List Char) (n : Nat) : ∀ (ptr : Nat) (acc : List Nat),
    (hexByteLoop line n ptr acc).1 = ptr + 2 * n := by
  induction n with
  | zero => intro ptr acc; rfl
  | succ n ih => intro ptr acc; simp only [hexByteLoop, ih]; omega

/-- What `quotedFileName` leaves unchanged, and where it leaves the cursor. -/
theorem quotedFileName_frame (env : Env) (line : List Char) (q : Char) (st : State) :
    (operandsState (quotedFileName env line q st)).ptr = st.ptr + 1 ∧
    (operandsState (quotedFileName env line q st)).trace = st.trace ∧
    (operandsState (quotedFileName env line q st)).dataFromFPGA = st.dataFromFPGA ∧
    (operandsState (quotedFileName env line q st)).file = st.file ∧
    (∀ found, quotedFileName env line q st = .ok found → st.ptr + 1 ≤ found.1) := by
  simp only [quotedFileName]
  split_ifs <;> simp [operandsState, scanQuote_ge]


theorem readOperands_frame (env : Env) (line : List Char) (st : State) :
    st.ptr ≤ (operandsState (readOperands env line st)).ptr ∧
    (operandsState (readOperands env line st)).trace = st.trace ∧
    (operandsState (readOperands env line st)).dataFromFPGA = st.dataFromFPGA ∧
    (operandsState (readOperands env line st)).file = st.file := by
  have h1 := strtoul_endp_ge env line (st.ptr + 1)
  simp only [readOperands]
  split_ifs
  · simp [operandsState]
  · simp only [operandsState, and_self, and_true]; omega
  · simp only [operandsState, and_self, and_true]; omega
  · obtain ⟨f1, f2, f3, f4, f5⟩ := quotedFileName_frame env line
      (peek line ((strtoul env line (st.ptr + 1)).endp + 1))
      { st with ptr := (strtoul env line (st.ptr + 1)).endp + 1 }
    cases hq : quotedFileName env line (peek line ((strtoul env line (st.ptr + 1)).endp + 1))
      { st with ptr := (strtoul env line (st.ptr + 1)).endp + 1 } with
    | error e =>
      rw [hq] at f1 f2 f3 f4
      simp only [operandsState] at f1 f2 f3 f4
      simp only [bind_error, operandsState, f1, f2, f3, f4, and_self, and_true]
      omega
    | ok found =>
      rw [hq] at f2 f3 f4
      have := f5 found hq
      simp only [operandsState] at f2 f3 f4 this
      simp only [bind_ok, operandsState, f2, f3, f4, and_self, and_true]
      omega
  · simp only [operandsState, and_self, and_true]; omega
  · simp [operandsState]

theorem AccInv_of_eq {st st' : State} (h : AccInv st)
    (h1 : st'.dataFromFPGA = st.dataFromFPGA) (h2 : st'.trace = st.trace) : AccInv st' := by
  unfold AccInv at *
  rw [h1, h2]; exact h

theorem readExecute_frame (env : Env) (chan length : Nat) (st : State) :
    (readExecute env chan length st).state.ptr = st.ptr ∧
    (AccInv st → AccInv (readExecute env chan length st).state) := by
  simp only [readExecute]
  split
  · split_ifs <;>
      simp [Exec.state, AccInv, accumulatedBytes_append, dumpCalls_append, accumulatedBytes,
        Event.accumulated, dumpCalls, Event.isDump]
  · split_ifs
    · simp [Exec.state]
    · refine ⟨by simp [Exec.state], fun h => ?_⟩
      obtain ⟨ha, hd⟩ := h
      simp [Exec.state, AccInv, accumulatedBytes_append, dumpCalls_append, accumulatedBytes,
        Event.accumulated, dumpCalls, Event.isDump, ← ha]
      simpa [dumpCalls] using hd
    · refine ⟨by simp [Exec.state], fun h => ?_⟩
      obtain ⟨ha, hd⟩ := h
      simp [Exec.state, AccInv, accumulatedBytes_append, dumpCalls_append, accumulatedBytes,
        Event.accumulated, dumpCalls, Event.isDump, ← ha]
      simpa [dumpCalls] using hd

theorem AccInv_append {st : State} (evs : List Event) (st' : State) (h : AccInv st)
    (h1 : st'.dataFromFPGA = st.dataFromFPGA) (h2 : st'.trace = st.trace ++ evs)
    (h3 : accumulatedBytes evs = []) (h4 : dumpCalls evs = []) : AccInv st' := by
  unfold AccInv at *
  rw [h1, h2, accumulatedBytes_append, dumpCalls_append, h3, h4, h.2, ← h.1]
  simp

theorem AccInv_same {st : State} (st' : State) (h : AccInv st)
    (h1 : st'.dataFromFPGA = st.dataFromFPGA) (h2 : st'.trace = st.trace) : AccInv st' :=
  AccInv_of_eq h h1 h2

theorem caseRead_frame (env : Env) (line : List Char) (st : State) :
    st.ptr + 1 ≤ (caseRead env line st).state.ptr ∧
    (AccInv st → AccInv (caseRead env line st).state) := by
  have h1 := strtoul_endp_ge env line (st.ptr + 1)
  simp only [caseRead]
  split_ifs
  · exact ⟨by simp [Exec.state], fun h => by refine AccInv_same _ h ?_ ?_ <;> rfl⟩
  · exact ⟨by simp [Exec.state], fun h => by refine AccInv_same _ h ?_ ?_ <;> rfl⟩
  · exact ⟨by simp only [Exec.state]; omega, fun h => by refine AccInv_same _ h ?_ ?_ <;> rfl⟩
  · obtain ⟨f1, f2, f3, -⟩ := readOperands_frame env line
      { st with ptr := (strtoul env line (st.ptr + 1)).endp }
    cases ho : readOperands env line { st with ptr := (strtoul env line (st.ptr + 1)).endp } with
    | error e =>
      rw [ho] at f1 f2 f3
      simp only [operandsState] at f1 f2 f3
      simp only [bind_error, Exec.state]
      exact ⟨by omega, fun h => AccInv_same _ h f3 f2⟩
    | ok parsed =>
      rw [ho] at f1 f2 f3
      simp only [operandsState] at f1 f2 f3
      simp only [bind_ok]
      obtain ⟨g1, g2⟩ := readExecute_frame env
        ((strtoul env line (st.ptr + 1)).value % 4294967296) parsed.1 parsed.2
      exact ⟨by rw [g1]; omega, fun h => g2 (AccInv_same _ h f3 f2)⟩

theorem writeOperands_frame (env : Env) (line : List Char) (st : State) :
    st.ptr ≤ (operandsState (writeOperands env line st)).ptr ∧
    (AccInv st → AccInv (operandsState (writeOperands env line st))) := by
  simp only [writeOperands]
  split_ifs
  · obtain ⟨f1, f2, f3, f4, f5⟩ := quotedFileName_frame env line (peek line (st.ptr + 1))
      { st with ptr := st.ptr + 1 }
    cases hq : quotedFileName env line (peek line (st.ptr + 1)) { st with ptr := st.ptr + 1 } with
    | error e =>
      rw [hq] at f1 f2 f3
      simp only [operandsState] at f1 f2 f3
      simp only [bind_error, operandsState]
      exact ⟨by omega, fun h => AccInv_same _ h f3 f2⟩
    | ok found =>
      rw [hq] at f1 f2 f3
      have := f5 found hq
      simp only [operandsState] at f1 f2 f3 this
      simp only [bind_ok]
      split_ifs
      · refine ⟨by simp only [operandsState]; omega, fun h => ?_⟩
        refine AccInv_append [Event.flLoadFile (found.2.fileName.getD [])
          (env.flLoadFile found.2.trace (found.2.fileName.getD []))] _ h ?_ ?_ rfl rfl
        · exact f3
        · simp only [operandsState]; rw [f2]
      · refine ⟨by simp only [operandsState]; omega, fun h => ?_⟩
        refine AccInv_append [Event.flLoadFile (found.2.fileName.getD [])
          (env.flLoadFile found.2.trace (found.2.fileName.getD []))] _ h ?_ ?_ rfl rfl
        · exact f3
        · simp only [operandsState]; rw [f2]
  · exact ⟨by simp only [operandsState]; omega,
      fun h => by refine AccInv_same _ h ?_ ?_ <;> rfl⟩
  · refine ⟨?_, fun h => by refine AccInv_same _ h ?_ ?_ <;> rfl⟩
    simp only [operandsState, hexByteLoop_fst]; omega
  · exact ⟨by simp only [operandsState]; omega,
      fun h => by refine AccInv_same _ h ?_ ?_ <;> rfl⟩
  · exact ⟨by simp only [operandsState]; omega,
      fun h => by refine AccInv_same _ h ?_ ?_ <;> rfl⟩

theorem caseWrite_frame (env : Env) (line : List Char) (st : State) :
    st.ptr + 1 ≤ (caseWrite env line st).state.ptr ∧
    (AccInv st → AccInv (caseWrite env line st).state) := by
  have h1 := strtoul_endp_ge env line (st.ptr + 1)
  simp only [caseWrite]
  split_ifs
  · exact ⟨by simp [Exec.state], fun h => by refine AccInv_same _ h ?_ ?_ <;> rfl⟩
  · exact ⟨by simp [Exec.state], fun h => by refine AccInv_same _ h ?_ ?_ <;> rfl⟩
  · exact ⟨by simp only [Exec.state]; omega, fun h => by refine AccInv_same _ h ?_ ?_ <;> rfl⟩
  · obtain ⟨f1, f2⟩ := writeOperands_frame env line
      { st with ptr := (strtoul env line (st.ptr + 1)).endp }
    have f3 : AccInv st → AccInv (operandsState (writeOperands env line
        { st with ptr := (strtoul env line (st.ptr + 1)).endp })) :=
      fun h => f2 (by refine AccInv_same _ h ?_ ?_ <;> rfl)
    cases ho : writeOperands env line { st with ptr := (strtoul env line (st.ptr + 1)).endp } with
    | error e =>
      rw [ho] at f1 f3
      simp only [operandsState] at f1 f3
      simp only [bind_error, Exec.state]
      exact ⟨by omega, f3⟩
    | ok parsed =>
      rw [ho] at f1 f3
      simp only [operandsState] at f1 f3
      simp only [bind_ok]
      split_ifs
      · refine ⟨by simp only [Exec.state, benchmark_ptr]; omega, fun h => ?_⟩
        refine AccInv_append [Event.flWriteChannel TIMEOUT
          ((strtoul env line (st.ptr + 1)).value % 256) parsed.1 parsed.2.data
          (env.flWriteChannel parsed.2.trace TIMEOUT
            ((strtoul env line (st.ptr + 1)).value % 256) parsed.1 parsed.2.data)] _ (f3 h)
          ?_ ?_ rfl rfl
        · simp only [Exec.state, benchmark_dataFromFPGA]
        · simp only [Exec.state, benchmark_trace]
      · refine ⟨by simp only [Exec.state, benchmark_ptr]; omega, fun h => ?_⟩
        refine AccInv_append [Event.flWriteChannel TIMEOUT
          ((strtoul env line (st.ptr + 1)).value % 256) parsed.1 parsed.2.data
          (env.flWriteChannel parsed.2.trace TIMEOUT
            ((strtoul env line (st.ptr + 1)).value % 256) parsed.1 parsed.2.data)] _ (f3 h)
          ?_ ?_ rfl rfl
        · simp only [Exec.state, benchmark_dataFromFPGA]
        · simp only [Exec.state, benchmark_trace]

theorem casePlus_frame (env : Env) (line : List Char) (st : State) :
    st.ptr + 1 ≤ (casePlus env line st).state.ptr ∧
    (AccInv st → AccInv (casePlus env line st).state) := by
  have h1 := strtoul_endp_ge env line (st.ptr + 1)
  simp only [casePlus]
  split_ifs
  · exact ⟨by simp [Exec.state], fun h => by refine AccInv_same _ h ?_ ?_ <;> simp only [Exec.state]⟩
  · exact ⟨by simp [Exec.state], fun h => by refine AccInv_same _ h ?_ ?_ <;> simp only [Exec.state]⟩
  · exact ⟨by simp only [Exec.state]; omega, fun h => by refine AccInv_same _ h ?_ ?_ <;> simp only [Exec.state]⟩
  · refine ⟨by simp only [Exec.state]; omega, fun h => ?_⟩
    refine AccInv_append [Event.flFifoMode
      ((strtoul env line (st.ptr + 1)).value % 4294967296 % 256)
      (env.flFifoMode st.trace ((strtoul env line (st.ptr + 1)).value % 4294967296 % 256))]
      _ h ?_ ?_ rfl rfl <;> simp only [Exec.state]
  · refine ⟨by simp only [Exec.state]; omega, fun h => ?_⟩
    refine AccInv_append [Event.flFifoMode
      ((strtoul env line (st.ptr + 1)).value % 4294967296 % 256)
      (env.flFifoMode st.trace ((strtoul env line (st.ptr + 1)).value % 4294967296 % 256))]
      _ h ?_ ?_ rfl rfl <;> simp only [Exec.state]

theorem command_frame (env : Env) (line : List Char) (st : State) :
    st.ptr ≤ (command env line st).state.ptr ∧
    (∀ st', command env line st = .ok st' → st.ptr + 1 ≤ st'.ptr) ∧
    (AccInv st → AccInv (command env line st).state) := by
  have hs := skipSemicolons_ge line st.ptr
  have hr := caseRead_frame env line { st with ptr := skipSemicolons line st.ptr }
  have hw := caseWrite_frame env line { st with ptr := skipSemicolons line st.ptr }
  have hp := casePlus_frame env line { st with ptr := skipSemicolons line st.ptr }
  have hsame : AccInv st → AccInv { st with ptr := skipSemicolons line st.ptr } :=
    fun h => by refine AccInv_same _ h ?_ ?_ <;> rfl
  unfold command
  dsimp only at hr hw hp ⊢
  split_ifs
  · refine ⟨by omega, fun st' h' => ?_, fun h => hr.2 (hsame h)⟩
    have := hr.1; rw [h'] at this; simp only [Exec.state] at this; omega
  · refine ⟨by omega, fun st' h' => ?_, fun h => hw.2 (hsame h)⟩
    have := hw.1; rw [h'] at this; simp only [Exec.state] at this; omega
  · refine ⟨by omega, fun st' h' => ?_, fun h => hp.2 (hsame h)⟩
    have := hp.1; rw [h'] at this; simp only [Exec.state] at this; omega
  · exact ⟨by simp only [Exec.state]; omega, fun _ h' => h'.elim,
      fun h => hsame h⟩

/-- The codes a `FAIL` inside the loop can carry: every enumerator except
`FLP_SUCCESS` and `FLP_ARGS`. -/
theorem quotedFileName_code {env : Env} {line : List Char} {q : Char} {st : State}
    {e : ReturnCode × State} (h : quotedFileName env line q st = .error e) :
    1 ≤ e.1.toNat ∧ e.1.toNat ≤ 11 ∧ e.1 ≠ FLP_CHAN_RANGE := by
  simp only [quotedFileName] at h
  split_ifs at h <;>
    first
    | exact Except.noConfusion h
    | (simp only [Except.error.injEq] at h; subst h; dsimp only; decide)

theorem readOperands_code {env : Env} {line : List Char} {st : State}
    {e : ReturnCode × State} (h : readOperands env line st = .error e) :
    1 ≤ e.1.toNat ∧ e.1.toNat ≤ 11 ∧ e.1 ≠ FLP_CHAN_RANGE := by
  simp only [readOperands] at h
  split_ifs at h
  · simp only [Except.error.injEq] at h; subst h; dsimp only; decide
  · simp only [Except.error.injEq] at h; subst h; dsimp only; decide
  · simp only [Except.error.injEq] at h; subst h; dsimp only; decide
  · cases hq : quotedFileName env line (peek line ((strtoul env line (st.ptr + 1)).endp + 1))
      { st with ptr := (strtoul env line (st.ptr + 1)).endp + 1 } with
    | error e' =>
      rw [hq, bind_error] at h
      simp only [Except.error.injEq] at h; subst h
      exact quotedFileName_code hq
    | ok found =>
      rw [hq, bind_ok] at h
      exact Except.noConfusion h

theorem readExecute_code {env : Env} {chan length : Nat} {st : State}
    {e : ReturnCode × State} (h : readExecute env chan length st = .error e) :
    1 ≤ e.1.toNat ∧ e.1.toNat ≤ 11 ∧ e.1 ≠ FLP_CHAN_RANGE := by
  simp only [readExecute] at h
  split at h <;> split_ifs at h <;>
    first
    | exact Except.noConfusion h
    | (simp only [Except.error.injEq] at h; subst h; dsimp only; decide)

theorem caseRead_code {env : Env} {line : List Char} {st : State}
    {e : ReturnCode × State} (h : caseRead env line st = .error e) :
    1 ≤ e.1.toNat ∧ e.1.toNat ≤ 11 := by
  simp only [caseRead] at h
  split_ifs at h
  · simp only [Except.error.injEq] at h; subst h; dsimp only; decide
  · simp only [Except.error.injEq] at h; subst h; dsimp only; decide
  · simp only [Except.error.injEq] at h; subst h; dsimp only; decide
  · cases ho : readOperands env line { st with ptr := (strtoul env line (st.ptr + 1)).endp } with
    | error e' =>
      rw [ho, bind_error] at h
      simp only [Except.error.injEq] at h; subst h
      exact ⟨(readOperands_code ho).1, (readOperands_code ho).2.1⟩
    | ok parsed =>
      rw [ho, bind_ok] at h
      exact ⟨(readExecute_code h).1, (readExecute_code h).2.1⟩

theorem writeOperands_code {env : Env} {line : List Char} {st : State}
    {e : ReturnCode × State} (h : writeOperands env line st = .error e) :
    1 ≤ e.1.toNat ∧ e.1.toNat ≤ 11 ∧ e.1 ≠ FLP_CHAN_RANGE := by
  simp only [writeOperands] at h
  split_ifs at h
  · cases hq : quotedFileName env line (peek line (st.ptr + 1)) { st with ptr := st.ptr + 1 } with
    | error e' =>
      rw [hq, bind_error] at h
      simp only [Except.error.injEq] at h; subst h
      exact quotedFileName_code hq
    | ok found =>
      rw [hq, bind_ok] at h
      split_ifs at h
      simp only [Except.error.injEq] at h; subst h; dsimp only; decide
  · simp only [Except.error.injEq] at h; subst h; dsimp only; decide
  · simp only [Except.error.injEq] at h; subst h; dsimp only; decide

theorem caseWrite_code {env : Env} {line : List Char} {st : State}
    {e : ReturnCode × State} (h : caseWrite env line st = .error e) :
    1 ≤ e.1.toNat ∧ e.1.toNat ≤ 11 := by
  simp only [caseWrite] at h
  split_ifs at h
  · simp only [Except.error.injEq] at h; subst h; dsimp only; decide
  · simp only [Except.error.injEq] at h; subst h; dsimp only; decide
  · simp only [Except.error.injEq] at h; subst h; dsimp only; decide
  · cases ho : writeOperands env line { st with ptr := (strtoul env line (st.ptr + 1)).endp } with
    | error e' =>
      rw [ho, bind_error] at h
      simp only [Except.error.injEq] at h; subst h
      exact ⟨(writeOperands_code ho).1, (writeOperands_code ho).2.1⟩
    | ok parsed =>
      rw [ho, bind_ok] at h
      split_ifs at h
      simp only [Except.error.injEq] at h; subst h; dsimp only; decide

theorem casePlus_code {env : Env} {line : List Char} {st : State}
    {e : ReturnCode × State} (h : casePlus env line st = .error e) :
    1 ≤ e.1.toNat ∧ e.1.toNat ≤ 11 ∧ e.1 ≠ FLP_CHAN_RANGE := by
  simp only [casePlus] at h
  split_ifs at h <;>
    first
    | exact Except.noConfusion h
    | (simp only [Except.error.injEq] at h; subst h; dsimp only; decide)

theorem command_code {env : Env} {line : List Char} {st : State}
    {e : ReturnCode × State} (h : command env line st = .error e) :
    1 ≤ e.1.toNat ∧ e.1.toNat ≤ 11 := by
  unfold command at h
  dsimp only at h
  split_ifs at h
  · exact caseRead_code h
  · exact caseWrite_code h
  · exact ⟨(casePlus_code h).1, (casePlus_code h).2.1⟩
  · simp only [Except.error.injEq] at h; subst h; dsimp only; decide

theorem lt_length_of_peek_ne {line : List Char} {ptr : Nat} (h : peek line ptr ≠ NUL) :
    ptr < line.length := by
  by_contra hlt
  exact h (peek_of_length_le (Nat.le_of_not_lt hlt))

/-- The loop of `parseLine` ends: with more passes allowed than characters are
left, `parseLoop` yields an outcome. -/
theorem parseLoop_total (env : Env) (line : List Char) :
    ∀ (fuel : Nat) (st : State), line.length - st.ptr < fuel →
      ∃ out, parseLoop env line fuel st = some out := by
  intro fuel
  induction fuel with
  | zero => intro st h; omega
  | succ fuel ih =>
    intro st hfuel
    rw [parseLoop_succ]
    cases hc : command env line st with
    | error e => exact ⟨_, rfl⟩
    | ok st' =>
      have hadv := (command_frame env line st).2.1 st' hc
      by_cases hp : peek line st'.ptr = ';'
      · have hlt : st'.ptr < line.length := lt_length_of_peek_ne (by rw [hp]; decide)
        simp only [hp, if_true]
        exact ih st' (by omega)
      · simp only [hp, if_false]
        exact ⟨_, rfl⟩

/-- What holds of every outcome of the loop: the cursor has not moved back, the
accumulator still holds the bytes of the accumulating reads, `dump` has not
been called, and a `FAIL` carries a code from 1 to 11. -/
theorem parseLoop_frame (env : Env) (line : List Char) :
    ∀ (fuel : Nat) (st : State) (out : Exec), parseLoop env line fuel st = some out →
      st.ptr ≤ out.state.ptr ∧ (AccInv st → AccInv out.state) ∧
      (∀ e, out = .error e → 1 ≤ e.1.toNat ∧ e.1.toNat ≤ 11) := by
  intro fuel
  induction fuel with
  | zero => intro st out h; exact Option.noConfusion h
  | succ fuel ih =>
    intro st out h
    rw [parseLoop_succ] at h
    obtain ⟨f1, f2, f3⟩ := command_frame env line st
    cases hc : command env line st with
    | error e =>
      rw [hc] at h f1 f3
      simp only [Option.some.injEq] at h
      subst h
      exact ⟨f1, f3, fun e' he' => by
        simp only [Except.error.injEq] at he'; subst he'; exact command_code hc⟩
    | ok st' =>
      rw [hc] at h f1 f3
      simp only [Exec.state] at f1 f3
      by_cases hp : peek line st'.ptr = ';'
      · simp only [hp, if_true] at h
        obtain ⟨g1, g2, g3⟩ := ih st' out h
        exact ⟨by omega, fun hi => g2 (f3 hi), g3⟩
      · simp only [hp, if_false, Option.some.injEq] at h
        subst h
        exact ⟨f1, f3, fun e' he' => Except.noConfusion he'⟩

theorem AccInv_initialState : AccInv initialState := ⟨rfl, rfl⟩

/-- `parseLine` returns for every action string and every environment. -/
theorem parseLine_total (env : Env) (line : List Char) : ∃ r, parseLine env line = some r := by
  unfold parseLine
  split_ifs
  · exact ⟨_, rfl⟩
  · obtain ⟨out, hout⟩ := parseLoop_total env line (line.length + 1) initialState
      (by simp only [initialState]; omega)
    rw [hout]
    cases out with
    | error e => exact ⟨_, rfl⟩
    | ok st =>
      dsimp only
      split_ifs
      · exact ⟨_, rfl⟩
      · exact ⟨_, rfl⟩

theorem caseRead_chan_range {env : Env} {line : List Char} {st st' : State}
    (h : caseRead env line st = .error (FLP_CHAN_RANGE, st')) :
    st'.ptr = st.ptr + 1 ∧ 127 < (strtoul env line (st.ptr + 1)).value % 4294967296 := by
  simp only [caseRead] at h
  split_ifs at h with h1 h2 h3
  · simp only [Except.error.injEq, Prod.mk.injEq] at h
    exact absurd h.1 (by decide)
  · simp only [Except.error.injEq, Prod.mk.injEq] at h
    exact ⟨by rw [← h.2], h2⟩
  · simp only [Except.error.injEq, Prod.mk.injEq] at h
    exact absurd h.1 (by decide)
  · cases ho : readOperands env line { st with ptr := (strtoul env line (st.ptr + 1)).endp } with
    | error e' =>
      rw [ho, bind_error] at h
      simp only [Except.error.injEq] at h
      have := (readOperands_code ho).2.2
      rw [h] at this
      exact absurd rfl this
    | ok parsed =>
      rw [ho, bind_ok] at h
      exact absurd rfl (readExecute_code h).2.2

theorem caseWrite_chan_range {env : Env} {line : List Char} {st st' : State}
    (h : caseWrite env line st = .error (FLP_CHAN_RANGE, st')) :
    st'.ptr = st.ptr + 1 ∧ 127 < (strtoul env line (st.ptr + 1)).value := by
  simp only [caseWrite] at h
  split_ifs at h with h1 h2 h3
  · simp only [Except.error.injEq, Prod.mk.injEq] at h
    exact absurd h.1 (by decide)
  · simp only [Except.error.injEq, Prod.mk.injEq] at h
    exact ⟨by rw [← h.2], h2⟩
  · simp only [Except.error.injEq, Prod.mk.injEq] at h
    exact absurd h.1 (by decide)
  · cases ho : writeOperands env line { st with ptr := (strtoul env line (st.ptr + 1)).endp } with
    | error e' =>
      rw [ho, bind_error] at h
      simp only [Except.error.injEq] at h
      have := (writeOperands_code ho).2.2
      rw [h] at this
      exact absurd rfl this
    | ok parsed =>
      rw [ho, bind_ok] at h
      split_ifs at h
      simp only [Except.error.injEq, Prod.mk.injEq] at h
      exact absurd h.1 (by decide)

/-- Where the cursor stands when a command fails with `FLP_CHAN_RANGE`: just
past the command letter `r` or `w`, at the start of the channel number, whose
value as converted by `strtoul` is above 127. -/
theorem command_chan_range {env : Env} {line : List Char} {st st' : State}
    (h : command env line st = .error (FLP_CHAN_RANGE, st')) :
    1 ≤ st'.ptr ∧
    ((peek line (st'.ptr - 1) = 'r' ∧ 127 < (strtoul env line st'.ptr).value % 4294967296) ∨
     (peek line (st'.ptr - 1) = 'w' ∧ 127 < (strtoul env line st'.ptr).value)) := by
  unfold command at h
  dsimp only at h
  split_ifs at h with h1 h2 h3
  · obtain ⟨g1, g2⟩ := caseRead_chan_range h
    simp only at g1 g2
    rw [g1]
    exact ⟨by omega, Or.inl ⟨by simpa using h1, g2⟩⟩
  · obtain ⟨g1, g2⟩ := caseWrite_chan_range h
    simp only at g1 g2
    rw [g1]
    exact ⟨by omega, Or.inr ⟨by simpa using h2, g2⟩⟩
  · exact absurd rfl (casePlus_code h).2.2
  · simp only [Except.error.injEq, Prod.mk.injEq] at h
    exact absurd h.1 (by decide)

theorem parseLoop_chan_range (env : Env) (line : List Char) :
    ∀ (fuel : Nat) (st st' : State),
      parseLoop env line fuel st = some (.error (FLP_CHAN_RANGE, st')) →
      1 ≤ st'.ptr ∧
      ((peek line (st'.ptr - 1) = 'r' ∧
          127 < (strtoul env line st'.ptr).value % 4294967296) ∨
       (peek line (st'.ptr - 1) = 'w' ∧ 127 < (strtoul env line st'.ptr).value)) := by
  intro fuel
  induction fuel with
  | zero => intro st st' h; exact Option.noConfusion h
  | succ fuel ih =>
    intro st st' h
    rw [parseLoop_succ] at h
    cases hc : command env line st with
    | error e =>
      rw [hc] at h
      simp only [Option.some.injEq, Except.error.injEq] at h
      rw [h] at hc
      exact command_chan_range hc
    | ok st1 =>
      rw [hc] at h
      by_cases hp : peek line st1.ptr = ';'
      · simp only [hp, if_true] at h
        exact ih st1 st' h
      · simp only [hp, if_false, Option.some.injEq] at h
        exact Except.noConfusion h

/-- The four ways an invocation of `parseLine` can end. -/
theorem parseLine_cases {env : Env} {line : List Char} {r : Result}
    (h : parseLine env line = some r) :
    (env.bufInitialise ≠ 0 ∧ r = cleanup line FLP_LIBERR initialState) ∨
    (∃ code st, parseLoop env line (line.length + 1) initialState = some (.error (code, st)) ∧
      r = cleanup line code st) ∨
    (∃ st, parseLoop env line (line.length + 1) initialState = some (.ok st) ∧
      peek line st.ptr ≠ NUL ∧ r = cleanup line FLP_ILL_CHAR st) ∨
    (∃ st, parseLoop env line (line.length + 1) initialState = some (.ok st) ∧
      peek line st.ptr = NUL ∧ r = cleanup line FLP_SUCCESS
        { st with trace := st.trace ++ [Event.dump 0 st.dataFromFPGA st.dataFromFPGA.length] })
    := by
  unfold parseLine at h
  split_ifs at h with hinit
  · simp only [Option.some.injEq] at h
    exact Or.inl ⟨hinit, h.symm⟩
  · cases hl : parseLoop env line (line.length + 1) initialState with
    | none => rw [hl] at h; exact Option.noConfusion h
    | some out =>
      rw [hl] at h
      cases out with
      | error e =>
        simp only [Option.some.injEq] at h
        exact Or.inr (Or.inl ⟨e.1, e.2, rfl, h.symm⟩)
      | ok st =>
        dsimp only at h
        split_ifs at h with hp
        · simp only [Option.some.injEq] at h
          exact Or.inr (Or.inr (Or.inl ⟨st, rfl, hp, h.symm⟩))
        · simp only [Option.some.injEq] at h
          exact Or.inr (Or.inr (Or.inr ⟨st, rfl, not_not.mp hp, h.symm⟩))

theorem cleanup_returnCode (line : List Char) (code : ReturnCode) (st : State) :
    (cleanup line code st).returnCode = code := rfl

theorem cleanup_atCleanup (line : List Char) (code : ReturnCode) (st : State) :
    (cleanup line code st).atCleanup = st := rfl

theorem cleanup_dumpCalls (line : List Char) (code : ReturnCode) (st : State) :
    dumpCalls (cleanup line code st).final.trace = dumpCalls st.trace := by
  simp only [cleanup, dumpCalls_append]
  cases st.file <;> simp [dumpCalls, Event.isDump]

theorem cleanup_accumulatedBytes (line : List Char) (code : ReturnCode) (st : State) :
    accumulatedBytes (cleanup line code st).final.trace = accumulatedBytes st.trace := by
  simp only [cleanup, accumulatedBytes_append]
  cases st.file <;> simp [accumulatedBytes, Event.accumulated]

/-- For every action string `parseLine` returns, and: when the result is
`FLP_SUCCESS`, `dump` has been called exactly once, with base address 0 and
with the bytes the trace records as stored by the accumulating reads, in the
order of the calls; when the result is not `FLP_SUCCESS`, `dump` has not been
called. -/
theorem dumpCalls_of_result (env : Env) (line : List Char) :
    ∃ r, parseLine env line = some r ∧
      (r.returnCode = FLP_SUCCESS →
        dumpCalls r.final.trace =
          [Event.dump 0 (accumulatedBytes r.final.trace)
            (accumulatedBytes r.final.trace).length]) ∧
      (r.returnCode ≠ FLP_SUCCESS → dumpCalls r.final.trace = []) := by
  obtain ⟨r, hr⟩ := parseLine_total env line
  refine ⟨r, hr, ?_⟩
  rcases parseLine_cases hr with ⟨-, rfl⟩ | ⟨code, st, hloop, rfl⟩ | ⟨st, hloop, -, rfl⟩ |
    ⟨st, hloop, -, rfl⟩
  · exact ⟨fun h => by rw [cleanup_returnCode] at h; exact absurd h (by decide), fun _ => rfl⟩
  · obtain ⟨-, hinv, hcode⟩ := parseLoop_frame env line _ _ _ hloop
    have hi := hinv AccInv_initialState
    have hc := hcode (code, st) rfl
    simp only [Exec.state] at hi
    refine ⟨fun h => ?_, fun _ => ?_⟩
    · rw [cleanup_returnCode] at h
      rw [h] at hc
      exact absurd hc.1 (show ¬ 1 ≤ FLP_SUCCESS.toNat by decide)
    · rw [cleanup_dumpCalls]; exact hi.2
  · obtain ⟨-, hinv, -⟩ := parseLoop_frame env line _ _ _ hloop
    have hi := hinv AccInv_initialState
    simp only [Exec.state] at hi
    refine ⟨fun h => by rw [cleanup_returnCode] at h; exact absurd h (by decide), fun _ => ?_⟩
    rw [cleanup_dumpCalls]; exact hi.2
  · obtain ⟨-, hinv, -⟩ := parseLoop_frame env line _ _ _ hloop
    have hi := hinv AccInv_initialState
    simp only [Exec.state] at hi
    refine ⟨fun _ => ?_, fun h => absurd rfl h⟩
    rw [cleanup_dumpCalls, cleanup_accumulatedBytes]
    simp only [dumpCalls_append, accumulatedBytes_append, hi.2, hi.1]
    simp [dumpCalls, Event.isDump, accumulatedBytes, Event.accumulated]

theorem errMessages_entry (c : ReturnCode) (h1 : 2 ≤ c.toNat) (h2 : c.toNat ≤ 11) :
    ∃ msg, errMessages[c.toNat]? = some (some msg) ∧ errMessage c = msg := by
  cases c <;> first
    | exact ⟨_, rfl, rfl⟩
    | (exfalso; revert h1 h2; decide)

theorem cleanup_stderr (line : List Char) (code : ReturnCode) (st : State) :
    (cleanup line code st).stderr =
      if code.toNat > 1 then [diagnostic line code st.ptr] else [] := rfl

/-- A read that is not redirected to a file, step by step. -/
theorem readExecute_noFile (env : Env) (chan length : Nat) (st : State)
    (hname : st.fileName = none) :
    readExecute env chan length st =
      if env.bufAppendConst st.trace st.dataFromFPGA.length length ≠ 0 then
        .error (FLP_LIBERR, st)
      else if (env.flReadChannel st.trace TIMEOUT (chan % 256) length).1 ≠ 0 then
        .error (FLP_LIBERR, afterRead env chan length st)
      else .ok (afterRead env chan length st) := by
  simp only [readExecute, hname, afterRead]
  split_ifs <;> simp

theorem command_read_at (env : Env) {line : List Char} {st : State} (p : Nat)
    {cd ld rest : List Char}
    (hskip : skipSemicolons line st.ptr = p)
    (hdrop : line.drop p = 'r' :: (cd ++ ' ' :: (ld ++ rest)))
    (hcne : cd ≠ []) (hcd : ∀ c ∈ cd, isHexDigit c = true)
    (hlne : ld ≠ []) (hld : ∀ c ∈ ld, isHexDigit c = true)
    (hrest : rest.headD NUL = NUL ∨ rest.headD NUL = ';')
    (hW : 32 ≤ env.ulongBits) (hchan : hexValue cd ≤ 127) (hlen : hexValue ld < 2 ^ 32) :
    command env line st = readExecute env (hexValue cd) (hexValue ld)
      { st with ptr := p + 1 + cd.length + 1 + ld.length } := by
  have hp : peek line p = 'r' := peek_of_drop hdrop
  have hc := @caseRead_plain env line { st with ptr := p } cd ld rest hdrop hcne hcd hlne hld
    hrest hW hchan hlen
  unfold command
  simp only [hskip, hp, if_true]
  exact hc

theorem casePlus_at (env : Env) {line : List Char} {st : State} {ds rest : List Char}
    (hdrop : line.drop st.ptr = '+' :: (ds ++ rest))
    (hne : ds ≠ []) (hds : ∀ c ∈ ds, isHexDigit c = true)
    (hrest : rest.headD NUL = NUL ∨ rest.headD NUL = ';')
    (hW : 32 ≤ env.ulongBits) (hv : hexValue ds ≤ 255) :
    casePlus env line st =
      if env.flFifoMode st.trace (hexValue ds % 256) ≠ 0 then
        .error (FLP_LIBERR, afterFifo env (hexValue ds) { st with ptr := st.ptr + 1 + ds.length })
      else .ok (afterFifo env (hexValue ds) { st with ptr := st.ptr + 1 + ds.length }) := by
  have h1 : line.drop (st.ptr + 1) = ds ++ rest := by
    have := @drop_add_of_drop line st.ptr ['+'] (ds ++ rest) hdrop
    simpa using this
  have h2 : line.drop (st.ptr + 1 + ds.length) = rest := drop_add_of_drop h1
  have s1 := strtoul_run_small env h1 hne hds
    (hrest.elim Or.inl (fun h => Or.inr (Or.inl h))) hW (by omega)
  have m : hexValue ds % 4294967296 = hexValue ds := Nat.mod_eq_of_lt (by omega)
  have hp : peek line (st.ptr + 1 + ds.length) = NUL ∨ peek line (st.ptr + 1 + ds.length) = ';' := by
    rw [peek_eq_headD, h2]; exact hrest
  simp only [casePlus, s1, m, afterFifo]
  rcases hp with hp | hp <;> simp [hp, hv, NUL]

theorem command_plus_at (env : Env) {line : List Char} {st : State} (p : Nat)
    {ds rest : List Char}
    (hskip : skipSemicolons line st.ptr = p)
    (hdrop : line.drop p = '+' :: (ds ++ rest))
    (hne : ds ≠ []) (hds : ∀ c ∈ ds, isHexDigit c = true)
    (hrest : rest.headD NUL = NUL ∨ rest.headD NUL = ';')
    (hW : 32 ≤ env.ulongBits) (hv : hexValue ds ≤ 255) :
    command env line st =
      if env.flFifoMode st.trace (hexValue ds % 256) ≠ 0 then
        .error (FLP_LIBERR, afterFifo env (hexValue ds) { st with ptr := p + 1 + ds.length })
      else .ok (afterFifo env (hexValue ds) { st with ptr := p + 1 + ds.length }) := by
  have hp : peek line p = '+' := peek_of_drop hdrop
  have hc := @casePlus_at env line { st with ptr := p } ds rest hdrop hne hds hrest hW hv
  have hcmd : command env line st = casePlus env line { st with ptr := p } := by
    unfold command
    simp [hskip, hp]
  rw [hcmd]
  exact hc

@[simp] theorem afterRead_ptr (env : Env) (chan length : Nat) (st : State) :
    (afterRead env chan length st).ptr = st.ptr := by
  simp [afterRead]

@[simp] theorem afterRead_fileName (env : Env) (chan length : Nat) (st : State) :
    (afterRead env chan length st).fileName = st.fileName := by
  simp [afterRead]

@[simp] theorem afterRead_file (env : Env) (chan length : Nat) (st : State) :
    (afterRead env chan length st).file = st.file := by
  simp [afterRead]

@[simp] theorem afterRead_trace (env : Env) (chan length : Nat) (st : State) :
    (afterRead env chan length st).trace = st.trace ++
      [Event.flReadChannel TIMEOUT (chan % 256) length (some st.dataFromFPGA.length)
        (env.flReadChannel st.trace TIMEOUT (chan % 256) length).1
        (overwrite (List.replicate length 0)
          (env.flReadChannel st.trace TIMEOUT (chan % 256) length).2)] := by
  simp [afterRead]

@[simp] theorem afterRead_dataFromFPGA (env : Env) (chan length : Nat) (st : State) :
    (afterRead env chan length st).dataFromFPGA = st.dataFromFPGA ++
      overwrite (List.replicate length 0)
        (env.flReadChannel st.trace TIMEOUT (chan % 256) length).2 := by
  simp [afterRead]

/-- The run of `parseLine` on `r0 4;r1 4;+0`, step by step: each of the five
calls that can fail (two per read, one for the conduit) ends the invocation
with `FLP_LIBERR` in the state reached so far. -/
theorem chain_run (env : Env) (hW : 32 ≤ env.ulongBits) (hinit : env.bufInitialise = 0) :
    parseLine env "r0 4;r1 4;+0".data = some (
      if env.bufAppendConst [] 0 4 ≠ 0 then
        cleanup "r0 4;r1 4;+0".data FLP_LIBERR { initialState with ptr := 4 }
      else if (env.flReadChannel [] TIMEOUT 0 4).1 ≠ 0 then
        cleanup "r0 4;r1 4;+0".data FLP_LIBERR (afterRead env 0 4 { initialState with ptr := 4 })
      else if env.bufAppendConst (afterRead env 0 4 { initialState with ptr := 4 }).trace
          (afterRead env 0 4 { initialState with ptr := 4 }).dataFromFPGA.length 4 ≠ 0 then
        cleanup "r0 4;r1 4;+0".data FLP_LIBERR
          { afterRead env 0 4 { initialState with ptr := 4 } with ptr := 9 }
      else if (env.flReadChannel (afterRead env 0 4 { initialState with ptr := 4 }).trace
          TIMEOUT 1 4).1 ≠ 0 then
        cleanup "r0 4;r1 4;+0".data FLP_LIBERR
          (afterRead env 1 4 { afterRead env 0 4 { initialState with ptr := 4 } with ptr := 9 })
      else if env.flFifoMode
          (afterRead env 1 4
            { afterRead env 0 4 { initialState with ptr := 4 } with ptr := 9 }).trace 0 ≠ 0 then
        cleanup "r0 4;r1 4;+0".data FLP_LIBERR
          (afterFifo env 0
            { afterRead env 1 4
                { afterRead env 0 4 { initialState with ptr := 4 } with ptr := 9 } with
              ptr := 12 })
      else
        cleanup "r0 4;r1 4;+0".data FLP_SUCCESS
          { afterFifo env 0
              { afterRead env 1 4
                  { afterRead env 0 4 { initialState with ptr := 4 } with ptr := 9 } with
                ptr := 12 } with
            trace := (afterFifo env 0
              { afterRead env 1 4
                  { afterRead env 0 4 { initialState with ptr := 4 } with ptr := 9 } with
                ptr := 12 }).trace ++
              [Event.dump 0
                (afterRead env 1 4
                  { afterRead env 0 4 { initialState with ptr := 4 } with ptr := 9 }).dataFromFPGA
                (afterRead env 1 4
                  { afterRead env 0 4 { initialState with ptr := 4 } with
                    ptr := 9 }).dataFromFPGA.length] }) := by
  have hdig0 : ∀ c ∈ ['0'], isHexDigit c = true := by decide
  have hdig1 : ∀ c ∈ ['1'], isHexDigit c = true := by decide
  have hdig4 : ∀ c ∈ ['4'], isHexDigit c = true := by decide
  -- first command
  have c1 : command env "r0 4;r1 4;+0".data initialState =
      readExecute env 0 4 { initialState with ptr := 4 } :=
    @command_read_at env "r0 4;r1 4;+0".data initialState 0 ['0'] ['4'] ";r1 4;+0".data
      rfl rfl (by decide) hdig0 (by decide) hdig4 (Or.inr rfl) hW (by decide) (by decide)
  rw [readExecute_noFile env 0 4 _ rfl] at c1
  by_cases a1 : env.bufAppendConst [] 0 4 = 0
  swap
  · rw [if_pos a1]
    rw [if_pos (by simpa [initialState] using a1)] at c1
    exact parseLine_first_error hinit c1
  rw [if_neg (by simpa using a1)]
  rw [if_neg (by simpa [initialState] using a1)] at c1
  by_cases r1 : (env.flReadChannel [] TIMEOUT 0 4).1 = 0
  swap
  · rw [if_pos r1]
    rw [if_pos (by simpa [initialState] using r1)] at c1
    exact parseLine_first_error hinit c1
  rw [if_neg (by simpa using r1)]
  rw [if_neg (by simpa [initialState] using r1)] at c1
  -- second command
  have c2 : command env "r0 4;r1 4;+0".data (afterRead env 0 4 { initialState with ptr := 4 }) =
      readExecute env 1 4 { afterRead env 0 4 { initialState with ptr := 4 } with ptr := 9 } :=
    @command_read_at env "r0 4;r1 4;+0".data _ 5 ['1'] ['4'] ";+0".data
      (by rw [afterRead_ptr]; rfl) rfl (by decide) hdig1 (by decide) hdig4 (Or.inr rfl) hW
      (by decide) (by decide)
  rw [readExecute_noFile env 1 4 _ (by simp [initialState])] at c2
  have l1 : parseLoop env "r0 4;r1 4;+0".data ("r0 4;r1 4;+0".data.length + 1) initialState =
      parseLoop env "r0 4;r1 4;+0".data "r0 4;r1 4;+0".data.length
        (afterRead env 0 4 { initialState with ptr := 4 }) :=
    parseLoop_continue _ c1 (by rw [afterRead_ptr]; rfl)
  dsimp only at c2
  by_cases a2 : env.bufAppendConst (afterRead env 0 4 { initialState with ptr := 4 }).trace
      (afterRead env 0 4 { initialState with ptr := 4 }).dataFromFPGA.length 4 = 0
  swap
  · rw [if_pos a2]
    rw [if_pos a2] at c2
    have l2 : parseLoop env "r0 4;r1 4;+0".data "r0 4;r1 4;+0".data.length
        (afterRead env 0 4 { initialState with ptr := 4 }) = _ := parseLoop_error 11 c2
    exact parseLine_of_error hinit (l1.trans l2)
  rw [if_neg (not_not.mpr a2)]
  rw [if_neg (not_not.mpr a2)] at c2
  by_cases r2 : (env.flReadChannel (afterRead env 0 4 { initialState with ptr := 4 }).trace
      TIMEOUT 1 4).1 = 0
  swap
  · rw [if_pos r2]
    rw [if_pos r2] at c2
    have l2 : parseLoop env "r0 4;r1 4;+0".data "r0 4;r1 4;+0".data.length
        (afterRead env 0 4 { initialState with ptr := 4 }) = _ := parseLoop_error 11 c2
    exact parseLine_of_error hinit (l1.trans l2)
  rw [if_neg (not_not.mpr r2)]
  rw [if_neg (not_not.mpr r2)] at c2
  have l2 : parseLoop env "r0 4;r1 4;+0".data "r0 4;r1 4;+0".data.length
      (afterRead env 0 4 { initialState with ptr := 4 }) =
      parseLoop env "r0 4;r1 4;+0".data 11
        (afterRead env 1 4 { afterRead env 0 4 { initialState with ptr := 4 } with ptr := 9 }) :=
    parseLoop_continue 11 c2 (by rw [afterRead_ptr]; rfl)
  -- third command
  have c3 := @command_plus_at env "r0 4;r1 4;+0".data
    (afterRead env 1 4 { afterRead env 0 4 { initialState with ptr := 4 } with ptr := 9 })
    10 ['0'] [] (by rw [afterRead_ptr]; rfl) rfl (by decide) hdig0 (Or.inl rfl) hW (by decide)
  have hv0 : hexValue ['0'] = 0 := by decide
  rw [hv0] at c3
  by_cases f3 : env.flFifoMode (afterRead env 1 4
      { afterRead env 0 4 { initialState with ptr := 4 } with ptr := 9 }).trace 0 = 0
  swap
  · rw [if_pos f3]
    rw [if_pos f3] at c3
    have l3 : parseLoop env "r0 4;r1 4;+0".data 11
        (afterRead env 1 4 { afterRead env 0 4 { initialState with ptr := 4 } with ptr := 9 })
        = _ := parseLoop_error 10 c3
    exact parseLine_of_error hinit ((l1.trans l2).trans l3)
  rw [if_neg (not_not.mpr f3)]
  rw [if_neg (not_not.mpr f3)] at c3
  have l3 : parseLoop env "r0 4;r1 4;+0".data 11
      (afterRead env 1 4 { afterRead env 0 4 { initialState with ptr := 4 } with ptr := 9 })
      = _ := parseLoop_last 10 c3 (by simp only [afterFifo]; decide)
  exact parseLine_of_ok hinit ((l1.trans l2).trans l3) rfl

theorem deviceOps_cleanup (line : List Char) (code : ReturnCode) (st : State)
    (hfile : st.file = none) :
    deviceOps (cleanup line code st).final.trace = deviceOps st.trace := by
  simp [cleanup, hfile]

theorem caseRead_range_at (env : Env) {line : List Char} {st : State} {ds rest : List Char}
    (hdrop : line.drop st.ptr = 'r' :: (ds ++ rest))
    (hne : ds ≠ []) (hds : ∀ c ∈ ds, isHexDigit c = true)
    (hrest : rest.headD NUL = NUL ∨ rest.headD NUL = ';' ∨ rest.headD NUL = ' ')
    (hW : 32 ≤ env.ulongBits) (hlo : 127 < hexValue ds) (hhi : hexValue ds < 2 ^ 32) :
    caseRead env line st = .error (FLP_CHAN_RANGE, { st with ptr := st.ptr + 1 }) := by
  have h1 : line.drop (st.ptr + 1) = ds ++ rest := by
    have := @drop_add_of_drop line st.ptr ['r'] (ds ++ rest) hdrop
    simpa using this
  have s1 := strtoul_run_small env h1 hne hds hrest hW hhi
  have m : hexValue ds % 4294967296 = hexValue ds := Nat.mod_eq_of_lt hhi
  simp only [caseRead, s1, m]
  simp [hlo]

/-- The run of `parseLine` on `r0 4;r80;+0`: the second command fails with
`FLP_CHAN_RANGE` unless the first one failed already. -/
theorem chain_range_run (env : Env) (hW : 32 ≤ env.ulongBits) (hinit : env.bufInitialise = 0) :
    parseLine env "r0 4;r80;+0".data = some (
      if env.bufAppendConst [] 0 4 ≠ 0 then
        cleanup "r0 4;r80;+0".data FLP_LIBERR { initialState with ptr := 4 }
      else if (env.flReadChannel [] TIMEOUT 0 4).1 ≠ 0 then
        cleanup "r0 4;r80;+0".data FLP_LIBERR (afterRead env 0 4 { initialState with ptr := 4 })
      else
        cleanup "r0 4;r80;+0".data FLP_CHAN_RANGE
          { afterRead env 0 4 { initialState with ptr := 4 } with ptr := 6 }) := by
  have hdig0 : ∀ c ∈ ['0'], isHexDigit c = true := by decide
  have hdig4 : ∀ c ∈ ['4'], isHexDigit c = true := by decide
  have hdig80 : ∀ c ∈ ['8', '0'], isHexDigit c = true := by decide
  have c1 : command env "r0 4;r80;+0".data initialState =
      readExecute env 0 4 { initialState with ptr := 4 } :=
    @command_read_at env "r0 4;r80;+0".data initialState 0 ['0'] ['4'] ";r80;+0".data
      rfl rfl (by decide) hdig0 (by decide) hdig4 (Or.inr rfl) hW (by decide) (by decide)
  rw [readExecute_noFile env 0 4 _ rfl] at c1
  by_cases a1 : env.bufAppendConst [] 0 4 = 0
  swap
  · rw [if_pos a1]
    rw [if_pos (by simpa [initialState] using a1)] at c1
    exact parseLine_first_error hinit c1
  rw [if_neg (by simpa using a1)]
  rw [if_neg (by simpa [initialState] using a1)] at c1
  by_cases r1 : (env.flReadChannel [] TIMEOUT 0 4).1 = 0
  swap
  · rw [if_pos r1]
    rw [if_pos (by simpa [initialState] using r1)] at c1
    exact parseLine_first_error hinit c1
  rw [if_neg (by simpa using r1)]
  rw [if_neg (by simpa [initialState] using r1)] at c1
  have l1 : parseLoop env "r0 4;r80;+0".data ("r0 4;r80;+0".data.length + 1) initialState =
      parseLoop env "r0 4;r80;+0".data "r0 4;r80;+0".data.length
        (afterRead env 0 4 { initialState with ptr := 4 }) :=
    parseLoop_continue _ c1 (by rw [afterRead_ptr]; rfl)
  have hcase := @caseRead_range_at env "r0 4;r80;+0".data
    { afterRead env 0 4 { initialState with ptr := 4 } with ptr := 5 } ['8', '0'] ";+0".data
    rfl (by decide) hdig80 (Or.inr (Or.inl rfl)) hW (by decide) (by decide)
  have c2 : command env "r0 4;r80;+0".data (afterRead env 0 4 { initialState with ptr := 4 }) =
      .error (FLP_CHAN_RANGE, { afterRead env 0 4 { initialState with ptr := 4 } with ptr := 6 })
      := by
    have hskip : skipSemicolons "r0 4;r80;+0".data
        (afterRead env 0 4 { initialState with ptr := 4 }).ptr = 5 := by
      rw [afterRead_ptr]; rfl
    have hp : peek "r0 4;r80;+0".data 5 = 'r' := rfl
    unfold command
    simp only [hskip, hp, if_true]
    exact hcase
  have l2 : parseLoop env "r0 4;r80;+0".data "r0 4;r80;+0".data.length
      (afterRead env 0 4 { initialState with ptr := 4 }) = _ := parseLoop_error 10 c2
  exact parseLine_of_error hinit (l1.trans l2)

/-- The chain of the specification evaluated on a device that works and on one
whose second read fails. -/
theorem chain_examples :
    (parseLine idealEnv "r0 4;r1 4;+0".data).map
        (fun r => (r.returnCode, deviceOps r.final.trace))
      = some (FLP_SUCCESS,
          [Event.flReadChannel 600000 0 4 (some 0) 0 [0, 1, 2, 3],
           Event.flReadChannel 600000 1 4 (some 4) 0 [1, 2, 3, 4],
           Event.flFifoMode 0 0]) ∧
    (parseLine secondReadFailsEnv "r0 4;r1 4;+0".data).map
        (fun r => (r.returnCode, deviceOps r.final.trace))
      = some (FLP_LIBERR,
          [Event.flReadChannel 600000 0 4 (some 0) 0 [0, 1, 2, 3],
           Event.flReadChannel 600000 1 4 (some 4) 1 [0, 0, 0, 0]]) := by
  constructor <;> rfl

/-- C7 (as amended). On `r0 4;r1 4;+0`, when the first command succeeds (its
read returns the 4 bytes `bytes1`) and the second command fails, the
accumulator at the point where parsing stops starts with `bytes1`, and:
when the failure is that of `bufAppendConst`, before the accumulator is grown
for the second read, the accumulator is `bytes1`, of length 4; when the failure
is that of the device's `flReadChannel` call for channel 1, the accumulator is
`bytes1` followed by the 4 bytes of the region the device was to read into,
of length 8. In both cases the result is `FLP_LIBERR` and no device operation
of the third command is issued. -/
theorem accumulator_when_second_read_fails (env : Env) (bytes1 : List Nat)
    (hW : 32 ≤ env.ulongBits) (hinit : env.bufInitialise = 0)
    (ha1 : env.bufAppendConst [] 0 4 = 0)
    (hr1 : env.flReadChannel [] 600000 0 4 = (0, bytes1)) (hb : bytes1.length = 4) :
    (env.bufAppendConst [Event.flReadChannel 600000 0 4 (some 0) 0 bytes1] 4 4 ≠ 0 →
      ∃ r, parseLine env "r0 4;r1 4;+0".data = some r ∧ r.returnCode = FLP_LIBERR ∧
        r.atCleanup.dataFromFPGA = bytes1 ∧ r.atCleanup.dataFromFPGA.length = 4 ∧
        deviceOps r.final.trace = [Event.flReadChannel 600000 0 4 (some 0) 0 bytes1]) ∧
    (env.bufAppendConst [Event.flReadChannel 600000 0 4 (some 0) 0 bytes1] 4 4 = 0 →
      (env.flReadChannel [Event.flReadChannel 600000 0 4 (some 0) 0 bytes1] 600000 1 4).1 ≠ 0 →
      ∃ r region, parseLine env "r0 4;r1 4;+0".data = some r ∧ r.returnCode = FLP_LIBERR ∧
        r.atCleanup.dataFromFPGA = bytes1 ++ region ∧ region.length = 4 ∧
        r.atCleanup.dataFromFPGA.take 4 = bytes1 ∧ r.atCleanup.dataFromFPGA.length = 8 ∧
        deviceOps r.final.trace =
          [Event.flReadChannel 600000 0 4 (some 0) 0 bytes1,
           Event.flReadChannel 600000 1 4 (some 4)
             (env.flReadChannel [Event.flReadChannel 600000 0 4 (some 0) 0 bytes1]
               600000 1 4).1 region]) := by
  have hrun := chain_run env hW hinit
  have hr1' : env.flReadChannel [] TIMEOUT 0 4 = (0, bytes1) := hr1
  have hov : overwrite (List.replicate 4 0) bytes1 = bytes1 :=
    overwrite_of_length (by rw [hb, List.length_replicate])
  have hov' : overwrite [0, 0, 0, 0] bytes1 = bytes1 := hov
  have htr : (afterRead env 0 4 { initialState with ptr := 4 }).trace =
      [Event.flReadChannel 600000 0 4 (some 0) 0 bytes1] := by
    rw [afterRead_trace]
    simp only [initialState, hr1', hov, List.nil_append, List.length_nil, Nat.zero_mod]
    rfl
  have hda : (afterRead env 0 4 { initialState with ptr := 4 }).dataFromFPGA = bytes1 := by
    rw [afterRead_dataFromFPGA]
    simp only [initialState, hr1', hov, List.nil_append, Nat.zero_mod]
  have hfl : (afterRead env 0 4 { initialState with ptr := 4 }).file = none := by
    rw [afterRead_file]; rfl
  rw [if_neg (not_not.mpr ha1), if_neg (by rw [hr1']; exact not_not.mpr rfl)] at hrun
  generalize afterRead env 0 4 { initialState with ptr := 4 } = st1 at hrun htr hda hfl
  rw [htr, hda, hb] at hrun
  refine ⟨fun ha2 => ?_, fun ha2 hr2 => ?_⟩
  · rw [if_pos ha2] at hrun
    refine ⟨_, hrun, rfl, ?_, ?_, ?_⟩
    · simp only [cleanup_atCleanup, hda]
    · simp only [cleanup_atCleanup, hda, hb]
    · rw [deviceOps_cleanup _ _ { st1 with ptr := 9 } hfl]
      simp [htr, deviceOps, List.filter, Event.isDeviceOp]
  · have hr2' : (env.flReadChannel [Event.flReadChannel 600000 0 4 (some 0) 0 bytes1]
        TIMEOUT 1 4).1 ≠ 0 := hr2
    rw [if_neg (not_not.mpr ha2), if_pos hr2'] at hrun
    have hda2 : (afterRead env 1 4 { st1 with ptr := 9 }).dataFromFPGA = bytes1 ++
        overwrite (List.replicate 4 0)
          (env.flReadChannel [Event.flReadChannel 600000 0 4 (some 0) 0 bytes1] 600000 1 4).2
        := by
      rw [afterRead_dataFromFPGA]
      simp only [hda, htr]
      rfl
    have htr2 : (afterRead env 1 4 { st1 with ptr := 9 }).trace =
        [Event.flReadChannel 600000 0 4 (some 0) 0 bytes1,
         Event.flReadChannel 600000 1 4 (some 4)
           (env.flReadChannel [Event.flReadChannel 600000 0 4 (some 0) 0 bytes1]
             600000 1 4).1
           (overwrite (List.replicate 4 0)
             (env.flReadChannel [Event.flReadChannel 600000 0 4 (some 0) 0 bytes1]
               600000 1 4).2)] := by
      rw [afterRead_trace]
      simp only [hda, htr, hb, List.singleton_append]
      rfl
    have hfl2 : (afterRead env 1 4 { st1 with ptr := 9 }).file = none := by
      rw [afterRead_file]; exact hfl
    have hlen : (overwrite (List.replicate 4 0)
        (env.flReadChannel [Event.flReadChannel 600000 0 4 (some 0) 0 bytes1]
          600000 1 4).2).length = 4 := by
      rw [length_overwrite, List.length_replicate]
    refine ⟨_, overwrite (List.replicate 4 0)
      (env.flReadChannel [Event.flReadChannel 600000 0 4 (some 0) 0 bytes1] 600000 1 4).2,
      hrun, rfl, ?_, hlen, ?_, ?_, ?_⟩
    · rw [cleanup_atCleanup, hda2]
    · rw [cleanup_atCleanup, hda2, ← hb, List.take_left]
    · rw [cleanup_atCleanup, hda2, List.length_append, hb, hlen]
    · rw [deviceOps_cleanup _ _ _ hfl2, htr2]
      rfl

theorem accumulator_when_second_read_fails_witness :
    (32 ≤ secondReadFailsEnv.ulongBits ∧ secondReadFailsEnv.bufInitialise = 0 ∧
      secondReadFailsEnv.bufAppendConst [] 0 4 = 0 ∧
      secondReadFailsEnv.flReadChannel [] 600000 0 4 = (0, [0, 1, 2, 3]) ∧
      [0, 1, 2, 3].length = 4) ∧
    (secondReadFailsEnv.bufAppendConst
        [Event.flReadChannel 600000 0 4 (some 0) 0 [0, 1, 2, 3]] 4 4 ≠ 0 →
      ∃ r, parseLine secondReadFailsEnv "r0 4;r1 4;+0".data = some r ∧
        r.returnCode = FLP_LIBERR ∧
        r.atCleanup.dataFromFPGA = [0, 1, 2, 3] ∧ r.atCleanup.dataFromFPGA.length = 4 ∧
        deviceOps r.final.trace = [Event.flReadChannel 600000 0 4 (some 0) 0 [0, 1, 2, 3]]) ∧
    (secondReadFailsEnv.bufAppendConst
        [Event.flReadChannel 600000 0 4 (some 0) 0 [0, 1, 2, 3]] 4 4 = 0 →
      (secondReadFailsEnv.flReadChannel
        [Event.flReadChannel 600000 0 4 (some 0) 0 [0, 1, 2, 3]] 600000 1 4).1 ≠ 0 →
      ∃ r region, parseLine secondReadFailsEnv "r0 4;r1 4;+0".data = some r ∧
        r.returnCode = FLP_LIBERR ∧
        r.atCleanup.dataFromFPGA = [0, 1, 2, 3] ++ region ∧ region.length = 4 ∧
        r.atCleanup.dataFromFPGA.take 4 = [0, 1, 2, 3] ∧
        r.atCleanup.dataFromFPGA.length = 8 ∧
        deviceOps r.final.trace =
          [Event.flReadChannel 600000 0 4 (some 0) 0 [0, 1, 2, 3],
           Event.flReadChannel 600000 1 4 (some 4)
             (secondReadFailsEnv.flReadChannel
               [Event.flReadChannel 600000 0 4 (some 0) 0 [0, 1, 2, 3]] 600000 1 4).1
             region]) :=
  ⟨⟨by decide, rfl, rfl, rfl, rfl⟩,
    accumulator_when_second_read_fails secondReadFailsEnv [0, 1, 2, 3] (by decide) rfl rfl rfl
      rfl⟩

/-- With a device whose read of channel 1 fails, the accumulator holds 8 bytes,
not 4, when `parseLine` stops on `r0 4;r1 4;+0`. -/
theorem accumulator_when_second_read_fails_counterexample :
    (parseLine secondReadFailsEnv "r0 4;r1 4;+0".data).map
        (fun r => (r.returnCode, r.atCleanup.dataFromFPGA, r.atCleanup.dataFromFPGA.length))
      = some (FLP_LIBERR, [0, 1, 2, 3, 0, 0, 0, 0], 8) ∧
    (8 : Nat) ≠ 4 := by
  constructor
  · rfl
  · decide

theorem drop_shift (pre s : List Char) (p : Nat) :
    (pre ++ s).drop (pre.length + p) = s.drop p := by
  rw [← List.drop_drop, List.drop_left]

theorem peek_shift (pre s : List Char) (p : Nat) :
    peek (pre ++ s) (pre.length + p) = peek s p := by
  rw [peek_eq_headD, peek_eq_headD, drop_shift]

theorem strtoul_shift (env : Env) (pre s : List Char) (p : Nat) :
    strtoul env (pre ++ s) (pre.length + p) =
      { value := (strtoul env s p).value, endp := pre.length + (strtoul env s p).endp,
        errno := (strtoul env s p).errno } := by
  simp only [strtoul, drop_shift]
  split_ifs <;> simp only [Strtoul.mk.injEq, true_and, and_true] <;> omega

theorem strtoul_shift_value (env : Env) (pre s : List Char) (p : Nat) :
    (strtoul env (pre ++ s) (pre.length + p)).value = (strtoul env s p).value := by
  rw [strtoul_shift]

theorem strtoul_shift_errno (env : Env) (pre s : List Char) (p : Nat) :
    (strtoul env (pre ++ s) (pre.length + p)).errno = (strtoul env s p).errno := by
  rw [strtoul_shift]

theorem strtoul_shift_endp (env : Env) (pre s : List Char) (p : Nat) :
    (strtoul env (pre ++ s) (pre.length + p)).endp = pre.length + (strtoul env s p).endp := by
  rw [strtoul_shift]

theorem skipSemicolons_shift (pre s : List Char) (p : Nat) :
    skipSemicolons (pre ++ s) (pre.length + p) = pre.length + skipSemicolons s p := by
  simp only [skipSemicolons, drop_shift]; omega

theorem scanQuote_shift (pre s : List Char) (p : Nat) (q : Char) :
    scanQuote (pre ++ s) (pre.length + p) q = pre.length + scanQuote s p q := by
  simp only [scanQuote, drop_shift]; omega

theorem scanHexRun_shift (pre s : List Char) (p : Nat) :
    scanHexRun (pre ++ s) (pre.length + p) = pre.length + scanHexRun s p := by
  simp only [scanHexRun, Nat.add_assoc, drop_shift]

theorem getHexByte_shift (pre s : List Char) (p : Nat) :
    getHexByte (pre ++ s) (pre.length + p) = getHexByte s p := by
  simp only [getHexByte, Nat.add_assoc, peek_shift]

theorem hexByteLoop_shift (pre s : List Char) (n : Nat) : ∀ (p : Nat) (acc : List Nat),
    hexByteLoop (pre ++ s) n (pre.length + p) acc =
      (pre.length + (hexByteLoop s n p acc).1, (hexByteLoop s n p acc).2) := by
  induction n with
  | zero => intro p acc; rfl
  | succ n ih =>
    intro p acc
    simp only [hexByteLoop, getHexByte_shift, Nat.add_assoc, ih]

theorem quotedFileName_shift (env : Env) (pre s : List Char) (q : Char) (st : State) :
    quotedFileName env (pre ++ s) q (st.shift pre.length) =
      quotedShift pre.length (quotedFileName env s q st) := by
  simp only [quotedFileName, State.shift, Nat.add_assoc, scanQuote_shift, peek_shift,
    drop_shift]
  have e : ∀ a b : Nat, pre.length + a - (pre.length + b) = a - b := fun a b => by omega
  simp only [e]
  split_ifs <;> simp only [quotedShift, State.shift, Nat.add_assoc]

theorem readOperands_shift (env : Env) (pre s : List Char) (st : State) :
    readOperands env (pre ++ s) (st.shift pre.length) =
      operandsShift pre.length (readOperands env s st) := by
  unfold readOperands
  dsimp only [State.shift]
  simp only [Nat.add_assoc, peek_shift, strtoul_shift_value, strtoul_shift_errno,
    strtoul_shift_endp]
  split_ifs
  · rfl
  · rfl
  · rfl
  · have hq := quotedFileName_shift env pre s (peek s ((strtoul env s (st.ptr + 1)).endp + 1))
      { st with ptr := (strtoul env s (st.ptr + 1)).endp + 1 }
    simp only [State.shift, Nat.add_assoc] at hq
    rw [hq]
    cases quotedFileName env s (peek s ((strtoul env s (st.ptr + 1)).endp + 1))
      { st with ptr := (strtoul env s (st.ptr + 1)).endp + 1 } with
    | error e => rfl
    | ok found =>
      simp only [quotedShift, bind_ok, operandsShift, State.shift, Nat.add_assoc]
  · rfl
  · rfl

theorem readExecute_shift (env : Env) (chan length k : Nat) (st : State) :
    readExecute env chan length (st.shift k) = (readExecute env chan length st).shift k := by
  unfold readExecute benchmark
  dsimp only [State.shift]
  split
  · split_ifs <;> rfl
  · split_ifs <;> rfl

theorem caseRead_shift (env : Env) (pre s : List Char) (st : State) :
    caseRead env (pre ++ s) (st.shift pre.length) =
      (caseRead env s st).shift pre.length := by
  have ho := readOperands_shift env pre s { st with ptr := (strtoul env s (st.ptr + 1)).endp }
  simp only [State.shift] at ho
  unfold caseRead
  dsimp only [State.shift]
  simp only [Nat.add_assoc, peek_shift, strtoul_shift_value, strtoul_shift_errno,
    strtoul_shift_endp]
  split_ifs
  · rfl
  · rfl
  · rfl
  · rw [ho]
    cases readOperands env s { st with ptr := (strtoul env s (st.ptr + 1)).endp } with
    | error e => rfl
    | ok parsed =>
      simp only [operandsShift, bind_ok]
      exact readExecute_shift env _ _ _ _

theorem writeOperands_shift (env : Env) (pre s : List Char) (st : State) :
    writeOperands env (pre ++ s) (st.shift pre.length) =
      operandsShift pre.length (writeOperands env s st) := by
  have e : ∀ a b : Nat, pre.length + a - (pre.length + b) = a - b := fun a b => by omega
  unfold writeOperands
  dsimp only [State.shift]
  simp only [Nat.add_assoc, peek_shift, scanHexRun_shift, hexByteLoop_shift, e]
  split_ifs
  · have hq := quotedFileName_shift env pre s (peek s (st.ptr + 1)) { st with ptr := st.ptr + 1 }
    simp only [State.shift, Nat.add_assoc] at hq
    rw [hq]
    cases quotedFileName env s (peek s (st.ptr + 1)) { st with ptr := st.ptr + 1 } with
    | error e => rfl
    | ok found =>
      simp only [quotedShift, bind_ok, State.shift]
      split_ifs
      · rfl
      · simp only [operandsShift, State.shift, Nat.add_assoc]
  · rfl
  · rfl
  · rfl
  · rfl

theorem caseWrite_shift (env : Env) (pre s : List Char) (st : State) :
    caseWrite env (pre ++ s) (st.shift pre.length) =
      (caseWrite env s st).shift pre.length := by
  have ho := writeOperands_shift env pre s { st with ptr := (strtoul env s (st.ptr + 1)).endp }
  simp only [State.shift] at ho
  unfold caseWrite benchmark
  dsimp only [State.shift]
  simp only [Nat.add_assoc, peek_shift, strtoul_shift_value, strtoul_shift_errno,
    strtoul_shift_endp]
  split_ifs
  all_goals first
    | rfl
    | (rw [ho]
       cases writeOperands env s { st with ptr := (strtoul env s (st.ptr + 1)).endp } with
       | error e => rfl
       | ok parsed =>
         simp only [operandsShift, bind_ok, State.shift]
         split_ifs <;> rfl)

theorem casePlus_shift (env : Env) (pre s : List Char) (st : State) :
    casePlus env (pre ++ s) (st.shift pre.length) =
      (casePlus env s st).shift pre.length := by
  unfold casePlus
  dsimp only [State.shift]
  simp only [Nat.add_assoc, peek_shift, strtoul_shift_value, strtoul_shift_errno,
    strtoul_shift_endp]
  split_ifs <;> rfl

theorem command_shift (env : Env) (pre s : List Char) (st : State) (p1 : Nat)
    (hskip : skipSemicolons (pre ++ s) p1 = pre.length + skipSemicolons s st.ptr) :
    command env (pre ++ s) { st with ptr := p1 } = (command env s st).shift pre.length := by
  have hr := caseRead_shift env pre s { st with ptr := skipSemicolons s st.ptr }
  have hw := caseWrite_shift env pre s { st with ptr := skipSemicolons s st.ptr }
  have hp := casePlus_shift env pre s { st with ptr := skipSemicolons s st.ptr }
  simp only [State.shift] at hr hw hp
  unfold command
  dsimp only
  rw [hskip]
  simp only [peek_shift]
  split_ifs
  · exact hr
  · exact hw
  · exact hp
  · rfl

theorem parseLoop_shift (env : Env) (pre s : List Char) :
    ∀ (fuel : Nat) (st : State) (p1 : Nat),
      skipSemicolons (pre ++ s) p1 = pre.length + skipSemicolons s st.ptr →
      parseLoop env (pre ++ s) fuel { st with ptr := p1 } =
        (parseLoop env s fuel st).map (Exec.shift pre.length) := by
  intro fuel
  induction fuel with
  | zero => intro st p1 _; rfl
  | succ fuel ih =>
    intro st p1 hskip
    rw [parseLoop_succ, parseLoop_succ, command_shift env pre s st p1 hskip]
    cases command env s st with
    | error e => rfl
    | ok st' =>
      simp only [Exec.shift, State.shift, peek_shift]
      split_ifs
      · exact ih st' (pre.length + st'.ptr) (skipSemicolons_shift pre s st'.ptr)
      · rfl

theorem parseLoop_mono (env : Env) (line : List Char) :
    ∀ (fuel : Nat) (st : State) (out : Exec), parseLoop env line fuel st = some out →
      ∀ d, parseLoop env line (fuel + d) st = some out := by
  intro fuel
  induction fuel with
  | zero => intro st out h; exact Option.noConfusion h
  | succ fuel ih =>
    intro st out h d
    rw [Nat.add_right_comm, parseLoop_succ]
    rw [parseLoop_succ] at h
    cases hc : command env line st with
    | error e => rw [hc] at h; exact h
    | ok st' =>
      rw [hc] at h
      dsimp only at h ⊢
      split_ifs at h ⊢ with hp
      · exact ih st' out h d
      · exact h

theorem skipSemicolons_replicate (m : Nat) (s : List Char) :
    skipSemicolons (List.replicate m ';' ++ s) 0 =
      (List.replicate m ';').length + skipSemicolons s 0 := by
  induction m with
  | zero => simp [skipSemicolons]
  | succ m ih =>
    simp only [skipSemicolons, List.drop_zero, Nat.zero_add, List.replicate_succ,
      List.cons_append, List.length_cons, List.length_replicate] at ih ⊢
    rw [List.takeWhile_cons]
    simp only [beq_self_eq_true, if_true, List.length_cons, ih]
    omega

theorem parseLoop_leading (env : Env) (s : List Char) (m : Nat) :
    ∃ out, parseLoop env s (s.length + 1) initialState = some out ∧
      parseLoop env (List.replicate m ';' ++ s) ((List.replicate m ';' ++ s).length + 1)
        initialState = some (out.shift m) := by
  obtain ⟨out, hout⟩ := parseLoop_total env s (s.length + 1) initialState
    (by simp only [initialState]; omega)
  refine ⟨out, hout, ?_⟩
  have hsh := parseLoop_shift env (List.replicate m ';') s (s.length + 1 + m) initialState 0
    (skipSemicolons_replicate m s)
  rw [parseLoop_mono env s (s.length + 1) initialState out hout m] at hsh
  have hlen : (List.replicate m ';' ++ s).length + 1 = s.length + 1 + m := by
    simp only [List.length_append, List.length_replicate]; omega
  rw [hlen]
  simp only [List.length_replicate, Option.map_some'] at hsh
  exact hsh

theorem parseLine_leading (env : Env) (s : List Char) (m : Nat) :
    ∃ r r', parseLine env s = some r ∧
      parseLine env (List.replicate m ';' ++ s) = some r' ∧
      r'.returnCode = r.returnCode ∧ r'.final.trace = r.final.trace := by
  obtain ⟨out, h1, h2⟩ := parseLoop_leading env s m
  by_cases hinit : env.bufInitialise = 0
  · cases out with
    | error e =>
      obtain ⟨code, st⟩ := e
      exact ⟨_, _, parseLine_of_error hinit h1, parseLine_of_error hinit h2, rfl, rfl⟩
    | ok st =>
      by_cases hp : peek s st.ptr = NUL
      · have hp' : peek (List.replicate m ';' ++ s) (st.shift m).ptr = NUL := by
          have := @peek_shift (List.replicate m ';') s st.ptr
          simp only [List.length_replicate] at this
          simp only [State.shift, this, hp]
        exact ⟨_, _, parseLine_of_ok hinit h1 hp, parseLine_of_ok hinit h2 hp', rfl, rfl⟩
      · have hp' : peek (List.replicate m ';' ++ s) (st.shift m).ptr ≠ NUL := by
          have := @peek_shift (List.replicate m ';') s st.ptr
          simp only [List.length_replicate] at this
          simp only [State.shift, this]
          exact hp
        exact ⟨_, _, parseLine_of_trailing hinit h1 hp, parseLine_of_trailing hinit h2 hp',
          rfl, rfl⟩
  · refine ⟨cleanup s FLP_LIBERR initialState,
      cleanup (List.replicate m ';' ++ s) FLP_LIBERR initialState, ?_, ?_, rfl, rfl⟩
    · unfold parseLine; rw [if_pos hinit]
    · unfold parseLine; rw [if_pos hinit]

/-- C9 (as amended). A leading run of `;` is skipped silently: for every action
string `s` that `parseLine` accepts (result `FLP_SUCCESS`) and every `m`, the
string made of `m` characters `;` followed by `s` is accepted too, with result
`FLP_SUCCESS`, and issues exactly the same device operations as `s` (the whole
sequence of outside calls is the same). -/
theorem leading_semicolons_skipped (env : Env) (s : List Char) (m : Nat) (r : Result)
    (hrun : parseLine env s = some r) (hok : r.returnCode = FLP_SUCCESS) :
    ∃ r', parseLine env (List.replicate m ';' ++ s) = some r' ∧
      r'.returnCode = FLP_SUCCESS ∧
      deviceOps r'.final.trace = deviceOps r.final.trace ∧
      r'.final.trace = r.final.trace := by
  obtain ⟨r0, r', h0, h', hcode, htrace⟩ := parseLine_leading env s m
  rw [hrun] at h0
  cases Option.some.inj h0
  exact ⟨r', h', hcode.trans hok, by rw [htrace], htrace⟩

theorem leading_semicolons_skipped_witness :
    parseLine idealEnv "r0 4;w1 aa".data = some
      (cleanup "r0 4;w1 aa".data FLP_SUCCESS
        { ptr := 10, dataFromFPGA := [0, 1, 2, 3], data := none, fileName := none,
          file := none,
          trace := [Event.flReadChannel 600000 0 4 (some 0) 0 [0, 1, 2, 3],
            Event.flWriteChannel 600000 1 1 (some [170]) 0,
            Event.dump 0 [0, 1, 2, 3] 4],
          stdout := [] }) ∧
    ∃ r', parseLine idealEnv (List.replicate 3 ';' ++ "r0 4;w1 aa".data) = some r' ∧
      r'.returnCode = FLP_SUCCESS ∧
      deviceOps r'.final.trace = deviceOps
        (cleanup "r0 4;w1 aa".data FLP_SUCCESS
          { ptr := 10, dataFromFPGA := [0, 1, 2, 3], data := none, fileName := none,
            file := none,
            trace := [Event.flReadChannel 600000 0 4 (some 0) 0 [0, 1, 2, 3],
              Event.flWriteChannel 600000 1 1 (some [170]) 0,
              Event.dump 0 [0, 1, 2, 3] 4],
            stdout := [] }).final.trace ∧
      r'.final.trace =
        (cleanup "r0 4;w1 aa".data FLP_SUCCESS
          { ptr := 10, dataFromFPGA := [0, 1, 2, 3], data := none, fileName := none,
            file := none,
            trace := [Event.flReadChannel 600000 0 4 (some 0) 0 [0, 1, 2, 3],
              Event.flWriteChannel 600000 1 1 (some [170]) 0,
              Event.dump 0 [0, 1, 2, 3] 4],
            stdout := [] }).final.trace :=
  ⟨by rfl, leading_semicolons_skipped idealEnv "r0 4;w1 aa".data 3 _ (by rfl) (by rfl)⟩

/-- C9 as stated fails for a trailing `;`: `"r0"` is accepted with result
`FLP_SUCCESS`, but `"r0;"` (the same string and one trailing `;`) issues the read
and then fails with `FLP_ILL_CHAR` at column 3, the end of the string, because
after a `;` the `switch` expects another command. -/
theorem trailing_semicolon_counterexample :
    (parseLine idealEnv "r0".data).map (fun r => (r.returnCode, deviceOps r.final.trace)) =
      some (FLP_SUCCESS, [Event.flReadChannel 600000 0 1 (some 0) 0 [0]]) ∧
    (parseLine idealEnv "r0;".data).map
        (fun r => (r.returnCode, r.atCleanup.ptr, deviceOps r.final.trace)) =
      some (FLP_ILL_CHAR, 3, [Event.flReadChannel 600000 0 1 (some 0) 0 [0]]) :=
  ⟨by rfl, by rfl⟩

theorem calcChecksumLoop_sum : ∀ (data : List Nat) (cksum : Nat), cksum < 65536 →
    calcChecksumLoop data data.length cksum = (cksum + data.sum) % 65536 := by
  intro data
  induction data with
  | nil => intro cksum h; simp [calcChecksumLoop, Nat.mod_eq_of_lt h]
  | cons d ds ih =>
    intro cksum h
    simp only [List.length_cons, calcChecksumLoop, List.tail_cons, List.headD_cons,
      List.sum_cons]
    rw [ih _ (Nat.mod_lt _ (by decide))]
    omega

theorem calcChecksum_sum (data : List Nat) :
    calcChecksum data data.length = data.sum % 65536 := by
  unfold calcChecksum
  rw [calcChecksumLoop_sum data 0 (by decide), Nat.zero_add]

/-- C17. For every byte sequence `data` of length `n`, `calcChecksum(data, n)` is
the sum of the `n` byte values modulo 2^16; the checksum of the empty sequence
is 0, and the checksum of a concatenation is the sum modulo 2^16 of the
checksums of the parts. -/
theorem checksum_is_sum_mod_65536 (data : List Nat) :
    calcChecksum data data.length = data.sum % 65536 ∧
    calcChecksum [] 0 = 0 ∧
    ∀ a b : List Nat, calcChecksum (a ++ b) (a ++ b).length =
      (calcChecksum a a.length + calcChecksum b b.length) % 65536 := by
  refine ⟨calcChecksum_sum data, rfl, ?_⟩
  intro a b
  rw [calcChecksum_sum, calcChecksum_sum, calcChecksum_sum, List.sum_append]
  omega

theorem getHexNibble_value (ch : Char) (h : isHexDigit ch = true) :
    getHexNibble ch = some
      (if '0' ≤ ch ∧ ch ≤ '9' then ch.toNat - 48
       else if 'a' ≤ ch ∧ ch ≤ 'f' then ch.toNat - 97 + 10
       else ch.toNat - 65 + 10) := by
  have hs := (isHexDigit_iff ch).mp h
  unfold getHexNibble at hs ⊢
  simp only [char_le_iff] at hs ⊢
  have e0 : '0'.toNat = 48 := rfl
  have e9 : '9'.toNat = 57 := rfl
  have ea : 'a'.toNat = 97 := rfl
  have ef : 'f'.toNat = 102 := rfl
  have eA : 'A'.toNat = 65 := rfl
  have eF : 'F'.toNat = 70 := rfl
  simp only [e0, e9, ea, ef, eA, eF] at hs ⊢
  split_ifs at hs ⊢ with h1 h2 h3
  · congr 1; omega
  · congr 1; omega
  · congr 1; omega
  · simp at hs

theorem getHexNibble_upper : ∀ k : Fin 16,
    getHexNibble (Nat.digitChar k.val).toUpper = some k.val := by
  decide

theorem getHexByte_isSome (line : List Char) (ptr : Nat) :
    (getHexByte line ptr).isSome =
      (isHexDigit (peek line ptr) && isHexDigit (peek line (ptr + 1))) := by
  unfold getHexByte
  cases h1 : getHexNibble (peek line ptr) with
  | none =>
    have : isHexDigit (peek line ptr) = false := by
      cases h : isHexDigit (peek line ptr) with
      | false => rfl
      | true => rw [getHexNibble_of_hex h] at h1; exact Option.noConfusion h1
    simp [this]
  | some u =>
    have hu : isHexDigit (peek line ptr) = true := by
      rw [isHexDigit_iff, h1]; rfl
    cases h2 : getHexNibble (peek line (ptr + 1)) with
    | none =>
      have : isHexDigit (peek line (ptr + 1)) = false := by
        cases h : isHexDigit (peek line (ptr + 1)) with
        | false => rfl
        | true => rw [getHexNibble_of_hex h] at h2; exact Option.noConfusion h2
      simp [this]
    | some l =>
      have hl : isHexDigit (peek line (ptr + 1)) = true := by
        rw [isHexDigit_iff, h2]; rfl
      simp [hu, hl]

theorem getHexByte_spelling (a b : Char) (rest : List Char) (u l : Nat)
    (ha : getHexNibble a = some u) (hb : getHexNibble b = some l) :
    getHexByte (a :: b :: rest) 0 = some (16 * u + l) := by
  have p0 : peek (a :: b :: rest) 0 = a := rfl
  have p1 : peek (a :: b :: rest) (0 + 1) = b := rfl
  unfold getHexByte
  rw [p0, p1, ha, hb]
  simp only
  rw [shift_or_nibbles (getHexNibble_lt ha) (getHexNibble_lt hb)]

/-- C18. Hex decoding is exact. `getHexNibble(ch)` succeeds exactly when
`isHexDigit(ch)` holds, and then yields the value of the digit (`ch - '0'`,
`ch - 'a' + 10` or `ch - 'A' + 10`), which is below 16. `getHexByte` succeeds
exactly when the two characters at the cursor are hex digits, and then yields
`(upper << 4) | lower`, which is `16 * upper + lower`. For every byte `b` the
two-digit hex spelling of `b`, in lower or in upper case, decodes to `b`. A call
of `getHexByte` leaves the cursor where it was. -/
theorem hex_decoding_is_exact :
    (∀ ch : Char, (getHexNibble ch).isSome = isHexDigit ch) ∧
    (∀ ch : Char, isHexDigit ch = true →
      ∃ v, getHexNibble ch = some v ∧ v < 16 ∧
        v = (if '0' ≤ ch ∧ ch ≤ '9' then ch.toNat - 48
             else if 'a' ≤ ch ∧ ch ≤ 'f' then ch.toNat - 97 + 10
             else ch.toNat - 65 + 10)) ∧
    (∀ (line : List Char) (ptr : Nat), (getHexByte line ptr).isSome =
      (isHexDigit (peek line ptr) && isHexDigit (peek line (ptr + 1)))) ∧
    (∀ (line : List Char) (ptr upper lower : Nat),
      getHexNibble (peek line ptr) = some upper →
      getHexNibble (peek line (ptr + 1)) = some lower →
      getHexByte line ptr = some ((upper <<< 4) ||| lower) ∧
        (upper <<< 4) ||| lower = 16 * upper + lower) ∧
    (∀ (b : Nat) (rest : List Char), b < 256 →
      getHexByte (Nat.digitChar (b / 16) :: Nat.digitChar (b % 16) :: rest) 0 = some b ∧
      getHexByte ((Nat.digitChar (b / 16)).toUpper :: (Nat.digitChar (b % 16)).toUpper :: rest) 0
        = some b) ∧
    (∀ (line : List Char) (ptr : Nat), (getHexByteCall line ptr).2 = ptr) := by
  refine ⟨?_, ?_, getHexByte_isSome, ?_, ?_, fun _ _ => rfl⟩
  · intro ch
    cases h : isHexDigit ch with
    | true => exact (isHexDigit_iff ch).mp h
    | false =>
      cases hs : (getHexNibble ch).isSome with
      | false => rfl
      | true => rw [(isHexDigit_iff ch).mpr hs] at h; exact Bool.noConfusion h
  · intro ch h
    have hv := getHexNibble_value ch h
    exact ⟨_, hv, getHexNibble_lt hv, rfl⟩
  · intro line ptr upper lower hu hl
    have hlt := shift_or_nibbles (getHexNibble_lt hu) (getHexNibble_lt hl)
    have hmod : ((upper <<< 4) ||| lower) % 256 = (upper <<< 4) ||| lower := by
      have hu' := getHexNibble_lt hu
      have hl' := getHexNibble_lt hl
      apply Nat.mod_eq_of_lt
      have h1 : upper <<< 4 < 2 ^ 8 := by
        rw [Nat.shiftLeft_eq]; omega
      have h2 : lower < 2 ^ 8 := by omega
      exact Nat.or_lt_two_pow h1 h2
    refine ⟨?_, ?_⟩
    · unfold getHexByte
      rw [hu, hl]
      simp only
      rw [hmod]
    · rw [← hmod, hlt]
  · intro b rest hb
    have h1 : b / 16 < 16 := by omega
    have h2 : b % 16 < 16 := Nat.mod_lt _ (by decide)
    have e : 16 * (b / 16) + b % 16 = b := Nat.div_add_mod b 16
    refine ⟨?_, ?_⟩
    · have := getHexByte_spelling _ _ rest _ _ (getHexNibble_digitChar ⟨b / 16, h1⟩)
        (getHexNibble_digitChar ⟨b % 16, h2⟩)
      rw [this, e]
    · have := getHexByte_spelling _ _ rest _ _ (getHexNibble_upper ⟨b / 16, h1⟩)
        (getHexNibble_upper ⟨b % 16, h2⟩)
      rw [this, e]

/-- C11, what the code has instead. The table `errMessages` has 12 entries, one
fewer than there are error kinds: it has no conduit-out-of-range message. The
entries for `FLP_BAD_HEX` (2) and `FLP_CHAN_RANGE` (3) are the messages of
these kinds; the entry at ordinal 4 (`FLP_CONDUIT_RANGE`) is "Illegal
character", and from there on every entry is the message of the next kind, up
to ordinal 11 (`FLP_CANNOT_SAVE`), whose entry is "Bad arguments"; there is no
entry at ordinal 12 (`FLP_ARGS`). So `"+100"` returns `FLP_CONDUIT_RANGE` with
a diagnostic that says "Illegal character". -/
theorem errMessages_lacks_conduit_entry :
    errMessages.length = 12 ∧
    errMessages[FLP_BAD_HEX.toNat]? = some (some "Unparseable hex number") ∧
    errMessages[FLP_CHAN_RANGE.toNat]? = some (some "Channel out of range") ∧
    errMessages[FLP_CONDUIT_RANGE.toNat]? = some (some "Illegal character") ∧
    errMessages[FLP_ILL_CHAR.toNat]? = some (some "Unterminated string") ∧
    errMessages[FLP_UNTERM_STRING.toNat]? = some (some "No memory") ∧
    errMessages[FLP_NO_MEMORY.toNat]? = some (some "Empty string") ∧
    errMessages[FLP_EMPTY_STRING.toNat]? = some (some "Odd number of digits") ∧
    errMessages[FLP_ODD_DIGITS.toNat]? = some (some "Cannot load file") ∧
    errMessages[FLP_CANNOT_LOAD.toNat]? = some (some "Cannot save file") ∧
    errMessages[FLP_CANNOT_SAVE.toNat]? = some (some "Bad arguments") ∧
    errMessages[FLP_ARGS.toNat]? = none ∧
    (parseLine idealEnv "+100".data).map (fun r => (r.returnCode, r.stderr)) =
      some (FLP_CONDUIT_RANGE, ["Illegal character at column 1\n  +100\n   ^\n"]) := by
  refine ⟨rfl, rfl, rfl, rfl, rfl, rfl, rfl, rfl, rfl, rfl, rfl, rfl, ?_⟩
  decide

/-- Where the text cannot start a number (no hex digit, white space or sign),
`strtoul` converts nothing. -/
theorem strtoul_none (env : Env) (line : List Char) (q : Nat)
    (hhex : isHexDigit (peek line q) = false) (hsp : isspace (peek line q) = false)
    (hplus : peek line q ≠ '+') (hminus : peek line q ≠ '-') :
    strtoul env line q =
      { value := 0, endp := q, errno := if env.strtoulEinval then EINVAL else 0 } := by
  rw [peek_eq_headD] at hhex hsp hplus hminus
  have hws : (line.drop q).takeWhile isspace = [] := by
    cases h : line.drop q with
    | nil => rfl
    | cons c rest =>
      rw [h] at hsp
      simp only [List.headD_cons] at hsp
      rw [List.takeWhile_cons, hsp]
      rfl
  have hdig : (line.drop q).takeWhile isHexDigit = [] := by
    cases h : line.drop q with
    | nil => rfl
    | cons c rest =>
      rw [h] at hhex
      simp only [List.headD_cons] at hhex
      rw [List.takeWhile_cons, hhex]
      rfl
  have h0 : (line.drop q).headD NUL ≠ '0' := by
    intro h
    rw [h] at hhex
    exact absurd hhex (by decide)
  generalize hs : line.drop q = s at hws hdig h0 hplus hminus
  unfold strtoul
  simp only [hs, hws, List.length_nil, List.drop_zero, hplus, hminus, or_self, if_false, h0,
    false_and, hdig, if_true]

theorem command_none (env : Env) (line : List Char) (st : State) (p : Nat)
    (hE : env.strtoulEinval = true) (hskip : skipSemicolons line st.ptr = p)
    (hletter : peek line p = 'r' ∨ peek line p = 'w' ∨ peek line p = '+')
    (hhex : isHexDigit (peek line (p + 1)) = false)
    (hsp : isspace (peek line (p + 1)) = false)
    (hplus : peek line (p + 1) ≠ '+') (hminus : peek line (p + 1) ≠ '-') :
    command env line st = .error (FLP_BAD_HEX, { st with ptr := p + 1 }) := by
  have s1 := strtoul_none env line (p + 1) hhex hsp hplus hminus
  rw [hE] at s1
  unfold command
  dsimp only
  rw [hskip]
  rcases hletter with h | h | h
  · rw [if_pos h]
    unfold caseRead
    dsimp only
    rw [s1]
    simp [EINVAL]
  · rw [if_neg (by rw [h]; decide), if_pos h]
    unfold caseWrite
    dsimp only
    rw [s1]
    simp [EINVAL]
  · rw [if_neg (by rw [h]; decide), if_neg (by rw [h]; decide), if_pos h]
    unfold casePlus
    dsimp only
    rw [s1]
    simp [EINVAL]

theorem command_read_no_length (env : Env) (line : List Char) (st : State) (p : Nat)
    (cd rest : List Char)
    (hE : env.strtoulEinval = true) (hskip : skipSemicolons line st.ptr = p)
    (hdrop : line.drop p = 'r' :: (cd ++ ' ' :: rest))
    (hcne : cd ≠ []) (hcd : ∀ c ∈ cd, isHexDigit c = true)
    (hW : 32 ≤ env.ulongBits) (hchan : hexValue cd ≤ 127)
    (hhex : isHexDigit (rest.headD NUL) = false)
    (hsp : isspace (rest.headD NUL) = false)
    (hplus : rest.headD NUL ≠ '+') (hminus : rest.headD NUL ≠ '-') :
    command env line st =
      .error (FLP_BAD_HEX, { st with ptr := p + 1 + cd.length + 1 }) := by
  have h1 : line.drop (p + 1) = cd ++ ' ' :: rest := by
    have := @drop_add_of_drop line p ['r'] (cd ++ ' ' :: rest) hdrop
    simpa using this
  have h2 : line.drop (p + 1 + cd.length) = ' ' :: rest := drop_add_of_drop h1
  have h3 : line.drop (p + 1 + cd.length + 1) = rest := by
    have := @drop_add_of_drop line (p + 1 + cd.length) [' '] rest h2
    simpa using this
  have pk : peek line (p + 1 + cd.length + 1) = rest.headD NUL := by
    rw [peek_eq_headD, h3]
  have s1 := strtoul_run_small env h1 hcne hcd (Or.inr (Or.inr rfl)) hW (by omega)
  have s2 := strtoul_none env line (p + 1 + cd.length + 1) (by rw [pk]; exact hhex)
    (by rw [pk]; exact hsp) (by rw [pk]; exact hplus) (by rw [pk]; exact hminus)
  rw [hE] at s2
  have p0 : peek line p = 'r' := peek_of_drop hdrop
  have p2 : peek line (p + 1 + cd.length) = ' ' := peek_of_drop h2
  have hm : hexValue cd % 4294967296 = hexValue cd := Nat.mod_eq_of_lt (by omega)
  unfold command
  dsimp only
  rw [hskip, if_pos p0]
  unfold caseRead
  dsimp only
  rw [s1]
  dsimp only
  rw [hm, p2]
  unfold readOperands
  dsimp only
  rw [p2, s2]
  simp only [EINVAL, if_true, ne_eq, OfNat.ofNat_ne_zero, not_false_eq_true, gt_iff_lt]
  rw [if_neg (not_lt.mpr hchan)]
  simp [bind_error]

/-- On a platform whose `strtoul` sets `errno` when it converts nothing, the
check of `errno` does reject a missing number: when a command letter `r`, `w`
or `+` is directly followed by a character that cannot start a number (no hex
digit, and no white space or sign, which `strtoul` skips), and when in a read
with a valid channel the space that introduces the length is directly followed
by such a character, the command fails with `FLP_BAD_HEX` with the cursor `q` at that character and the
calls made so far unchanged, so no device operation is issued for that command;
when the command is the first of the line, `parseLine` returns `FLP_BAD_HEX`. -/
theorem missing_number_is_bad_hex (env : Env) (line : List Char) (st : State) (p q : Nat)
    (hE : env.strtoulEinval = true) (hW : 32 ≤ env.ulongBits)
    (hskip : skipSemicolons line st.ptr = p)
    (hcase : ((peek line p = 'r' ∨ peek line p = 'w' ∨ peek line p = '+') ∧ q = p + 1) ∨
      (∃ cd rest, line.drop p = 'r' :: (cd ++ ' ' :: rest) ∧ cd ≠ [] ∧
        (∀ c ∈ cd, isHexDigit c = true) ∧ hexValue cd ≤ 127 ∧ q = p + 1 + cd.length + 1))
    (hhex : isHexDigit (peek line q) = false) (hsp : isspace (peek line q) = false)
    (hplus : peek line q ≠ '+') (hminus : peek line q ≠ '-') :
    command env line st = .error (FLP_BAD_HEX, { st with ptr := q }) ∧
    (env.bufInitialise = 0 → st = initialState →
      parseLine env line = some (cleanup line FLP_BAD_HEX { initialState with ptr := q })) := by
  have hcmd : command env line st = .error (FLP_BAD_HEX, { st with ptr := q }) := by
    rcases hcase with ⟨hl, rfl⟩ | ⟨cd, rest, hdrop, hcne, hcd, hchan, rfl⟩
    · exact command_none env line st p hE hskip hl hhex hsp hplus hminus
    · have h1 : line.drop (p + 1) = cd ++ ' ' :: rest := by
        have := @drop_add_of_drop line p ['r'] (cd ++ ' ' :: rest) hdrop
        simpa using this
      have h2 : line.drop (p + 1 + cd.length) = ' ' :: rest := drop_add_of_drop h1
      have h3 : line.drop (p + 1 + cd.length + 1) = rest := by
        have := @drop_add_of_drop line (p + 1 + cd.length) [' '] rest h2
        simpa using this
      have pk : peek line (p + 1 + cd.length + 1) = rest.headD NUL := by
        rw [peek_eq_headD, h3]
      rw [pk] at hhex hsp hplus hminus
      exact command_read_no_length env line st p cd rest hE hskip hdrop hcne hcd hW hchan
        hhex hsp hplus hminus
  refine ⟨hcmd, ?_⟩
  intro hinit hst
  subst hst
  exact parseLine_first_error hinit hcmd

theorem missing_number_is_bad_hex_witness :
    (parseLine einvalEnv "w;r0".data = some (cleanup "w;r0".data FLP_BAD_HEX
      { initialState with ptr := 1 })) ∧
    (parseLine einvalEnv "r".data).map (fun r => (r.returnCode, r.final.trace)) =
      some (FLP_BAD_HEX, []) ∧
    (parseLine einvalEnv "+".data).map (fun r => (r.returnCode, r.final.trace)) =
      some (FLP_BAD_HEX, []) ∧
    (parseLine einvalEnv "r0 ".data).map (fun r => (r.returnCode, r.final.trace)) =
      some (FLP_BAD_HEX, []) :=
  ⟨(missing_number_is_bad_hex einvalEnv "w;r0".data initialState 0 1 rfl (by decide) rfl
      (Or.inl ⟨Or.inr (Or.inl rfl), rfl⟩) rfl rfl (by decide) (by decide)).2 rfl rfl,
    by rfl, by rfl, by rfl⟩

/-- Runs with a missing number. Where `strtoul` leaves `errno` at 0 when it
converts nothing (glibc): `"r"` reads one byte from channel 0, `"+"` selects
conduit 0, `"w;r0"` writes to channel 0 and reads from channel 0, and `"r0 "` reads 0 bytes
from channel 0, each with result `FLP_SUCCESS`. Where `strtoul` does set
`errno`, a command letter followed by a space and a digit is still accepted:
`"r 5"` reads channel 5, because `strtoul` skips white space. -/
theorem missing_number_examples :
    (parseLine idealEnv "r".data).map (fun r => (r.returnCode, deviceOps r.final.trace)) =
      some (FLP_SUCCESS, [Event.flReadChannel 600000 0 1 (some 0) 0 [0]]) ∧
    (parseLine idealEnv "+".data).map (fun r => (r.returnCode, deviceOps r.final.trace)) =
      some (FLP_SUCCESS, [Event.flFifoMode 0 0]) ∧
    (parseLine idealEnv "w;r0".data).map (fun r => (r.returnCode, deviceOps r.final.trace)) =
      some (FLP_SUCCESS, [Event.flWriteChannel 600000 0 1 none 0,
        Event.flReadChannel 600000 0 1 (some 0) 0 [0]]) ∧
    (parseLine idealEnv "r0 ".data).map (fun r => (r.returnCode, deviceOps r.final.trace)) =
      some (FLP_SUCCESS, [Event.flReadChannel 600000 0 0 (some 0) 0 []]) ∧
    (parseLine einvalEnv "r 5".data).map (fun r => (r.returnCode, deviceOps r.final.trace)) =
      some (FLP_SUCCESS, [Event.flReadChannel 600000 5 1 (some 0) 0 [5]]) :=
  ⟨by rfl, by rfl, by rfl, by rfl, by rfl⟩

theorem command_write_bare (env : Env) {line : List Char} {st : State} (p : Nat)
    {cd rest : List Char}
    (hskip : skipSemicolons line st.ptr = p)
    (hdrop : line.drop p = 'w' :: (cd ++ rest))
    (hcne : cd ≠ []) (hcd : ∀ c ∈ cd, isHexDigit c = true)
    (hrest : rest.headD NUL = NUL ∨ rest.headD NUL = ';')
    (hW : 32 ≤ env.ulongBits) (hchan : hexValue cd ≤ 127) :
    command env line st =
      if env.flWriteChannel st.trace TIMEOUT (hexValue cd) 1 st.data ≠ 0 then
        .error (FLP_LIBERR, benchmark env false 1 st.data (hexValue cd)
          { st with
            ptr := p + 1 + cd.length,
            trace := st.trace ++ [Event.flWriteChannel TIMEOUT (hexValue cd) 1 st.data
              (env.flWriteChannel st.trace TIMEOUT (hexValue cd) 1 st.data)] })
      else
        .ok { benchmark env false 1 st.data (hexValue cd)
          { st with
            ptr := p + 1 + cd.length,
            trace := st.trace ++ [Event.flWriteChannel TIMEOUT (hexValue cd) 1 st.data
              (env.flWriteChannel st.trace TIMEOUT (hexValue cd) 1 st.data)] } with
          data := none } := by
  have h1 : line.drop (p + 1) = cd ++ rest := by
    have := @drop_add_of_drop line p ['w'] (cd ++ rest) hdrop
    simpa using this
  have h2 : line.drop (p + 1 + cd.length) = rest := drop_add_of_drop h1
  have s1 := strtoul_run_small env h1 hcne hcd
    (hrest.elim Or.inl (fun h => Or.inr (Or.inl h))) hW (by omega)
  have p0 : peek line p = 'w' := peek_of_drop hdrop
  have p2 : peek line (p + 1 + cd.length) = rest.headD NUL := by rw [peek_eq_headD, h2]
  have hm : hexValue cd % 256 = hexValue cd := Nat.mod_eq_of_lt (by omega)
  have hns : rest.headD NUL ≠ ' ' := by
    rcases hrest with h | h <;> rw [h] <;> decide
  have hok : ¬ (rest.headD NUL ≠ NUL ∧ rest.headD NUL ≠ ';' ∧ rest.headD NUL ≠ ' ') := by
    intro h'
    rcases hrest with h | h
    · exact h'.1 h
    · exact h'.2.1 h
  unfold command
  dsimp only
  rw [hskip, if_neg (by rw [p0]; decide), if_pos p0]
  unfold caseWrite
  dsimp only
  rw [s1]
  dsimp only
  rw [p2, if_neg (by simp), if_neg (not_lt.mpr hchan), if_neg hok]
  unfold writeOperands
  dsimp only
  rw [p2, if_neg hns, bind_ok]
  dsimp only
  rw [hm]

/-- C13, what the code does. For a channel `chan` in 0..127 written as the hex
digits `cd`, the write command `w` + `cd` with the end of the string or `;`
after it issues exactly one `flWriteChannel` call, to channel `chan`, with
length 1, and with the data pointer the variable `data` holds at that point,
which is `NULL` at the start of every command: the call is
`flWriteChannel(handle, TIMEOUT, chan, 1, NULL, error)`, there is no buffer
holding a zero byte. -/
theorem write_without_data_passes_null (env : Env) (line : List Char) (st : State) (p : Nat)
    (cd rest : List Char)
    (hskip : skipSemicolons line st.ptr = p)
    (hdrop : line.drop p = 'w' :: (cd ++ rest))
    (hcne : cd ≠ []) (hcd : ∀ c ∈ cd, isHexDigit c = true)
    (hrest : rest.headD NUL = NUL ∨ rest.headD NUL = ';')
    (hW : 32 ≤ env.ulongBits) (hchan : hexValue cd ≤ 127)
    (hdata : st.data = none) :
    ∃ st', (command env line st = .ok st' ∨ command env line st = .error (FLP_LIBERR, st')) ∧
      st'.trace = st.trace ++ [Event.flWriteChannel TIMEOUT (hexValue cd) 1 none
        (env.flWriteChannel st.trace TIMEOUT (hexValue cd) 1 none)] ∧
      st'.ptr = p + 1 + cd.length := by
  have h := command_write_bare env p hskip hdrop hcne hcd hrest hW hchan
  rw [hdata] at h
  by_cases hs : env.flWriteChannel st.trace TIMEOUT (hexValue cd) 1 none ≠ 0
  · rw [if_pos hs] at h
    exact ⟨_, Or.inr h, by simp only [benchmark_trace], by simp only [benchmark_ptr]⟩
  · rw [if_neg hs] at h
    exact ⟨_, Or.inl h, by simp only [benchmark_trace], by simp only [benchmark_ptr]⟩

theorem write_without_data_passes_null_witness :
    ∃ st', (command idealEnv "w7f;r0".data initialState = .ok st' ∨
        command idealEnv "w7f;r0".data initialState = .error (FLP_LIBERR, st')) ∧
      st'.trace = [] ++ [Event.flWriteChannel TIMEOUT (hexValue "7f".data) 1 none
        (idealEnv.flWriteChannel [] TIMEOUT (hexValue "7f".data) 1 none)] ∧
      st'.ptr = 0 + 1 + 2 :=
  write_without_data_passes_null idealEnv "w7f;r0".data initialState 0 "7f".data ";r0".data
    rfl rfl (by decide) (by decide) (Or.inr rfl) (by decide) (by decide) rfl

/-- On a run of hex digits that no hex digit follows, `strtoul` converts exactly
the run, unless the run is the single digit `0` and an `x` and a hex digit
follow (then `0x` is the prefix of a longer number). -/
theorem strtoul_run_x (env : Env) {line : List Char} {ptr : Nat} {ds rest : List Char}
    (hdrop : line.drop ptr = ds ++ rest) (hne : ds ≠ [])
    (hds : ∀ c ∈ ds, isHexDigit c = true)
    (hrest : isHexDigit (rest.headD NUL) = false)
    (hx : ¬ (ds = ['0'] ∧ (rest.headD NUL = 'x' ∨ rest.headD NUL = 'X') ∧
      isHexDigit (rest.getD 1 NUL) = true)) :
    strtoul env line ptr =
      if hexValue ds > 2 ^ env.ulongBits - 1 then
        { value := 2 ^ env.ulongBits - 1, endp := ptr + ds.length, errno := ERANGE }
      else { value := hexValue ds, endp := ptr + ds.length, errno := 0 } := by
  obtain ⟨d, ds', rfl⟩ := List.exists_cons_of_ne_nil hne
  have hd : isHexDigit d = true := hds d (by simp)
  have hsp : isspace d = false := isspace_of_isHexDigit hd
  have hm : d ≠ '-' := isHexDigit_ne hd (by decide)
  have hp : d ≠ '+' := isHexDigit_ne hd (by decide)
  have hrest' : ∀ c, rest.head? = some c → isHexDigit c = false := by
    intro c hc
    cases rest with
    | nil => simp at hc
    | cons r rest => simp at hc; subst hc; simpa using hrest
  have h0x : ¬ (d = '0' ∧
      ((d :: ds' ++ rest).getD 1 NUL = 'x' ∨ (d :: ds' ++ rest).getD 1 NUL = 'X') ∧
      isHexDigit ((d :: ds' ++ rest).getD 2 NUL) = true) := by
    cases ds' with
    | nil =>
      intro h
      apply hx
      refine ⟨by rw [h.1], ?_, ?_⟩
      · have h2 := h.2.1
        cases rest with
        | nil => exact h2
        | cons r rest => exact h2
      · have h3 := h.2.2
        cases rest with
        | nil => exact h3
        | cons r rest => exact h3
    | cons e ds'' =>
      have he : isHexDigit e = true := hds e (by simp)
      intro h
      rcases h.2.1 with h2 | h2
      · exact isHexDigit_ne he (show isHexDigit 'x' = false by decide) h2
      · exact isHexDigit_ne he (show isHexDigit 'X' = false by decide) h2
  have htw : (d :: ds' ++ rest).takeWhile isHexDigit = d :: ds' := takeWhile_run hds hrest'
  have hws : (d :: ds' ++ rest).takeWhile isspace = [] := by
    simp [List.takeWhile_cons, hsp]
  have hhead : (d :: ds' ++ rest).headD NUL = d := rfl
  generalize hs : d :: ds' ++ rest = s at hdrop htw hws hhead h0x
  unfold strtoul
  simp only [hdrop, hws, List.length_nil, List.drop_zero, hhead, hm, hp, or_self, if_false,
    h0x, htw, Nat.add_zero, beq_iff_eq, decide_False, Bool.false_eq_true]
  simp [gt_iff_lt]

theorem strtoul_run_x_small (env : Env) {line : List Char} {ptr : Nat} {ds rest : List Char}
    (hdrop : line.drop ptr = ds ++ rest) (hne : ds ≠ [])
    (hds : ∀ c ∈ ds, isHexDigit c = true)
    (hrest : isHexDigit (rest.headD NUL) = false)
    (hx : ¬ (ds = ['0'] ∧ (rest.headD NUL = 'x' ∨ rest.headD NUL = 'X') ∧
      isHexDigit (rest.getD 1 NUL) = true))
    (hv : hexValue ds < 2 ^ env.ulongBits) :
    strtoul env line ptr = { value := hexValue ds, endp := ptr + ds.length, errno := 0 } := by
  rw [strtoul_run_x env hdrop hne hds hrest hx, if_neg (by omega)]

theorem command_ill_after_channel (env : Env) {line : List Char} {st : State} (p : Nat)
    {letter c : Char} {cd rest : List Char}
    (hskip : skipSemicolons line st.ptr = p)
    (hletter : letter = 'r' ∨ letter = 'w')
    (hdrop : line.drop p = letter :: (cd ++ c :: rest))
    (hcne : cd ≠ []) (hcd : ∀ d ∈ cd, isHexDigit d = true)
    (hW : 32 ≤ env.ulongBits) (hchan : hexValue cd ≤ 127)
    (hc : isHexDigit c = false) (hill : c ≠ NUL ∧ c ≠ ';' ∧ c ≠ ' ')
    (hx : ¬ (cd = ['0'] ∧ (c = 'x' ∨ c = 'X') ∧ isHexDigit (rest.headD NUL) = true)) :
    command env line st = .error (FLP_ILL_CHAR, { st with ptr := p + 1 + cd.length }) := by
  have h1 : line.drop (p + 1) = cd ++ c :: rest := by
    have := @drop_add_of_drop line p [letter] (cd ++ c :: rest) hdrop
    simpa using this
  have h2 : line.drop (p + 1 + cd.length) = c :: rest := drop_add_of_drop h1
  have hpow : 2 ^ 32 ≤ 2 ^ env.ulongBits := Nat.pow_le_pow_right (by decide) hW
  have hx' : ¬ (cd = ['0'] ∧ ((c :: rest).headD NUL = 'x' ∨ (c :: rest).headD NUL = 'X') ∧
      isHexDigit ((c :: rest).getD 1 NUL) = true) := by
    intro h
    apply hx
    refine ⟨h.1, h.2.1, ?_⟩
    have h3 := h.2.2
    cases rest with
    | nil => exact h3
    | cons r rest => exact h3
  have s1 := strtoul_run_x_small env h1 hcne hcd hc hx' (by omega)
  have p0 : peek line p = letter := peek_of_drop hdrop
  have p2 : peek line (p + 1 + cd.length) = c := peek_of_drop h2
  have hm : hexValue cd % 4294967296 = hexValue cd := Nat.mod_eq_of_lt (by omega)
  unfold command
  dsimp only
  rw [hskip]
  rcases hletter with h | h
  · subst h
    rw [if_pos p0]
    unfold caseRead
    dsimp only
    rw [s1]
    dsimp only
    rw [p2, hm, if_neg (by simp), if_neg (not_lt.mpr hchan), if_pos hill]
  · subst h
    rw [if_neg (by rw [p0]; decide), if_pos p0]
    unfold caseWrite
    dsimp only
    rw [s1]
    dsimp only
    rw [p2, if_neg (by simp), if_neg (not_lt.mpr hchan), if_pos hill]

theorem command_ill_after_length (env : Env) {line : List Char} {st : State} (p : Nat)
    {c : Char} {cd ld rest : List Char}
    (hskip : skipSemicolons line st.ptr = p)
    (hdrop : line.drop p = 'r' :: (cd ++ ' ' :: (ld ++ c :: rest)))
    (hcne : cd ≠ []) (hcd : ∀ d ∈ cd, isHexDigit d = true)
    (hW : 32 ≤ env.ulongBits) (hchan : hexValue cd ≤ 127)
    (hlne : ld ≠ []) (hld : ∀ d ∈ ld, isHexDigit d = true)
    (hlen : hexValue ld < 2 ^ env.ulongBits)
    (hc : isHexDigit c = false) (hill : c ≠ NUL ∧ c ≠ ';' ∧ c ≠ ' ')
    (hx : ¬ (ld = ['0'] ∧ (c = 'x' ∨ c = 'X') ∧ isHexDigit (rest.headD NUL) = true)) :
    command env line st =
      .error (FLP_ILL_CHAR, { st with ptr := p + 1 + cd.length + 1 + ld.length }) := by
  have h1 : line.drop (p + 1) = cd ++ ' ' :: (ld ++ c :: rest) := by
    have := @drop_add_of_drop line p ['r'] (cd ++ ' ' :: (ld ++ c :: rest)) hdrop
    simpa using this
  have h2 : line.drop (p + 1 + cd.length) = ' ' :: (ld ++ c :: rest) := drop_add_of_drop h1
  have h3 : line.drop (p + 1 + cd.length + 1) = ld ++ c :: rest := by
    have := @drop_add_of_drop line (p + 1 + cd.length) [' '] (ld ++ c :: rest) h2
    simpa using this
  have h4 : line.drop (p + 1 + cd.length + 1 + ld.length) = c :: rest := drop_add_of_drop h3
  have hx' : ¬ (ld = ['0'] ∧ ((c :: rest).headD NUL = 'x' ∨ (c :: rest).headD NUL = 'X') ∧
      isHexDigit ((c :: rest).getD 1 NUL) = true) := by
    intro h
    apply hx
    refine ⟨h.1, h.2.1, ?_⟩
    have h3 := h.2.2
    cases rest with
    | nil => exact h3
    | cons r rest => exact h3
  have s1 := strtoul_run_small env h1 hcne hcd (Or.inr (Or.inr rfl)) hW (by omega)
  have s2 := strtoul_run_x_small env h3 hlne hld hc hx' hlen
  have p0 : peek line p = 'r' := peek_of_drop hdrop
  have p2 : peek line (p + 1 + cd.length) = ' ' := peek_of_drop h2
  have p4 : peek line (p + 1 + cd.length + 1 + ld.length) = c := peek_of_drop h4
  have hm : hexValue cd % 4294967296 = hexValue cd := Nat.mod_eq_of_lt (by omega)
  unfold command
  dsimp only
  rw [hskip, if_pos p0]
  unfold caseRead
  dsimp only
  rw [s1]
  dsimp only
  rw [p2, hm, if_neg (by simp), if_neg (not_lt.mpr hchan), if_neg (by simp)]
  unfold readOperands
  dsimp only
  rw [p2, if_pos rfl, s2]
  dsimp only
  rw [p4, if_neg (by simp), if_pos hill, bind_error]

theorem command_ill_after_space (env : Env) {line : List Char} {st : State} (p : Nat)
    {cd rest : List Char}
    (hskip : skipSemicolons line st.ptr = p)
    (hdrop : line.drop p = 'w' :: (cd ++ ' ' :: rest))
    (hcne : cd ≠ []) (hcd : ∀ d ∈ cd, isHexDigit d = true)
    (hW : 32 ≤ env.ulongBits) (hchan : hexValue cd ≤ 127)
    (hq : rest.headD NUL ≠ DQUOTE ∧ rest.headD NUL ≠ SQUOTE)
    (hc : isHexDigit (rest.headD NUL) = false) :
    command env line st =
      .error (FLP_ILL_CHAR, { st with ptr := p + 1 + cd.length + 1 }) := by
  have h1 : line.drop (p + 1) = cd ++ ' ' :: rest := by
    have := @drop_add_of_drop line p ['w'] (cd ++ ' ' :: rest) hdrop
    simpa using this
  have h2 : line.drop (p + 1 + cd.length) = ' ' :: rest := drop_add_of_drop h1
  have h3 : line.drop (p + 1 + cd.length + 1) = rest := by
    have := @drop_add_of_drop line (p + 1 + cd.length) [' '] rest h2
    simpa using this
  have s1 := strtoul_run_small env h1 hcne hcd (Or.inr (Or.inr rfl)) hW (by omega)
  have p0 : peek line p = 'w' := peek_of_drop hdrop
  have p2 : peek line (p + 1 + cd.length) = ' ' := peek_of_drop h2
  have p3 : peek line (p + 1 + cd.length + 1) = rest.headD NUL := by rw [peek_eq_headD, h3]
  unfold command
  dsimp only
  rw [hskip, if_neg (by rw [p0]; decide), if_pos p0]
  unfold caseWrite
  dsimp only
  rw [s1]
  dsimp only
  rw [p2, if_neg (by simp), if_neg (not_lt.mpr hchan), if_neg (by simp)]
  unfold writeOperands
  dsimp only
  rw [p2, if_pos rfl, p3, if_neg (by intro h; rcases h with h | h; exact hq.1 h; exact hq.2 h),
    if_neg (by rw [hc]; simp), bind_error]

/-- C14 (as amended). Illegal continuation characters are rejected at the
cursor before any device operation of the command. With `p` the offset of the
command letter and `q` the offset of the offending character `c`:
(i) in a read or write command with a valid channel (0..127), `c` stands right
after the channel's hex digits and is not NUL, `;` or a space;
(ii) in a read with a valid channel, `c` stands right after the hex digits of a
length that fits `unsigned long` and is not NUL, `;` or a space;
(iii) in a write with a valid channel, `c` is what follows the single space (the
end of the string counts as NUL) and is neither a quote character nor a hex
digit.
In (i) and (ii) `c` is not an `x` that follows a single digit `0` and stands
before a hex digit (that is the prefix `0x` of a number). Then the command
fails with `FLP_ILL_CHAR` with the cursor at `q` and the calls made so far
unchanged, and when it is the first command of the line `parseLine` returns
`FLP_ILL_CHAR` with column `q`. -/
theorem illegal_continuation_rejected (env : Env) (line : List Char) (st : State)
    (p q : Nat) (c : Char) (hW : 32 ≤ env.ulongBits)
    (hskip : skipSemicolons line st.ptr = p)
    (hcase :
      (∃ letter cd rest, (letter = 'r' ∨ letter = 'w') ∧
        line.drop p = letter :: (cd ++ c :: rest) ∧
        cd ≠ [] ∧ (∀ d ∈ cd, isHexDigit d = true) ∧ hexValue cd ≤ 127 ∧
        isHexDigit c = false ∧ (c ≠ NUL ∧ c ≠ ';' ∧ c ≠ ' ') ∧
        ¬ (cd = ['0'] ∧ (c = 'x' ∨ c = 'X') ∧ isHexDigit (rest.headD NUL) = true) ∧
        q = p + 1 + cd.length) ∨
      (∃ cd ld rest, line.drop p = 'r' :: (cd ++ ' ' :: (ld ++ c :: rest)) ∧
        cd ≠ [] ∧ (∀ d ∈ cd, isHexDigit d = true) ∧ hexValue cd ≤ 127 ∧
        ld ≠ [] ∧ (∀ d ∈ ld, isHexDigit d = true) ∧ hexValue ld < 2 ^ env.ulongBits ∧
        isHexDigit c = false ∧ (c ≠ NUL ∧ c ≠ ';' ∧ c ≠ ' ') ∧
        ¬ (ld = ['0'] ∧ (c = 'x' ∨ c = 'X') ∧ isHexDigit (rest.headD NUL) = true) ∧
        q = p + 1 + cd.length + 1 + ld.length) ∨
      (∃ cd rest, line.drop p = 'w' :: (cd ++ ' ' :: rest) ∧
        cd ≠ [] ∧ (∀ d ∈ cd, isHexDigit d = true) ∧ hexValue cd ≤ 127 ∧
        rest.headD NUL = c ∧ (c ≠ DQUOTE ∧ c ≠ SQUOTE) ∧ isHexDigit c = false ∧
        q = p + 1 + cd.length + 1)) :
    command env line st = .error (FLP_ILL_CHAR, { st with ptr := q }) ∧
    peek line q = c ∧
    (env.bufInitialise = 0 → st = initialState →
      ∃ r, parseLine env line = some r ∧ r.returnCode = FLP_ILL_CHAR ∧
        r.atCleanup.ptr = q ∧ r.final.trace = []) := by
  have hcmd : command env line st = .error (FLP_ILL_CHAR, { st with ptr := q }) ∧
      peek line q = c := by
    rcases hcase with ⟨letter, cd, rest, hl, hdrop, hcne, hcd, hchan, hc, hill, hx, rfl⟩ |
      ⟨cd, ld, rest, hdrop, hcne, hcd, hchan, hlne, hld, hlen, hc, hill, hx, rfl⟩ |
      ⟨cd, rest, hdrop, hcne, hcd, hchan, hhead, hq, hc, rfl⟩
    · refine ⟨command_ill_after_channel env p hskip hl hdrop hcne hcd hW hchan hc hill hx, ?_⟩
      have h1 : line.drop (p + 1) = cd ++ c :: rest := by
        have := @drop_add_of_drop line p [letter] (cd ++ c :: rest) hdrop
        simpa using this
      exact peek_of_drop (drop_add_of_drop h1)
    · refine ⟨command_ill_after_length env p hskip hdrop hcne hcd hW hchan hlne hld hlen
        hc hill hx, ?_⟩
      have h1 : line.drop (p + 1) = cd ++ ' ' :: (ld ++ c :: rest) := by
        have := @drop_add_of_drop line p ['r'] (cd ++ ' ' :: (ld ++ c :: rest)) hdrop
        simpa using this
      have h2 : line.drop (p + 1 + cd.length) = ' ' :: (ld ++ c :: rest) := drop_add_of_drop h1
      have h3 : line.drop (p + 1 + cd.length + 1) = ld ++ c :: rest := by
        have := @drop_add_of_drop line (p + 1 + cd.length) [' '] (ld ++ c :: rest) h2
        simpa using this
      exact peek_of_drop (drop_add_of_drop h3)
    · subst hhead
      refine ⟨command_ill_after_space env p hskip hdrop hcne hcd hW hchan hq hc, ?_⟩
      have h1 : line.drop (p + 1) = cd ++ ' ' :: rest := by
        have := @drop_add_of_drop line p ['w'] (cd ++ ' ' :: rest) hdrop
        simpa using this
      have h2 : line.drop (p + 1 + cd.length) = ' ' :: rest := drop_add_of_drop h1
      have h3 : line.drop (p + 1 + cd.length + 1) = rest := by
        have := @drop_add_of_drop line (p + 1 + cd.length) [' '] rest h2
        simpa using this
      rw [peek_eq_headD, h3]
  refine ⟨hcmd.1, hcmd.2, ?_⟩
  intro hinit hst
  subst hst
  exact ⟨_, parseLine_first_error hinit hcmd.1, rfl, rfl, rfl⟩

theorem illegal_continuation_rejected_witness :
    command idealEnv "r5 10z".data initialState =
      .error (FLP_ILL_CHAR, { initialState with ptr := 5 }) ∧
    peek "r5 10z".data 5 = 'z' ∧
    ∃ r, parseLine idealEnv "r5 10z".data = some r ∧ r.returnCode = FLP_ILL_CHAR ∧
      r.atCleanup.ptr = 5 ∧ r.final.trace = [] :=
  have h := illegal_continuation_rejected idealEnv "r5 10z".data initialState
    0 5 'z' (by decide) rfl
    (Or.inr (Or.inl ⟨"5".data, "10".data, [], rfl, by decide, by decide, by decide, by decide,
      by decide, by decide, by decide, by decide, by decide, rfl⟩))
  ⟨h.1, h.2.1, h.2.2 rfl rfl⟩

/-- C14 as stated fails in two ways. An `x` after the digit `0` is not
rejected when a hex digit follows: `"r0x5"` is accepted and reads channel 5,
because `strtoul` takes `0x` as the prefix of the number. And a character
after an invalid channel number is not what is reported: `"r80z"` fails with
`FLP_CHAN_RANGE` at column 1, not with `FLP_ILL_CHAR` at column 3. The three
cases of the claim on valid numbers: `"w5z"`, `"r5 10z"` and `"w5 z"` fail with
`FLP_ILL_CHAR` at columns 2, 5 and 3 with no call made. -/
theorem illegal_continuation_counterexample :
    (parseLine idealEnv "r0x5".data).map (fun r => (r.returnCode, deviceOps r.final.trace)) =
      some (FLP_SUCCESS, [Event.flReadChannel 600000 5 1 (some 0) 0 [5]]) ∧
    (parseLine idealEnv "r80z".data).map
        (fun r => (r.returnCode, r.atCleanup.ptr, r.final.trace)) =
      some (FLP_CHAN_RANGE, 1, []) ∧
    (parseLine idealEnv "w5z".data).map
        (fun r => (r.returnCode, r.atCleanup.ptr, r.final.trace)) =
      some (FLP_ILL_CHAR, 2, []) ∧
    (parseLine idealEnv "r5 10z".data).map
        (fun r => (r.returnCode, r.atCleanup.ptr, r.final.trace)) =
      some (FLP_ILL_CHAR, 5, []) ∧
    (parseLine idealEnv "w5 z".data).map
        (fun r => (r.returnCode, r.atCleanup.ptr, r.final.trace)) =
      some (FLP_ILL_CHAR, 3, []) :=
  ⟨by rfl, by rfl, by rfl, by rfl, by rfl⟩

theorem quotedFileName_run (env : Env) {line : List Char} {st : State} {q : Char}
    {name rest : List Char}
    (hdrop : line.drop st.ptr = q :: (name ++ q :: rest))
    (hne : name ≠ []) (hname : ∀ c ∈ name, c ≠ q ∧ c ≠ NUL) (hq : q ≠ NUL)
    (hmalloc : env.mallocFileName st.trace (name.length + 1) = true) :
    quotedFileName env line q st =
      .ok (st.ptr + 1 + name.length, { st with ptr := st.ptr + 1, fileName := some name }) := by
  have h1 : line.drop (st.ptr + 1) = name ++ q :: rest := by
    have := @drop_add_of_drop line st.ptr [q] (name ++ q :: rest) hdrop
    simpa using this
  have h2 : line.drop (st.ptr + 1 + name.length) = q :: rest := drop_add_of_drop h1
  have hscan : scanQuote line (st.ptr + 1) q = st.ptr + 1 + name.length := by
    unfold scanQuote
    rw [h1, takeWhile_run]
    · intro c hc
      have := hname c hc
      simp [this.1, this.2]
    · intro c hc
      simp only [List.head?_cons, Option.some.injEq] at hc
      subst hc
      simp
  have p2 : peek line (st.ptr + 1 + name.length) = q := peek_of_drop h2
  have hlen : 0 < name.length := List.length_pos.mpr hne
  have hsub : st.ptr + 1 + name.length - (st.ptr + 1) = name.length := by omega
  unfold quotedFileName
  dsimp only
  rw [hscan, p2, if_neg hq, hsub, hmalloc, if_neg (by simp), if_neg (by omega), h1,
    List.take_left]

theorem readOperands_file (env : Env) {line : List Char} {st : State} {q : Char}
    {ld name rest : List Char}
    (hdrop : line.drop st.ptr = ' ' :: (ld ++ ' ' :: q :: (name ++ q :: rest)))
    (hlne : ld ≠ []) (hld : ∀ c ∈ ld, isHexDigit c = true)
    (hW : 32 ≤ env.ulongBits) (hlen : hexValue ld < 2 ^ 32)
    (hquote : q = DQUOTE ∨ q = SQUOTE)
    (hne : name ≠ []) (hname : ∀ c ∈ name, c ≠ q ∧ c ≠ NUL)
    (hmalloc : env.mallocFileName st.trace (name.length + 1) = true) :
    readOperands env line st =
      .ok (hexValue ld, { st with
        ptr := st.ptr + 1 + ld.length + 1 + 1 + name.length + 1, fileName := some name }) := by
  have h1 : line.drop (st.ptr + 1) = ld ++ ' ' :: q :: (name ++ q :: rest) := by
    have := @drop_add_of_drop line st.ptr [' '] (ld ++ ' ' :: q :: (name ++ q :: rest)) hdrop
    simpa using this
  have h2 : line.drop (st.ptr + 1 + ld.length) = ' ' :: q :: (name ++ q :: rest) :=
    drop_add_of_drop h1
  have h3 : line.drop (st.ptr + 1 + ld.length + 1) = q :: (name ++ q :: rest) := by
    have := @drop_add_of_drop line (st.ptr + 1 + ld.length) [' '] (q :: (name ++ q :: rest)) h2
    simpa using this
  have s2 := strtoul_run_small env h1 hlne hld (Or.inr (Or.inr rfl)) hW hlen
  have p0 : peek line st.ptr = ' ' := peek_of_drop hdrop
  have p2 : peek line (st.ptr + 1 + ld.length) = ' ' := peek_of_drop h2
  have p3 : peek line (st.ptr + 1 + ld.length + 1) = q := peek_of_drop h3
  have hq : q ≠ NUL := by rcases hquote with h | h <;> rw [h] <;> decide
  have hm : hexValue ld % 4294967296 = hexValue ld := Nat.mod_eq_of_lt hlen
  have qf := @quotedFileName_run env line { st with ptr := st.ptr + 1 + ld.length + 1 } q
    name rest h3 hne hname hq hmalloc
  unfold readOperands
  dsimp only
  rw [p0, if_pos rfl, s2]
  dsimp only
  rw [p2, if_neg (by simp), if_neg (by simp), if_pos rfl, p3,
    if_neg (by intro h; rcases hquote with h' | h'; exact h.1 h'; exact h.2 h'), qf, bind_ok, hm]

theorem readExecute_file (env : Env) (chan length : Nat) (st : State) (name : List Char)
    (hname : st.fileName = some name) :
    readExecute env chan length st =
      (let answer := env.flReadChannel st.trace TIMEOUT (chan % 256) length
       let stored := overwrite (List.replicate length 0) answer.2
       let st1 := benchmark env true length (some stored) chan
         { st with
           data := some stored,
           trace := st.trace ++
             [Event.flReadChannel TIMEOUT (chan % 256) length none answer.1 stored] }
       if answer.1 ≠ 0 then .error (FLP_LIBERR, st1) else
       let opened := env.fopen st1.trace name
       let st2 := { st1 with
         file := if opened then some name else none,
         trace := st1.trace ++ [Event.fopen name opened] }
       if opened = false then .error (FLP_CANNOT_SAVE, st2) else
       let written := env.fwrite st2.trace name stored length
       let st3 := { st2 with
         fileName := none,
         trace := st2.trace ++ [Event.fwrite name stored length written] }
       if written % 4294967296 ≠ length then .error (FLP_CANNOT_SAVE, st3) else
       .ok { st3 with
         data := none, file := none, trace := st3.trace ++ [Event.fclose name] }) := by
  unfold readExecute
  rw [hname]

theorem command_read_file (env : Env) {line : List Char} {st : State} (p : Nat) {q : Char}
    {cd ld name rest : List Char}
    (hskip : skipSemicolons line st.ptr = p)
    (hdrop : line.drop p = 'r' :: (cd ++ ' ' :: (ld ++ ' ' :: q :: (name ++ q :: rest))))
    (hcne : cd ≠ []) (hcd : ∀ c ∈ cd, isHexDigit c = true)
    (hlne : ld ≠ []) (hld : ∀ c ∈ ld, isHexDigit c = true)
    (hW : 32 ≤ env.ulongBits) (hchan : hexValue cd ≤ 127) (hlen : hexValue ld < 2 ^ 32)
    (hquote : q = DQUOTE ∨ q = SQUOTE)
    (hne : name ≠ []) (hname : ∀ c ∈ name, c ≠ q ∧ c ≠ NUL)
    (hmalloc : env.mallocFileName st.trace (name.length + 1) = true) :
    command env line st = readExecute env (hexValue cd) (hexValue ld)
      { st with
        ptr := p + 1 + cd.length + 1 + ld.length + 1 + 1 + name.length + 1,
        fileName := some name } := by
  have h1 : line.drop (p + 1) = cd ++ ' ' :: (ld ++ ' ' :: q :: (name ++ q :: rest)) := by
    have := @drop_add_of_drop line p ['r']
      (cd ++ ' ' :: (ld ++ ' ' :: q :: (name ++ q :: rest))) hdrop
    simpa using this
  have h2 : line.drop (p + 1 + cd.length) = ' ' :: (ld ++ ' ' :: q :: (name ++ q :: rest)) :=
    drop_add_of_drop h1
  have s1 := strtoul_run_small env h1 hcne hcd (Or.inr (Or.inr rfl)) hW (by omega)
  have p0 : peek line p = 'r' := peek_of_drop hdrop
  have p2 : peek line (p + 1 + cd.length) = ' ' := peek_of_drop h2
  have hm : hexValue cd % 4294967296 = hexValue cd := Nat.mod_eq_of_lt (by omega)
  have ro := @readOperands_file env line { st with ptr := p + 1 + cd.length } q ld name rest
    h2 hlne hld hW hlen hquote hne hname hmalloc
  unfold command
  dsimp only
  rw [hskip, if_pos p0]
  unfold caseRead
  dsimp only
  rw [s1]
  dsimp only
  rw [p2, hm, if_neg (by simp), if_neg (not_lt.mpr hchan), if_neg (by simp), ro, bind_ok]

/-- C16. A read command with a valid channel `chan`, a length `L` below 2^32 and
a non-empty quoted path, at any position of the line, whose device read
succeeds, where `fwrite` reports no more than it was asked to write. The
scratch buffer `stored` holds `L` bytes, those the device returned. Then either
`fopen` succeeds and `fwrite` reports `L` bytes: the command succeeds, the calls
it made are the read into the scratch buffer, `fopen(name, "wb")`, one `fwrite`
of the `L` bytes of `stored`, and `fclose`; or the file cannot be opened or
fewer than `L` bytes are written: the command fails with `FLP_CANNOT_SAVE`
(never `FLP_LIBERR`), which is `parseLine`'s result when the command is the
first of the line. One of the two is the case, and in both the accumulator is
as before. -/
theorem redirected_read_saves_or_cannot_save (env : Env) (line : List Char) (st : State)
    (p : Nat) (q : Char) (cd ld name rest : List Char)
    (hskip : skipSemicolons line st.ptr = p)
    (hdrop : line.drop p = 'r' :: (cd ++ ' ' :: (ld ++ ' ' :: q :: (name ++ q :: rest))))
    (hcne : cd ≠ []) (hcd : ∀ c ∈ cd, isHexDigit c = true)
    (hlne : ld ≠ []) (hld : ∀ c ∈ ld, isHexDigit c = true)
    (hW : 32 ≤ env.ulongBits) (hchan : hexValue cd ≤ 127) (hlen : hexValue ld < 2 ^ 32)
    (hquote : q = DQUOTE ∨ q = SQUOTE)
    (hne : name ≠ []) (hname : ∀ c ∈ name, c ≠ q ∧ c ≠ NUL)
    (hmalloc : env.mallocFileName st.trace (name.length + 1) = true)
    (hread : (env.flReadChannel st.trace TIMEOUT (hexValue cd) (hexValue ld)).1 = 0)
    (hfwrite : ∀ tr nm data count, env.fwrite tr nm data count ≤ count) :
    let answer := env.flReadChannel st.trace TIMEOUT (hexValue cd) (hexValue ld)
    let stored := overwrite (List.replicate (hexValue ld) 0) answer.2
    let tr1 := st.trace ++
      [Event.flReadChannel TIMEOUT (hexValue cd) (hexValue ld) none 0 stored]
    let opened := env.fopen tr1 name
    let written := env.fwrite (tr1 ++ [Event.fopen name true]) name stored (hexValue ld)
    stored.length = hexValue ld ∧
    (answer.2.length = hexValue ld → stored = answer.2) ∧
    ((opened = true ∧ written = hexValue ld) ∨ (opened = false ∨ written < hexValue ld)) ∧
    (opened = true ∧ written = hexValue ld →
      ∃ st', command env line st = .ok st' ∧
        st'.trace = tr1 ++ [Event.fopen name true,
          Event.fwrite name stored (hexValue ld) (hexValue ld), Event.fclose name] ∧
        st'.dataFromFPGA = st.dataFromFPGA ∧
        st'.file = none ∧ st'.fileName = none ∧ st'.data = none) ∧
    (opened = false ∨ written < hexValue ld →
      ∃ st', command env line st = .error (FLP_CANNOT_SAVE, st') ∧
        st'.dataFromFPGA = st.dataFromFPGA ∧
        deviceOps st'.trace = deviceOps tr1 ∧
        (env.bufInitialise = 0 → st = initialState →
          ∃ r, parseLine env line = some r ∧ r.returnCode = FLP_CANNOT_SAVE)) := by
  intro answer stored tr1 opened written
  have hcmd := command_read_file env p hskip hdrop hcne hcd hlne hld hW hchan hlen hquote
    hne hname hmalloc
  rw [readExecute_file env _ _ _ name rfl] at hcmd
  have hm : hexValue cd % 256 = hexValue cd := Nat.mod_eq_of_lt (by omega)
  dsimp only at hcmd
  rw [hm] at hcmd
  simp only [benchmark_trace] at hcmd
  rw [hread, if_neg (by simp)] at hcmd
  have hslen : stored.length = hexValue ld := by
    show (overwrite _ _).length = _
    rw [length_overwrite, List.length_replicate]
  refine ⟨hslen, ?_, ?_, ?_, ?_⟩
  · intro h
    exact overwrite_of_length (by rw [List.length_replicate]; exact h)
  · have hle : written ≤ hexValue ld := hfwrite _ _ _ _
    cases hop : opened with
    | false => exact Or.inr (Or.inl rfl)
    | true =>
      rcases Nat.lt_or_ge written (hexValue ld) with h | h
      · exact Or.inr (Or.inr h)
      · exact Or.inl ⟨rfl, Nat.le_antisymm hle h⟩
  · rintro ⟨hop, hwr⟩
    have hop' : env.fopen (st.trace ++ [Event.flReadChannel TIMEOUT (hexValue cd) (hexValue ld)
        none 0 (overwrite (List.replicate (hexValue ld) 0)
          (env.flReadChannel st.trace TIMEOUT (hexValue cd) (hexValue ld)).2)]) name = true := hop
    have hwr' : env.fwrite (st.trace ++ [Event.flReadChannel TIMEOUT (hexValue cd) (hexValue ld)
        none 0 (overwrite (List.replicate (hexValue ld) 0)
          (env.flReadChannel st.trace TIMEOUT (hexValue cd) (hexValue ld)).2)] ++
        [Event.fopen name true]) name (overwrite (List.replicate (hexValue ld) 0)
          (env.flReadChannel st.trace TIMEOUT (hexValue cd) (hexValue ld)).2) (hexValue ld)
        = hexValue ld := hwr
    rw [hop'] at hcmd
    simp only [Bool.true_eq_false, if_false, if_true] at hcmd
    have hlen' : hexValue ld < 4294967296 := by omega
    rw [hwr', Nat.mod_eq_of_lt hlen'] at hcmd
    simp only [ne_eq, not_true_eq_false, if_false] at hcmd
    refine ⟨_, hcmd, ?_, ?_, rfl, rfl, rfl⟩
    · simp [tr1, stored, answer]
    · simp only [benchmark_dataFromFPGA]
  · intro hfail
    by_cases hop : opened = true
    · have hlt : written < hexValue ld := by
        rcases hfail with h | h
        · rw [hop] at h; exact absurd h (by decide)
        · exact h
      have hop' : env.fopen (st.trace ++ [Event.flReadChannel TIMEOUT (hexValue cd)
          (hexValue ld) none 0 (overwrite (List.replicate (hexValue ld) 0)
            (env.flReadChannel st.trace TIMEOUT (hexValue cd) (hexValue ld)).2)]) name = true :=
        hop
      rw [hop'] at hcmd
      simp only [Bool.true_eq_false, if_false, if_true] at hcmd
      have hne' : env.fwrite (st.trace ++ [Event.flReadChannel TIMEOUT (hexValue cd)
          (hexValue ld) none 0 (overwrite (List.replicate (hexValue ld) 0)
            (env.flReadChannel st.trace TIMEOUT (hexValue cd) (hexValue ld)).2)] ++
          [Event.fopen name true]) name (overwrite (List.replicate (hexValue ld) 0)
            (env.flReadChannel st.trace TIMEOUT (hexValue cd) (hexValue ld)).2) (hexValue ld)
          % 4294967296 ≠ hexValue ld := by
        have hlt' : env.fwrite (st.trace ++ [Event.flReadChannel TIMEOUT (hexValue cd)
          (hexValue ld) none 0 (overwrite (List.replicate (hexValue ld) 0)
            (env.flReadChannel st.trace TIMEOUT (hexValue cd) (hexValue ld)).2)] ++
          [Event.fopen name true]) name (overwrite (List.replicate (hexValue ld) 0)
            (env.flReadChannel st.trace TIMEOUT (hexValue cd) (hexValue ld)).2) (hexValue ld)
            < hexValue ld := hlt
        rw [Nat.mod_eq_of_lt (by omega)]
        omega
      rw [if_pos hne'] at hcmd
      refine ⟨_, hcmd, by simp only [benchmark_dataFromFPGA], ?_, ?_⟩
      · simp only [deviceOps_append, tr1, stored, answer]
        simp [deviceOps, Event.isDeviceOp]
      · intro hinit hst
        subst hst
        exact ⟨_, parseLine_first_error hinit hcmd, rfl⟩
    · have hop' : env.fopen (st.trace ++ [Event.flReadChannel TIMEOUT (hexValue cd)
          (hexValue ld) none 0 (overwrite (List.replicate (hexValue ld) 0)
            (env.flReadChannel st.trace TIMEOUT (hexValue cd) (hexValue ld)).2)]) name = false := by
        cases h : opened with
        | true => exact absurd h hop
        | false => exact h
      rw [hop'] at hcmd
      simp only [if_true] at hcmd
      refine ⟨_, hcmd, by simp only [benchmark_dataFromFPGA], ?_, ?_⟩
      · simp only [deviceOps_append, tr1, stored, answer]
        simp [deviceOps, Event.isDeviceOp]
      · intro hinit hst
        subst hst
        exact ⟨_, parseLine_first_error hinit hcmd, rfl⟩

theorem redirected_read_saves_or_cannot_save_witness :
    let line := "r5 10 ".data ++ DQUOTE :: ("out.bin".data ++ [DQUOTE])
    let answer := idealEnv.flReadChannel [] TIMEOUT (hexValue "5".data) (hexValue "10".data)
    let stored := overwrite (List.replicate (hexValue "10".data) 0) answer.2
    let tr1 := initialState.trace ++
      [Event.flReadChannel TIMEOUT (hexValue "5".data) (hexValue "10".data) none 0 stored]
    let opened := idealEnv.fopen tr1 "out.bin".data
    let written := idealEnv.fwrite (tr1 ++ [Event.fopen "out.bin".data true]) "out.bin".data
      stored (hexValue "10".data)
    stored.length = hexValue "10".data ∧
    (answer.2.length = hexValue "10".data → stored = answer.2) ∧
    ((opened = true ∧ written = hexValue "10".data) ∨
      (opened = false ∨ written < hexValue "10".data)) ∧
    (opened = true ∧ written = hexValue "10".data →
      ∃ st', command idealEnv line initialState = .ok st' ∧
        st'.trace = tr1 ++ [Event.fopen "out.bin".data true,
          Event.fwrite "out.bin".data stored (hexValue "10".data) (hexValue "10".data),
          Event.fclose "out.bin".data] ∧
        st'.dataFromFPGA = initialState.dataFromFPGA ∧
        st'.file = none ∧ st'.fileName = none ∧ st'.data = none) ∧
    (opened = false ∨ written < hexValue "10".data →
      ∃ st', command idealEnv line initialState = .error (FLP_CANNOT_SAVE, st') ∧
        st'.dataFromFPGA = initialState.dataFromFPGA ∧
        deviceOps st'.trace = deviceOps tr1 ∧
        (idealEnv.bufInitialise = 0 → initialState = initialState →
          ∃ r, parseLine idealEnv line = some r ∧ r.returnCode = FLP_CANNOT_SAVE)) :=
  redirected_read_saves_or_cannot_save idealEnv
    ("r5 10 ".data ++ DQUOTE :: ("out.bin".data ++ [DQUOTE])) initialState 0 DQUOTE
    "5".data "10".data "out.bin".data [] rfl rfl (by decide) (by decide) (by decide) (by decide)
    (by decide) (by decide) (by decide) (Or.inl rfl) (by decide) (by decide) rfl rfl
    (fun _ _ _ _ => Nat.le_refl _)

theorem command_read_file_ok (env : Env) {line : List Char} {st : State} (p : Nat) {q : Char}
    {cd ld name rest : List Char}
    (hskip : skipSemicolons line st.ptr = p)
    (hdrop : line.drop p = 'r' :: (cd ++ ' ' :: (ld ++ ' ' :: q :: (name ++ q :: rest))))
    (hcne : cd ≠ []) (hcd : ∀ c ∈ cd, isHexDigit c = true)
    (hlne : ld ≠ []) (hld : ∀ c ∈ ld, isHexDigit c = true)
    (hW : 32 ≤ env.ulongBits) (hchan : hexValue cd ≤ 127) (hlen : hexValue ld < 2 ^ 32)
    (hquote : q = DQUOTE ∨ q = SQUOTE)
    (hne : name ≠ []) (hname : ∀ c ∈ name, c ≠ q ∧ c ≠ NUL)
    (hmalloc : env.mallocFileName st.trace (name.length + 1) = true)
    (hread : (env.flReadChannel st.trace TIMEOUT (hexValue cd) (hexValue ld)).1 = 0)
    (hopen : ∀ tr, env.fopen tr name = true)
    (hwrite : ∀ tr data, env.fwrite tr name data (hexValue ld) = hexValue ld) :
    ∃ st', command env line st = .ok st' ∧
      st'.ptr = p + 1 + cd.length + 1 + ld.length + 1 + 1 + name.length + 1 ∧
      st'.trace = st.trace ++
        [Event.flReadChannel TIMEOUT (hexValue cd) (hexValue ld) none 0
          (overwrite (List.replicate (hexValue ld) 0)
            (env.flReadChannel st.trace TIMEOUT (hexValue cd) (hexValue ld)).2),
         Event.fopen name true,
         Event.fwrite name (overwrite (List.replicate (hexValue ld) 0)
            (env.flReadChannel st.trace TIMEOUT (hexValue cd) (hexValue ld)).2)
            (hexValue ld) (hexValue ld),
         Event.fclose name] ∧
      st'.dataFromFPGA = st.dataFromFPGA ∧
      st'.file = none ∧ st'.fileName = none ∧ st'.data = none := by
  have hcmd := command_read_file env p hskip hdrop hcne hcd hlne hld hW hchan hlen hquote
    hne hname hmalloc
  rw [readExecute_file env _ _ _ name rfl] at hcmd
  have hm : hexValue cd % 256 = hexValue cd := Nat.mod_eq_of_lt (by omega)
  have hlen' : hexValue ld < 4294967296 := by omega
  dsimp only at hcmd
  rw [hm] at hcmd
  simp only [benchmark_trace] at hcmd
  rw [hread, if_neg (by simp), hopen] at hcmd
  simp only [Bool.true_eq_false, if_false, if_true] at hcmd
  rw [hwrite, Nat.mod_eq_of_lt hlen'] at hcmd
  simp only [ne_eq, not_true_eq_false, if_false] at hcmd
  refine ⟨_, hcmd, ?_, ?_, ?_, rfl, rfl, rfl⟩
  · simp only [benchmark_ptr]
  · simp
  · simp only [benchmark_dataFromFPGA]

theorem readToOutBin_run (env : Env) (hW : 32 ≤ env.ulongBits)
    (hmalloc : env.mallocFileName [] 8 = true)
    (hread : (env.flReadChannel [] TIMEOUT 5 16).1 = 0)
    (hopen : ∀ tr, env.fopen tr "out.bin".data = true)
    (hwrite : ∀ tr data, env.fwrite tr "out.bin".data data 16 = 16) :
    ∃ st', command env readToOutBin initialState = .ok st' ∧ st'.ptr = 15 ∧
      st'.trace =
        [Event.flReadChannel TIMEOUT 5 16 none 0
          (overwrite (List.replicate 16 0) (env.flReadChannel [] TIMEOUT 5 16).2),
         Event.fopen "out.bin".data true,
         Event.fwrite "out.bin".data
          (overwrite (List.replicate 16 0) (env.flReadChannel [] TIMEOUT 5 16).2) 16 16,
         Event.fclose "out.bin".data] ∧
      st'.dataFromFPGA = [] ∧ st'.file = none ∧ st'.fileName = none ∧ st'.data = none := by
  have h5 : hexValue "5".data = 5 := by decide
  have h16 : hexValue "10".data = 16 := by decide
  have h := @command_read_file_ok env readToOutBin initialState 0 DQUOTE "5".data "10".data
    "out.bin".data [] rfl rfl (by decide) (by decide) (by decide) (by decide) hW (by decide)
    (by decide) (Or.inl rfl) (by decide) (by decide) hmalloc (by rw [h5, h16]; exact hread)
    hopen (by rw [h16]; exact hwrite)
  rw [h5, h16] at h
  exact h

/-- C15 (as amended). For the action string `r5 10 "out.bin"`, with a device
whose read succeeds and a file system that accepts the write, `parseLine`
returns `FLP_SUCCESS`, appends nothing to the accumulator (no read goes to it,
and `dump` is handed the empty accumulator), and writes exactly 16 bytes to
`out.bin`, the 16 bytes of the scratch buffer the device read into: the length
field `10` is hexadecimal. The calls made are one read of 16 bytes from
channel 5, `fopen`, one `fwrite` of 16 bytes, `fclose` and `dump`. -/
theorem quoted_path_read_writes_sixteen_bytes (env : Env) (hW : 32 ≤ env.ulongBits)
    (hinit : env.bufInitialise = 0)
    (hmalloc : env.mallocFileName [] 8 = true)
    (hread : (env.flReadChannel [] TIMEOUT 5 16).1 = 0)
    (hopen : ∀ tr, env.fopen tr "out.bin".data = true)
    (hwrite : ∀ tr data, env.fwrite tr "out.bin".data data 16 = 16) :
    ∃ r stored, parseLine env readToOutBin = some r ∧ r.returnCode = FLP_SUCCESS ∧
      stored.length = 16 ∧
      r.final.trace =
        [Event.flReadChannel TIMEOUT 5 16 none 0 stored,
         Event.fopen "out.bin".data true,
         Event.fwrite "out.bin".data stored 16 16,
         Event.fclose "out.bin".data,
         Event.dump 0 [] 0] ∧
      accumulatedBytes r.final.trace = [] := by
  obtain ⟨st', hcmd, hptr, htrace, hacc, hfile, -, -⟩ :=
    readToOutBin_run env hW hmalloc hread hopen hwrite
  have hpeek : peek readToOutBin st'.ptr = NUL := by rw [hptr]; rfl
  have hloop : parseLoop env readToOutBin (readToOutBin.length + 1) initialState =
      some (.ok st') := parseLoop_last _ hcmd (by rw [hpeek]; decide)
  have hrun := parseLine_of_ok hinit hloop hpeek
  refine ⟨_, overwrite (List.replicate 16 0) (env.flReadChannel [] TIMEOUT 5 16).2, hrun, rfl,
    by rw [length_overwrite, List.length_replicate], ?_, ?_⟩
  · simp only [cleanup, hfile, htrace, hacc]
    rfl
  · simp only [cleanup, hfile, htrace, hacc]
    rfl

theorem quoted_path_read_writes_sixteen_bytes_witness :
    ∃ r stored, parseLine idealEnv readToOutBin = some r ∧ r.returnCode = FLP_SUCCESS ∧
      stored.length = 16 ∧
      r.final.trace =
        [Event.flReadChannel TIMEOUT 5 16 none 0 stored,
         Event.fopen "out.bin".data true,
         Event.fwrite "out.bin".data stored 16 16,
         Event.fclose "out.bin".data,
         Event.dump 0 [] 0] ∧
      accumulatedBytes r.final.trace = [] :=
  quoted_path_read_writes_sixteen_bytes idealEnv (by decide) rfl rfl rfl (fun _ => rfl)
    (fun _ _ => rfl)

/-- C15 as stated fails: on `r5 10 "out.bin"`, with a device and a file system
on which every call succeeds, the one `fwrite` call is handed 16 bytes, the
bytes the device returned for a read of 16 bytes from channel 5, and reports 16
bytes written, not 10; the accumulator stays empty. -/
theorem quoted_path_read_counterexample :
    (parseLine idealEnv readToOutBin).map (fun r => (r.returnCode, r.final.trace)) =
      some (FLP_SUCCESS,
        [Event.flReadChannel 600000 5 16 none 0
          [5, 6, 7, 8, 9, 10, 11, 12, 13, 14, 15, 16, 17, 18, 19, 20],
         Event.fopen "out.bin".data true,
         Event.fwrite "out.bin".data
          [5, 6, 7, 8, 9, 10, 11, 12, 13, 14, 15, 16, 17, 18, 19, 20] 16 16,
         Event.fclose "out.bin".data,
         Event.dump 0 [] 0]) ∧
    readToOutBin = [Char.ofNat 114, Char.ofNat 53, Char.ofNat 32, Char.ofNat 49, Char.ofNat 48,
      Char.ofNat 32, Char.ofNat 34, Char.ofNat 111, Char.ofNat 117, Char.ofNat 116,
      Char.ofNat 46, Char.ofNat 98, Char.ofNat 105, Char.ofNat 110, Char.ofNat 34] :=
  ⟨by rfl, by rfl⟩

/-- Runs of redirected reads on a file system that comes one byte short: the
result is `FLP_CANNOT_SAVE`, the file that was opened is closed on the way out,
and nothing was added to the accumulator. -/
theorem redirected_read_examples :
    (parseLine shortWriteEnv readToOutBin).map (fun r => (r.returnCode, r.final.trace)) =
      some (FLP_CANNOT_SAVE,
        [Event.flReadChannel 600000 5 16 none 0
          [5, 6, 7, 8, 9, 10, 11, 12, 13, 14, 15, 16, 17, 18, 19, 20],
         Event.fopen "out.bin".data true,
         Event.fwrite "out.bin".data
          [5, 6, 7, 8, 9, 10, 11, 12, 13, 14, 15, 16, 17, 18, 19, 20] 16 15,
         Event.fclose "out.bin".data]) :=
  by rfl

theorem length_takeWhile_le' {α : Type} (p : α → Bool) (l : List α) :
    (l.takeWhile p).length ≤ l.length :=
  (List.takeWhile_prefix p).length_le

theorem strtoul_endp_le (env : Env) (line : List Char) (ptr : Nat) (h : ptr ≤ line.length) :
    (strtoul env line ptr).endp ≤ line.length := by
  unfold strtoul
  lift_lets
  extract_lets s ws s1 negative sign s2 skip0x digits
  have hs : s.length = line.length - ptr := List.length_drop _ _
  have hws : ws ≤ s.length := length_takeWhile_le' _ _
  have hl1 : s1.length = s.length - ws := List.length_drop _ _
  have hsg : sign ≤ s1.length := by
    show (if s1.headD NUL = '-' ∨ s1.headD NUL = '+' then 1 else 0) ≤ s1.length
    split_ifs with hc
    · cases hs1 : s1 with
      | nil => rw [hs1] at hc; rcases hc with hc | hc <;> exact absurd hc (by decide)
      | cons a t => simp
    · omega
  have hl2 : s2.length = s1.length - sign := List.length_drop _ _
  have hsk : skip0x ≤ s2.length := by
    show (if s2.headD NUL = '0' ∧ (s2.getD 1 NUL = 'x' ∨ s2.getD 1 NUL = 'X') ∧
      isHexDigit (s2.getD 2 NUL) = true then 2 else 0) ≤ s2.length
    split_ifs with hc
    · by_contra hlt
      have : s2.getD 2 NUL = NUL := by
        rw [List.getD_eq_getElem?_getD, List.getElem?_eq_none (by omega)]
        rfl
      rw [this] at hc
      exact absurd hc.2.2 (by decide)
    · omega
  have hdg : digits.length ≤ s2.length - skip0x := by
    have := length_takeWhile_le' isHexDigit (s2.drop skip0x)
    rw [List.length_drop] at this
    exact this
  split_ifs <;> simp only <;> omega

theorem skipSemicolons_le (line : List Char) (ptr : Nat) (h : ptr ≤ line.length) :
    skipSemicolons line ptr ≤ line.length := by
  unfold skipSemicolons
  have := length_takeWhile_le' (fun c => c == ';') (line.drop ptr)
  rw [List.length_drop] at this
  omega

theorem scanHexRun_le (line : List Char) (ptr : Nat) (h : ptr + 1 ≤ line.length) :
    scanHexRun line ptr ≤ line.length := by
  unfold scanHexRun
  have := length_takeWhile_le' isHexDigit (line.drop (ptr + 1))
  rw [List.length_drop] at this
  omega

theorem lt_length_of_peek_eq {line : List Char} {ptr : Nat} {c : Char}
    (h : peek line ptr = c) (hc : c ≠ NUL) : ptr < line.length :=
  lt_length_of_peek_ne (by rw [h]; exact hc)

theorem quotedFileName_bound (env : Env) (line : List Char) (q : Char) (st : State)
    (h : st.ptr < line.length) :
    (operandsState (quotedFileName env line q st)).ptr ≤ line.length ∧
    (∀ found, quotedFileName env line q st = .ok found → found.1 < line.length) := by
  refine ⟨by rw [(quotedFileName_frame env line q st).1]; omega, ?_⟩
  intro found hf
  unfold quotedFileName at hf
  dsimp only at hf
  split_ifs at hf with h1 h2 h3
  cases hf
  exact lt_length_of_peek_ne h1

theorem operandsState_ok (a : Nat) (st : State) :
    operandsState (.ok (a, st)) = st := rfl

theorem operandsState_error (code : ReturnCode) (st : State) :
    operandsState (.error (code, st)) = st := rfl

theorem readOperands_bound (env : Env) (line : List Char) (st : State)
    (h : st.ptr ≤ line.length) :
    (operandsState (readOperands env line st)).ptr ≤ line.length := by
  by_cases h0 : peek line st.ptr = ' '
  · have hA : st.ptr + 1 ≤ line.length := lt_length_of_peek_eq h0 (by decide)
    have hB := strtoul_endp_le env line (st.ptr + 1) hA
    unfold readOperands
    dsimp only
    rw [if_pos h0]
    split_ifs with h2 h3 h4 h5
    · rw [operandsState_error]; exact hA
    · rw [operandsState_error]; exact hB
    · have := lt_length_of_peek_eq h4 (show ' ' ≠ NUL by decide)
      rw [operandsState_error]; exact this
    · have hC : (strtoul env line (st.ptr + 1)).endp + 1 ≤ line.length :=
        lt_length_of_peek_eq h4 (by decide)
      have hD : (strtoul env line (st.ptr + 1)).endp + 1 < line.length := by
        apply lt_length_of_peek_ne
        intro hn
        rw [hn] at h5
        exact h5 ⟨by decide, by decide⟩
      obtain ⟨g1, g2⟩ := quotedFileName_bound env line
        (peek line ((strtoul env line (st.ptr + 1)).endp + 1))
        { st with ptr := (strtoul env line (st.ptr + 1)).endp + 1 } hD
      cases hq : quotedFileName env line (peek line ((strtoul env line (st.ptr + 1)).endp + 1))
        { st with ptr := (strtoul env line (st.ptr + 1)).endp + 1 } with
      | error e =>
        rw [hq] at g1
        simp only [operandsState] at g1
        simp only [bind_error, operandsState]
        exact g1
      | ok found =>
        have := g2 found hq
        rw [bind_ok, operandsState_ok]
        exact this
    · rw [operandsState_ok]; exact hB
  · unfold readOperands
    dsimp only
    rw [if_neg h0, operandsState_ok]
    exact h

theorem writeOperands_bound (env : Env) (line : List Char) (st : State)
    (h : st.ptr ≤ line.length) :
    (operandsState (writeOperands env line st)).ptr ≤ line.length := by
  by_cases h0 : peek line st.ptr = ' '
  · have hA : st.ptr + 1 ≤ line.length := lt_length_of_peek_eq h0 (by decide)
    unfold writeOperands
    dsimp only
    rw [if_pos h0]
    split_ifs with h2 h3 h4
    · have hD : st.ptr + 1 < line.length := by
        apply lt_length_of_peek_ne
        intro hn
        rw [hn] at h2
        rcases h2 with h2 | h2 <;> exact absurd h2 (by decide)
      obtain ⟨g1, g2⟩ := quotedFileName_bound env line (peek line (st.ptr + 1))
        { st with ptr := st.ptr + 1 } hD
      have g3 := (quotedFileName_frame env line (peek line (st.ptr + 1))
        { st with ptr := st.ptr + 1 }).1
      cases hq : quotedFileName env line (peek line (st.ptr + 1))
        { st with ptr := st.ptr + 1 } with
      | error e =>
        rw [hq] at g1
        simp only [operandsState] at g1
        simp only [bind_error, operandsState]
        exact g1
      | ok found =>
        have := g2 found hq
        rw [hq] at g3
        simp only [operandsState] at g3
        simp only [bind_ok]
        split_ifs
        · simp only [operandsState]; omega
        · simp only [operandsState]; omega
    · simp only [operandsState]; omega
    · have hD : st.ptr + 1 < line.length := by
        apply lt_length_of_peek_ne
        intro hn
        rw [hn] at h3
        exact absurd h3 (by decide)
      have hE := scanHexRun_le line (st.ptr + 1) hD
      have hF : st.ptr + 1 ≤ scanHexRun line (st.ptr + 1) := by unfold scanHexRun; omega
      have hG := Nat.mod_le (scanHexRun line (st.ptr + 1) - (st.ptr + 1)) 4294967296
      simp only [operandsState, hexByteLoop_fst]
      omega
    · simp only [operandsState]; omega
  · unfold writeOperands
    dsimp only
    rw [if_neg h0]
    simp only [operandsState]; exact h

theorem state_ok (st : State) : Exec.state (.ok st) = st := rfl

theorem state_error (code : ReturnCode) (st : State) :
    Exec.state (.error (code, st)) = st := rfl

theorem caseRead_bound (env : Env) (line : List Char) (st : State)
    (h : st.ptr < line.length) :
    (caseRead env line st).state.ptr ≤ line.length := by
  have hB := strtoul_endp_le env line (st.ptr + 1) h
  unfold caseRead
  dsimp only
  split_ifs with h1 h2 h3
  · rw [state_error]; dsimp only; omega
  · rw [state_error]; dsimp only; omega
  · rw [state_error]; dsimp only; omega
  · have g := readOperands_bound env line
      { st with ptr := (strtoul env line (st.ptr + 1)).endp } hB
    cases ho : readOperands env line { st with ptr := (strtoul env line (st.ptr + 1)).endp } with
    | error e =>
      rw [ho] at g
      rw [bind_error]
      exact g
    | ok parsed =>
      rw [ho] at g
      rw [bind_ok, (readExecute_frame env _ parsed.1 parsed.2).1]
      exact g

theorem caseWrite_bound (env : Env) (line : List Char) (st : State)
    (h : st.ptr < line.length) :
    (caseWrite env line st).state.ptr ≤ line.length := by
  have hB := strtoul_endp_le env line (st.ptr + 1) h
  unfold caseWrite
  dsimp only
  split_ifs with h1 h2 h3
  · rw [state_error]; dsimp only; omega
  · rw [state_error]; dsimp only; omega
  · rw [state_error]; dsimp only; omega
  · have g := writeOperands_bound env line
      { st with ptr := (strtoul env line (st.ptr + 1)).endp } hB
    cases ho : writeOperands env line { st with ptr := (strtoul env line (st.ptr + 1)).endp } with
    | error e =>
      rw [ho] at g
      rw [bind_error]
      exact g
    | ok parsed =>
      rw [ho] at g
      rw [bind_ok]
      split_ifs
      · rw [state_error, benchmark_ptr]; exact g
      · rw [state_ok]; dsimp only; rw [benchmark_ptr]; exact g

theorem casePlus_bound (env : Env) (line : List Char) (st : State)
    (h : st.ptr < line.length) :
    (casePlus env line st).state.ptr ≤ line.length := by
  have hB := strtoul_endp_le env line (st.ptr + 1) h
  unfold casePlus
  dsimp only
  split_ifs with h1 h2 h3 h4
  · rw [state_error]; dsimp only; omega
  · rw [state_error]; dsimp only; omega
  · rw [state_error]; dsimp only; omega
  · rw [state_error]; dsimp only; omega
  · rw [state_ok]; dsimp only; omega

theorem command_bound (env : Env) (line : List Char) (st : State)
    (h : st.ptr ≤ line.length) :
    (command env line st).state.ptr ≤ line.length := by
  have hs := skipSemicolons_le line st.ptr h
  unfold command
  dsimp only
  split_ifs with h1 h2 h3
  · exact caseRead_bound env line _ (lt_length_of_peek_eq h1 (by decide))
  · exact caseWrite_bound env line _ (lt_length_of_peek_eq h2 (by decide))
  · exact casePlus_bound env line _ (lt_length_of_peek_eq h3 (by decide))
  · rw [state_error]; exact hs

theorem parseLoop_bound (env : Env) (line : List Char) :
    ∀ (fuel : Nat) (st : State) (out : Exec), st.ptr ≤ line.length →
      parseLoop env line fuel st = some out → out.state.ptr ≤ line.length := by
  intro fuel
  induction fuel with
  | zero => intro st out _ h; exact Option.noConfusion h
  | succ fuel ih =>
    intro st out hst h
    have hc := command_bound env line st hst
    rw [parseLoop_succ] at h
    cases hcmd : command env line st with
    | error e =>
      rw [hcmd] at h hc
      cases Option.some.inj h
      exact hc
    | ok st' =>
      rw [hcmd] at h hc
      dsimp only at h
      split_ifs at h with hp
      · exact ih st' out hc h
      · cases Option.some.inj h
        exact hc

theorem fileTrack_append_one (trace : List Event) (e : Event) :
    fileTrack (trace ++ [e]) = fileStep (fileTrack trace) e := by
  unfold fileTrack
  rw [List.foldl_append]
  rfl

theorem FileInv_same {st : State} (st' : State) (h : FileInv st)
    (h1 : st'.trace = st.trace) (h2 : st'.file = st.file) : FileInv st' := by
  unfold FileInv at *
  rw [h1, h2]; exact h

theorem FileInv_append {st : State} (e : Event) (st' : State) (h : FileInv st)
    (h1 : st'.trace = st.trace ++ [e]) (h2 : st'.file = st.file)
    (h3 : ∀ held, fileStep (some held) e = some held) : FileInv st' := by
  unfold FileInv at *
  rw [h1, h2, fileTrack_append_one, h, h3]

theorem quotedFileName_data (env : Env) (line : List Char) (q : Char) (st : State) :
    (operandsState (quotedFileName env line q st)).data = st.data := by
  unfold quotedFileName
  dsimp only
  split_ifs <;> rfl

theorem readOperands_data (env : Env) (line : List Char) (st : State) :
    (operandsState (readOperands env line st)).data = st.data := by
  unfold readOperands
  dsimp only
  split_ifs
  · rw [operandsState_error]
  · rw [operandsState_error]
  · rw [operandsState_error]
  · have g := quotedFileName_data env line
      (peek line ((strtoul env line (st.ptr + 1)).endp + 1))
      { st with ptr := (strtoul env line (st.ptr + 1)).endp + 1 }
    cases hq : quotedFileName env line (peek line ((strtoul env line (st.ptr + 1)).endp + 1))
      { st with ptr := (strtoul env line (st.ptr + 1)).endp + 1 } with
    | error e =>
      rw [hq] at g
      rw [bind_error]
      exact g
    | ok found =>
      rw [hq] at g
      rw [bind_ok, operandsState_ok]
      exact g
  · rw [operandsState_ok]
  · rw [operandsState_ok]

theorem readOperands_file_inv (env : Env) (line : List Char) (st : State)
    (h : FileInv st) (hc : Clean st) :
    FileInv (operandsState (readOperands env line st)) ∧
    (operandsState (readOperands env line st)).file = none ∧
    (operandsState (readOperands env line st)).data = none := by
  obtain ⟨-, f2, -, f4⟩ := readOperands_frame env line st
  exact ⟨FileInv_same _ h f2 f4, by rw [f4]; exact hc.2.2,
    by rw [readOperands_data]; exact hc.2.1⟩

theorem fileStep_read (held : Option (List Char)) (t c n : Nat) (o : Option Nat) (status : Nat)
    (stored : List Nat) :
    fileStep (some held) (Event.flReadChannel t c n o status stored) = some held := by
  cases held <;> rfl

theorem fileStep_write (held : Option (List Char)) (t c n : Nat) (d : Option (List Nat))
    (status : Nat) :
    fileStep (some held) (Event.flWriteChannel t c n d status) = some held := by
  cases held <;> rfl

theorem fileStep_fifo (held : Option (List Char)) (c status : Nat) :
    fileStep (some held) (Event.flFifoMode c status) = some held := by
  cases held <;> rfl

theorem fileStep_load (held : Option (List Char)) (name : List Char)
    (result : Option (List Nat)) :
    fileStep (some held) (Event.flLoadFile name result) = some held := by
  cases held <;> rfl

theorem fileStep_dump (held : Option (List Char)) (a : Nat) (d : List Nat) (n : Nat) :
    fileStep (some held) (Event.dump a d n) = some held := by
  cases held <;> rfl

theorem readExecute_file_inv (env : Env) (chan length : Nat) (st : State)
    (h : FileInv st) (hfile : st.file = none) (hdata : st.data = none) :
    FileInv (readExecute env chan length st).state ∧
    (∀ st', readExecute env chan length st = .ok st' → Clean st') := by
  have h0 : fileTrack st.trace = some none := by rw [← hfile]; exact h
  cases hn : st.fileName with
  | none =>
    rw [readExecute_noFile env chan length st hn]
    by_cases h1 : env.bufAppendConst st.trace st.dataFromFPGA.length length ≠ 0
    · rw [if_pos h1]
      exact ⟨h, fun st' hst => Except.noConfusion hst⟩
    · rw [if_neg h1]
      have hinv : FileInv (afterRead env chan length st) := by
        unfold FileInv
        rw [afterRead_trace, afterRead_file, fileTrack_append_one, h, fileStep_read]
      by_cases h2 : (env.flReadChannel st.trace TIMEOUT (chan % 256) length).1 ≠ 0
      · rw [if_pos h2]
        exact ⟨hinv, fun st' hst => Except.noConfusion hst⟩
      · rw [if_neg h2]
        refine ⟨hinv, ?_⟩
        intro st' hst
        cases hst
        refine ⟨?_, ?_, ?_⟩
        · rw [afterRead_fileName]; exact hn
        · unfold afterRead
          rw [benchmark_data]
          exact hdata
        · rw [afterRead_file]; exact hfile
  | some name =>
    rw [readExecute_file env chan length st name hn]
    dsimp only
    simp only [benchmark_trace]
    have t1 : fileTrack (st.trace ++ [Event.flReadChannel TIMEOUT (chan % 256) length none
        (env.flReadChannel st.trace TIMEOUT (chan % 256) length).1
        (overwrite (List.replicate length 0)
          (env.flReadChannel st.trace TIMEOUT (chan % 256) length).2)]) = some none := by
      rw [fileTrack_append_one, h0, fileStep_read]
    by_cases h1 : (env.flReadChannel st.trace TIMEOUT (chan % 256) length).1 ≠ 0
    · rw [if_pos h1]
      refine ⟨?_, fun st' hst => Except.noConfusion hst⟩
      rw [state_error]
      unfold FileInv
      rw [benchmark_trace, benchmark_file, t1, hfile]
    · rw [if_neg h1]
      cases h2 : env.fopen (st.trace ++ [Event.flReadChannel TIMEOUT (chan % 256) length none
        (env.flReadChannel st.trace TIMEOUT (chan % 256) length).1
        (overwrite (List.replicate length 0)
          (env.flReadChannel st.trace TIMEOUT (chan % 256) length).2)]) name with
      | false =>
        rw [if_pos rfl]
        refine ⟨?_, fun st' hst => Except.noConfusion hst⟩
        rw [state_error]
        unfold FileInv
        dsimp only
        rw [fileTrack_append_one, t1]
        rfl
      | true =>
        rw [if_neg (by decide)]
        by_cases h3 : env.fwrite (st.trace ++ [Event.flReadChannel TIMEOUT (chan % 256) length
          none (env.flReadChannel st.trace TIMEOUT (chan % 256) length).1
          (overwrite (List.replicate length 0)
            (env.flReadChannel st.trace TIMEOUT (chan % 256) length).2)] ++
          [Event.fopen name true]) name (overwrite (List.replicate length 0)
            (env.flReadChannel st.trace TIMEOUT (chan % 256) length).2) length % 4294967296
            ≠ length
        · rw [if_pos h3]
          refine ⟨?_, fun st' hst => Except.noConfusion hst⟩
          rw [state_error]
          unfold FileInv
          dsimp only
          rw [fileTrack_append_one, fileTrack_append_one, t1]
          simp [fileStep]
        · rw [if_neg h3]
          refine ⟨?_, ?_⟩
          · rw [state_ok]
            unfold FileInv
            dsimp only
            rw [fileTrack_append_one, fileTrack_append_one, fileTrack_append_one, t1]
            simp [fileStep]
          · intro st' hst
            cases hst
            exact ⟨rfl, rfl, rfl⟩

theorem error_file_inv {st : State} (code : ReturnCode) (st1 : State) (h : FileInv st)
    (h1 : st1.trace = st.trace) (h2 : st1.file = st.file) :
    FileInv (Exec.state (.error (code, st1))) ∧
    (∀ st', (Except.error (code, st1) : Exec) = .ok st' → Clean st') :=
  ⟨FileInv_same _ h h1 h2, fun _ hst => Except.noConfusion hst⟩

theorem caseRead_file_inv (env : Env) (line : List Char) (st : State)
    (h : FileInv st) (hc : Clean st) :
    FileInv (caseRead env line st).state ∧
    (∀ st', caseRead env line st = .ok st' → Clean st') := by
  unfold caseRead
  dsimp only
  by_cases h1 : (strtoul env line (st.ptr + 1)).errno ≠ 0
  · rw [if_pos h1]; exact error_file_inv _ _ h rfl rfl
  rw [if_neg h1]
  by_cases h2 : (strtoul env line (st.ptr + 1)).value % 4294967296 > 127
  · rw [if_pos h2]; exact error_file_inv _ _ h rfl rfl
  rw [if_neg h2]
  by_cases h3 : peek line (strtoul env line (st.ptr + 1)).endp ≠ NUL ∧
      peek line (strtoul env line (st.ptr + 1)).endp ≠ ';' ∧
      peek line (strtoul env line (st.ptr + 1)).endp ≠ ' '
  · rw [if_pos h3]; exact error_file_inv _ _ h rfl rfl
  rw [if_neg h3]
  have hst1 : FileInv { st with ptr := (strtoul env line (st.ptr + 1)).endp } :=
    FileInv_same _ h rfl rfl
  have hc1 : Clean { st with ptr := (strtoul env line (st.ptr + 1)).endp } := hc
  obtain ⟨g1, g2, g3⟩ := readOperands_file_inv env line _ hst1 hc1
  cases ho : readOperands env line { st with ptr := (strtoul env line (st.ptr + 1)).endp } with
  | error e =>
    rw [ho] at g1
    rw [bind_error]
    exact ⟨g1, fun _ hst => Except.noConfusion hst⟩
  | ok parsed =>
    rw [ho] at g1 g2 g3
    rw [bind_ok]
    exact readExecute_file_inv env _ parsed.1 parsed.2 g1 g2 g3

theorem writeOperands_file_inv (env : Env) (line : List Char) (st : State)
    (h : FileInv st) (hc : Clean st) :
    FileInv (operandsState (writeOperands env line st)) ∧
    (operandsState (writeOperands env line st)).file = none ∧
    (∀ parsed, writeOperands env line st = .ok parsed → parsed.2.fileName = none) := by
  obtain ⟨hc1, hc2, hc3⟩ := hc
  unfold writeOperands
  dsimp only
  by_cases h0 : peek line st.ptr = ' '
  · rw [if_pos h0]
    by_cases h1 : peek line (st.ptr + 1) = DQUOTE ∨ peek line (st.ptr + 1) = SQUOTE
    · rw [if_pos h1]
      obtain ⟨-, f2, -, f4, -⟩ := quotedFileName_frame env line (peek line (st.ptr + 1))
        { st with ptr := st.ptr + 1 }
      cases hq : quotedFileName env line (peek line (st.ptr + 1))
        { st with ptr := st.ptr + 1 } with
      | error e =>
        rw [hq] at f2 f4
        rw [bind_error]
        exact ⟨FileInv_same _ h f2 f4, by rw [f4]; exact hc3,
          fun _ hst => Except.noConfusion hst⟩
      | ok found =>
        rw [hq] at f2 f4
        rw [operandsState_ok] at f2 f4
        rw [bind_ok]
        have hinv : fileTrack (found.2.trace ++ [Event.flLoadFile (found.2.fileName.getD [])
            (env.flLoadFile found.2.trace (found.2.fileName.getD []))]) = some none := by
          have : fileTrack found.2.trace = some none := by
            rw [f2]; show fileTrack st.trace = some none; rw [← hc3]; exact h
          rw [fileTrack_append_one, this, fileStep_load]
        have hf : found.2.file = none := by rw [f4]; exact hc3
        by_cases h2 : env.flLoadFile found.2.trace (found.2.fileName.getD []) = none
        · rw [if_pos h2]
          refine ⟨?_, ?_, fun _ hst => Except.noConfusion hst⟩
          · rw [operandsState_error]
            unfold FileInv
            dsimp only
            rw [hinv, hf]
          · rw [operandsState_error]
            exact hf
        · rw [if_neg h2]
          refine ⟨?_, ?_, ?_⟩
          · rw [operandsState_ok]
            unfold FileInv
            dsimp only
            rw [hinv, hf]
          · rw [operandsState_ok]
            exact hf
          · intro parsed hp
            cases hp
            rfl
    · rw [if_neg h1]
      by_cases h2 : isHexDigit (peek line (st.ptr + 1)) = true
      · rw [if_pos h2]
        by_cases h3 : (scanHexRun line (st.ptr + 1) - (st.ptr + 1)) % 2 ≠ 0
        · rw [if_pos h3, operandsState_error]
          exact ⟨FileInv_same _ h rfl rfl, hc3, fun _ hst => Except.noConfusion hst⟩
        · rw [if_neg h3, operandsState_ok]
          refine ⟨FileInv_same _ h rfl rfl, hc3, ?_⟩
          intro parsed hp
          rw [← Except.ok.inj hp]
          exact hc1
      · rw [if_neg h2, operandsState_error]
        exact ⟨FileInv_same _ h rfl rfl, hc3, fun _ hst => Except.noConfusion hst⟩
  · rw [if_neg h0, operandsState_ok]
    refine ⟨FileInv_same _ h rfl rfl, hc3, ?_⟩
    intro parsed hp
    rw [← Except.ok.inj hp]
    exact hc1

theorem caseWrite_file_inv (env : Env) (line : List Char) (st : State)
    (h : FileInv st) (hc : Clean st) :
    FileInv (caseWrite env line st).state ∧
    (∀ st', caseWrite env line st = .ok st' → Clean st') := by
  unfold caseWrite
  dsimp only
  by_cases h1 : (strtoul env line (st.ptr + 1)).errno ≠ 0
  · rw [if_pos h1]; exact error_file_inv _ _ h rfl rfl
  rw [if_neg h1]
  by_cases h2 : (strtoul env line (st.ptr + 1)).value > 127
  · rw [if_pos h2]; exact error_file_inv _ _ h rfl rfl
  rw [if_neg h2]
  by_cases h3 : peek line (strtoul env line (st.ptr + 1)).endp ≠ NUL ∧
      peek line (strtoul env line (st.ptr + 1)).endp ≠ ';' ∧
      peek line (strtoul env line (st.ptr + 1)).endp ≠ ' '
  · rw [if_pos h3]; exact error_file_inv _ _ h rfl rfl
  rw [if_neg h3]
  have hst1 : FileInv { st with ptr := (strtoul env line (st.ptr + 1)).endp } :=
    FileInv_same _ h rfl rfl
  have hc1 : Clean { st with ptr := (strtoul env line (st.ptr + 1)).endp } := hc
  obtain ⟨g1, g2, g3⟩ := writeOperands_file_inv env line _ hst1 hc1
  cases ho : writeOperands env line { st with ptr := (strtoul env line (st.ptr + 1)).endp } with
  | error e =>
    rw [ho] at g1
    rw [bind_error]
    exact ⟨g1, fun _ hst => Except.noConfusion hst⟩
  | ok parsed =>
    rw [ho] at g1 g2
    rw [operandsState_ok] at g1 g2
    have g4 := g3 parsed ho
    rw [bind_ok]
    have hinv : fileTrack (parsed.2.trace ++ [Event.flWriteChannel TIMEOUT
        ((strtoul env line (st.ptr + 1)).value % 256) parsed.1 parsed.2.data
        (env.flWriteChannel parsed.2.trace TIMEOUT
          ((strtoul env line (st.ptr + 1)).value % 256) parsed.1 parsed.2.data)]) =
        some parsed.2.file := by
      rw [fileTrack_append_one, g1, fileStep_write]
    by_cases h4 : env.flWriteChannel parsed.2.trace TIMEOUT
        ((strtoul env line (st.ptr + 1)).value % 256) parsed.1 parsed.2.data ≠ 0
    · rw [if_pos h4]
      refine ⟨?_, fun _ hst => Except.noConfusion hst⟩
      rw [state_error]
      unfold FileInv
      rw [benchmark_trace, benchmark_file]
      exact hinv
    · rw [if_neg h4]
      refine ⟨?_, ?_⟩
      · rw [state_ok]
        unfold FileInv
        dsimp only
        rw [benchmark_trace, benchmark_file]
        exact hinv
      · intro st' hst
        cases hst
        refine ⟨?_, rfl, ?_⟩
        · dsimp only
          rw [benchmark_fileName]
          exact g4
        · dsimp only
          rw [benchmark_file]
          exact g2

theorem casePlus_file_inv (env : Env) (line : List Char) (st : State)
    (h : FileInv st) (hc : Clean st) :
    FileInv (casePlus env line st).state ∧
    (∀ st', casePlus env line st = .ok st' → Clean st') := by
  unfold casePlus
  dsimp only
  by_cases h1 : (strtoul env line (st.ptr + 1)).errno ≠ 0
  · rw [if_pos h1]; exact error_file_inv _ _ h rfl rfl
  rw [if_neg h1]
  by_cases h2 : (strtoul env line (st.ptr + 1)).value % 4294967296 > 255
  · rw [if_pos h2]; exact error_file_inv _ _ h rfl rfl
  rw [if_neg h2]
  by_cases h3 : peek line (strtoul env line (st.ptr + 1)).endp ≠ NUL ∧
      peek line (strtoul env line (st.ptr + 1)).endp ≠ ';'
  · rw [if_pos h3]; exact error_file_inv _ _ h rfl rfl
  rw [if_neg h3]
  have hinv : fileTrack (st.trace ++ [Event.flFifoMode
      ((strtoul env line (st.ptr + 1)).value % 4294967296 % 256)
      (env.flFifoMode st.trace ((strtoul env line (st.ptr + 1)).value % 4294967296 % 256))]) =
      some st.file := by
    rw [fileTrack_append_one, h, fileStep_fifo]
  by_cases h4 : env.flFifoMode st.trace
      ((strtoul env line (st.ptr + 1)).value % 4294967296 % 256) ≠ 0
  · rw [if_pos h4]
    refine ⟨?_, fun _ hst => Except.noConfusion hst⟩
    rw [state_error]
    unfold FileInv
    dsimp only
    exact hinv
  · rw [if_neg h4]
    refine ⟨?_, ?_⟩
    · rw [state_ok]
      unfold FileInv
      dsimp only
      exact hinv
    · intro st' hst
      rw [← Except.ok.inj hst]
      unfold Clean
      dsimp only
      exact hc

theorem command_file_inv (env : Env) (line : List Char) (st : State)
    (h : FileInv st) (hc : Clean st) :
    FileInv (command env line st).state ∧
    (∀ st', command env line st = .ok st' → Clean st') := by
  have hst1 : FileInv { st with ptr := skipSemicolons line st.ptr } := FileInv_same _ h rfl rfl
  have hc1 : Clean { st with ptr := skipSemicolons line st.ptr } := hc
  unfold command
  dsimp only
  by_cases h1 : peek line (skipSemicolons line st.ptr) = 'r'
  · rw [if_pos h1]; exact caseRead_file_inv env line _ hst1 hc1
  rw [if_neg h1]
  by_cases h2 : peek line (skipSemicolons line st.ptr) = 'w'
  · rw [if_pos h2]; exact caseWrite_file_inv env line _ hst1 hc1
  rw [if_neg h2]
  by_cases h3 : peek line (skipSemicolons line st.ptr) = '+'
  · rw [if_pos h3]; exact casePlus_file_inv env line _ hst1 hc1
  rw [if_neg h3]
  exact error_file_inv _ _ h rfl rfl

theorem parseLoop_file_inv (env : Env) (line : List Char) :
    ∀ (fuel : Nat) (st : State) (out : Exec), FileInv st → Clean st →
      parseLoop env line fuel st = some out →
      FileInv out.state ∧ (∀ st', out = .ok st' → Clean st') := by
  intro fuel
  induction fuel with
  | zero => intro st out _ _ h; exact Option.noConfusion h
  | succ fuel ih =>
    intro st out hst hc h
    obtain ⟨c1, c2⟩ := command_file_inv env line st hst hc
    rw [parseLoop_succ] at h
    cases hcmd : command env line st with
    | error e =>
      rw [hcmd] at h c1
      cases Option.some.inj h
      exact ⟨c1, fun _ hst => Except.noConfusion hst⟩
    | ok st' =>
      rw [hcmd] at h c1
      have c3 := c2 st' hcmd
      dsimp only at h
      split_ifs at h with hp
      · exact ih st' out c1 c3 h
      · cases Option.some.inj h
        refine ⟨c1, ?_⟩
        intro st'' hst''
        cases hst''
        exact c3

theorem FileInv_initialState : FileInv initialState ∧ Clean initialState :=
  ⟨rfl, rfl, rfl, rfl⟩

theorem cleanup_fileTrack (line : List Char) (code : ReturnCode) (st : State)
    (h : FileInv st) : fileTrack (cleanup line code st).final.trace = some none := by
  unfold FileInv at h
  unfold cleanup
  dsimp only
  cases hf : st.file with
  | none =>
    rw [hf] at h
    simp only [List.append_nil]
    exact h
  | some name =>
    rw [hf] at h
    simp only
    rw [fileTrack_append_one, h]
    simp [fileStep]

/-- Runs that open a file: on success and after a short write (`FLP_CANNOT_SAVE`)
the file is closed exactly once; a later parse error comes after the close. -/
theorem file_handles_examples :
    (parseLine idealEnv readToOutBin).map
        (fun r => (r.returnCode, fileTrack r.final.trace, r.final.trace.count
          (Event.fopen "out.bin".data true), r.final.trace.count (Event.fclose "out.bin".data)))
      = some (FLP_SUCCESS, some none, 1, 1) ∧
    (parseLine shortWriteEnv readToOutBin).map
        (fun r => (r.returnCode, r.atCleanup.file, fileTrack r.atCleanup.trace,
          fileTrack r.final.trace, r.final.trace.count (Event.fopen "out.bin".data true),
          r.final.trace.count (Event.fclose "out.bin".data)))
      = some (FLP_CANNOT_SAVE, some "out.bin".data, some (some "out.bin".data), some none, 1, 1) ∧
    (parseLine idealEnv (readToOutBin ++ ";x".data)).map
        (fun r => (r.returnCode, fileTrack r.final.trace, r.final.trace.count
          (Event.fopen "out.bin".data true), r.final.trace.count (Event.fclose "out.bin".data)))
      = some (FLP_ILL_CHAR, some none, 1, 1) :=
  ⟨by rfl, by rfl, by rfl⟩

theorem command_write_at (env : Env) {line : List Char} {st : State} {p : Nat}
    (hskip : skipSemicolons line st.ptr = p) (hp : peek line p = 'w') :
    command env line st = caseWrite env line { st with ptr := p } := by
  unfold command
  dsimp only
  rw [hskip, if_neg (by rw [hp]; decide), if_pos hp]

theorem deviceOps_cleanup_any (line : List Char) (code : ReturnCode) (st : State) :
    deviceOps (cleanup line code st).final.trace = deviceOps st.trace := by
  unfold cleanup
  dsimp only
  rw [deviceOps_append]
  cases st.file <;> simp [deviceOps, Event.isDeviceOp]

theorem command_write_hex_ok (env : Env) {line : List Char} {st : State} (p : Nat)
    {cd ds rest : List Char}
    (hskip : skipSemicolons line st.ptr = p)
    (hdrop : line.drop p = 'w' :: (cd ++ ' ' :: (ds ++ rest)))
    (hcne : cd ≠ []) (hcd : ∀ c ∈ cd, isHexDigit c = true)
    (hne : ds ≠ []) (hds : ∀ c ∈ ds, isHexDigit c = true)
    (hrest : isHexDigit (rest.headD NUL) = false)
    (hW : 32 ≤ env.ulongBits) (hchan : hexValue cd ≤ 127) (hlen : ds.length < 2 ^ 32)
    (heven : ds.length % 2 = 0)
    (hdev : env.flWriteChannel st.trace TIMEOUT (hexValue cd) (ds.length / 2)
      (some (hexPairs ds)) = 0) :
    ∃ st', command env line st = .ok st' ∧
      st'.ptr = p + 1 + cd.length + 1 + ds.length ∧
      st'.trace = st.trace ++ [Event.flWriteChannel TIMEOUT (hexValue cd) (ds.length / 2)
        (some (hexPairs ds)) 0] := by
  have hc := @caseWrite_hex env line { st with ptr := p } cd ds rest hdrop hcne hcd hne hds
    hrest hW hchan hlen
  rw [if_neg (by omega)] at hc
  dsimp only at hc
  rw [hdev, if_neg (by simp)] at hc
  rw [command_write_at env hskip (peek_of_drop hdrop), hc]
  exact ⟨_, rfl, by simp only [benchmark_ptr], by simp only [benchmark_trace]⟩

theorem writeOperands_quoted (env : Env) {line : List Char} {st : State} {q : Char}
    {name rest : List Char} {bytes : List Nat}
    (hdrop : line.drop st.ptr = ' ' :: q :: (name ++ q :: rest))
    (hquote : q = DQUOTE ∨ q = SQUOTE)
    (hne : name ≠ []) (hname : ∀ c ∈ name, c ≠ q ∧ c ≠ NUL)
    (hmalloc : env.mallocFileName st.trace (name.length + 1) = true)
    (hload : env.flLoadFile st.trace name = some bytes) :
    writeOperands env line st =
      .ok (bytes.length % 4294967296,
        { st with
          ptr := st.ptr + 1 + 1 + name.length + 1,
          data := some bytes,
          fileName := none,
          trace := st.trace ++ [Event.flLoadFile name (some bytes)] }) := by
  have h1 : line.drop (st.ptr + 1) = q :: (name ++ q :: rest) := by
    have := @drop_add_of_drop line st.ptr [' '] (q :: (name ++ q :: rest)) hdrop
    simpa using this
  have p0 : peek line st.ptr = ' ' := peek_of_drop hdrop
  have p1 : peek line (st.ptr + 1) = q := peek_of_drop h1
  have hq : q ≠ NUL := by rcases hquote with h | h <;> rw [h] <;> decide
  have qf := @quotedFileName_run env line { st with ptr := st.ptr + 1 } q name rest h1 hne
    hname hq hmalloc
  unfold writeOperands
  dsimp only
  rw [p0, if_pos rfl, p1, if_pos hquote, qf, bind_ok]
  dsimp only
  rw [Option.getD_some, hload]
  rfl

theorem command_write_file_ok (env : Env) {line : List Char} {st : State} (p : Nat)
    {q : Char} {cd name rest : List Char} {bytes : List Nat}
    (hskip : skipSemicolons line st.ptr = p)
    (hdrop : line.drop p = 'w' :: (cd ++ ' ' :: q :: (name ++ q :: rest)))
    (hcne : cd ≠ []) (hcd : ∀ c ∈ cd, isHexDigit c = true)
    (hW : 32 ≤ env.ulongBits) (hchan : hexValue cd ≤ 127)
    (hquote : q = DQUOTE ∨ q = SQUOTE)
    (hne : name ≠ []) (hname : ∀ c ∈ name, c ≠ q ∧ c ≠ NUL)
    (hmalloc : env.mallocFileName st.trace (name.length + 1) = true)
    (hload : env.flLoadFile st.trace name = some bytes)
    (hlen : bytes.length < 2 ^ 32)
    (hdev : env.flWriteChannel (st.trace ++ [Event.flLoadFile name (some bytes)]) TIMEOUT
      (hexValue cd) bytes.length (some bytes) = 0) :
    ∃ st', command env line st = .ok st' ∧
      st'.ptr = p + 1 + cd.length + 1 + 1 + name.length + 1 ∧
      st'.trace = st.trace ++ [Event.flLoadFile name (some bytes),
        Event.flWriteChannel TIMEOUT (hexValue cd) bytes.length (some bytes) 0] := by
  have h1 : line.drop (p + 1) = cd ++ ' ' :: q :: (name ++ q :: rest) := by
    have := @drop_add_of_drop line p ['w'] (cd ++ ' ' :: q :: (name ++ q :: rest)) hdrop
    simpa using this
  have h2 : line.drop (p + 1 + cd.length) = ' ' :: q :: (name ++ q :: rest) :=
    drop_add_of_drop h1
  have s1 := strtoul_run_small env h1 hcne hcd (Or.inr (Or.inr rfl)) hW (by omega)
  have p2 : peek line (p + 1 + cd.length) = ' ' := peek_of_drop h2
  have hm : hexValue cd % 256 = hexValue cd := Nat.mod_eq_of_lt (by omega)
  have hb : bytes.length % 4294967296 = bytes.length := Nat.mod_eq_of_lt (by omega)
  have wo := @writeOperands_quoted env line { st with ptr := p + 1 + cd.length } q name rest
    bytes h2 hquote hne hname hmalloc hload
  rw [command_write_at env hskip (peek_of_drop hdrop)]
  unfold caseWrite
  dsimp only
  rw [s1]
  dsimp only
  rw [p2, if_neg (by simp), if_neg (not_lt.mpr hchan), if_neg (by simp), wo, bind_ok]
  dsimp only
  rw [hm, hb, hdev, if_neg (by simp)]
  refine ⟨_, rfl, ?_, ?_⟩
  · dsimp only
    rw [benchmark_ptr]
  · dsimp only
    rw [benchmark_trace]
    simp

theorem trailing_after_command {env : Env} {line : List Char} {st st' : State}
    (hcmd : command env line st = .ok st')
    (h1 : peek line st'.ptr ≠ ';') (h2 : peek line st'.ptr ≠ NUL) :
    (∀ fuel, parseLoop env line (fuel + 1) st = some (.ok st')) ∧
    (env.bufInitialise = 0 → st = initialState →
      parseLine env line = some (cleanup line FLP_ILL_CHAR st')) := by
  refine ⟨fun fuel => parseLoop_last fuel hcmd h1, ?_⟩
  intro hinit hst
  subst hst
  exact parseLine_of_trailing hinit (parseLoop_last _ hcmd h1) h2

theorem trailing_conclusion {env : Env} {line : List Char} {st st' : State} {q : Nat}
    {c : Char} {op : Event}
    (hcmd : command env line st = .ok st') (hptr : st'.ptr = q) (hpeek : peek line q = c)
    (hc : c ≠ ';' ∧ c ≠ NUL)
    (hops : deviceOps st'.trace = deviceOps st.trace ++ [op]) :
    ∃ st', command env line st = .ok st' ∧ st'.ptr = q ∧ peek line q = c ∧
      deviceOps st'.trace = deviceOps st.trace ++ [op] ∧
      (∀ fuel, parseLoop env line (fuel + 1) st = some (.ok st')) ∧
      (env.bufInitialise = 0 → st = initialState →
        ∃ r, parseLine env line = some r ∧ r.returnCode = FLP_ILL_CHAR ∧
          r.atCleanup.ptr = q ∧ deviceOps r.final.trace = [op] ∧
          dumpCalls r.final.trace = []) := by
  have hp1 : peek line st'.ptr ≠ ';' := by rw [hptr, hpeek]; exact hc.1
  have hp2 : peek line st'.ptr ≠ NUL := by rw [hptr, hpeek]; exact hc.2
  obtain ⟨t1, t2⟩ := trailing_after_command hcmd hp1 hp2
  refine ⟨st', hcmd, hptr, hpeek, hops, t1, ?_⟩
  intro hinit hst
  refine ⟨_, t2 hinit hst, rfl, hptr, ?_, ?_⟩
  · rw [deviceOps_cleanup_any, hops, hst]
    rfl
  · rw [cleanup_dumpCalls]
    have hacc := (command_frame env line st).2.2 (by rw [hst]; exact AccInv_initialState)
    rw [hcmd, state_ok] at hacc
    exact hacc.2

/-- C21 (as amended). Parsing and execution are interleaved. Let the command
at offset `p` be a write with a run of hex data, a write from a quoted file or
a read to a quoted path, valid and carried out with success, and let the
character `c` that directly follows its last character (the last data digit or
the closing quote), at offset `q`, be neither `;` nor NUL. Then the command
succeeds with its device operation `op` issued and the cursor at `q`, the loop
ends after it, and when the command is the first of the line `parseLine`
returns `FLP_ILL_CHAR` with column `q`, with `op` as the one device operation
made and without a call of `dump`. -/
theorem trailing_text_after_command_runs (env : Env) (line : List Char) (st : State)
    (p q : Nat) (c : Char) (op : Event) (hW : 32 ≤ env.ulongBits)
    (hskip : skipSemicolons line st.ptr = p) (hc : c ≠ ';' ∧ c ≠ NUL)
    (hcase :
      (∃ cd ds rest, line.drop p = 'w' :: (cd ++ ' ' :: (ds ++ c :: rest)) ∧
        cd ≠ [] ∧ (∀ d ∈ cd, isHexDigit d = true) ∧ hexValue cd ≤ 127 ∧
        ds ≠ [] ∧ (∀ d ∈ ds, isHexDigit d = true) ∧ ds.length % 2 = 0 ∧
        ds.length < 2 ^ 32 ∧ isHexDigit c = false ∧
        env.flWriteChannel st.trace TIMEOUT (hexValue cd) (ds.length / 2)
          (some (hexPairs ds)) = 0 ∧
        op = Event.flWriteChannel TIMEOUT (hexValue cd) (ds.length / 2) (some (hexPairs ds)) 0 ∧
        q = p + 1 + cd.length + 1 + ds.length) ∨
      (∃ cd quote name bytes rest,
        line.drop p = 'w' :: (cd ++ ' ' :: quote :: (name ++ quote :: c :: rest)) ∧
        cd ≠ [] ∧ (∀ d ∈ cd, isHexDigit d = true) ∧ hexValue cd ≤ 127 ∧
        (quote = DQUOTE ∨ quote = SQUOTE) ∧
        name ≠ [] ∧ (∀ x ∈ name, x ≠ quote ∧ x ≠ NUL) ∧
        env.mallocFileName st.trace (name.length + 1) = true ∧
        env.flLoadFile st.trace name = some bytes ∧ bytes.length < 2 ^ 32 ∧
        env.flWriteChannel (st.trace ++ [Event.flLoadFile name (some bytes)]) TIMEOUT
          (hexValue cd) bytes.length (some bytes) = 0 ∧
        op = Event.flWriteChannel TIMEOUT (hexValue cd) bytes.length (some bytes) 0 ∧
        q = p + 1 + cd.length + 1 + 1 + name.length + 1) ∨
      (∃ cd ld quote name rest,
        line.drop p =
          'r' :: (cd ++ ' ' :: (ld ++ ' ' :: quote :: (name ++ quote :: c :: rest))) ∧
        cd ≠ [] ∧ (∀ d ∈ cd, isHexDigit d = true) ∧ hexValue cd ≤ 127 ∧
        ld ≠ [] ∧ (∀ d ∈ ld, isHexDigit d = true) ∧ hexValue ld < 2 ^ 32 ∧
        (quote = DQUOTE ∨ quote = SQUOTE) ∧
        name ≠ [] ∧ (∀ x ∈ name, x ≠ quote ∧ x ≠ NUL) ∧
        env.mallocFileName st.trace (name.length + 1) = true ∧
        (env.flReadChannel st.trace TIMEOUT (hexValue cd) (hexValue ld)).1 = 0 ∧
        (∀ tr, env.fopen tr name = true) ∧
        (∀ tr data, env.fwrite tr name data (hexValue ld) = hexValue ld) ∧
        op = Event.flReadChannel TIMEOUT (hexValue cd) (hexValue ld) none 0
          (overwrite (List.replicate (hexValue ld) 0)
            (env.flReadChannel st.trace TIMEOUT (hexValue cd) (hexValue ld)).2) ∧
        q = p + 1 + cd.length + 1 + ld.length + 1 + 1 + name.length + 1)) :
    ∃ st', command env line st = .ok st' ∧ st'.ptr = q ∧ peek line q = c ∧
      deviceOps st'.trace = deviceOps st.trace ++ [op] ∧
      (∀ fuel, parseLoop env line (fuel + 1) st = some (.ok st')) ∧
      (env.bufInitialise = 0 → st = initialState →
        ∃ r, parseLine env line = some r ∧ r.returnCode = FLP_ILL_CHAR ∧
          r.atCleanup.ptr = q ∧ deviceOps r.final.trace = [op] ∧
          dumpCalls r.final.trace = []) := by
  rcases hcase with
    ⟨cd, ds, rest, hdrop, hcne, hcd, hchan, hne, hds, heven, hlen, hnh, hdev, rfl, rfl⟩ |
    ⟨cd, quote, name, bytes, rest, hdrop, hcne, hcd, hchan, hquote, hne, hname, hmalloc, hload,
      hlen, hdev, rfl, rfl⟩ |
    ⟨cd, ld, quote, name, rest, hdrop, hcne, hcd, hchan, hlne, hld, hlen, hquote, hne, hname,
      hmalloc, hread, hopen, hwrite, rfl, rfl⟩
  · obtain ⟨st', hcmd, hptr, htrace⟩ := command_write_hex_ok env p hskip hdrop hcne hcd hne hds
      hnh hW hchan hlen heven hdev
    have h1 : line.drop (p + 1) = cd ++ ' ' :: (ds ++ c :: rest) := by
      have := @drop_add_of_drop line p ['w'] (cd ++ ' ' :: (ds ++ c :: rest)) hdrop
      simpa using this
    have h2 : line.drop (p + 1 + cd.length) = ' ' :: (ds ++ c :: rest) := drop_add_of_drop h1
    have h3 : line.drop (p + 1 + cd.length + 1) = ds ++ c :: rest := by
      have := @drop_add_of_drop line (p + 1 + cd.length) [' '] (ds ++ c :: rest) h2
      simpa using this
    have hpeek : peek line (p + 1 + cd.length + 1 + ds.length) = c :=
      peek_of_drop (drop_add_of_drop h3)
    refine trailing_conclusion hcmd hptr hpeek hc ?_
    rw [htrace, deviceOps_append]
    simp [deviceOps, Event.isDeviceOp]
  · obtain ⟨st', hcmd, hptr, htrace⟩ := command_write_file_ok env p hskip hdrop hcne hcd hW
      hchan hquote hne hname hmalloc hload hlen hdev
    have h1 : line.drop (p + 1) = cd ++ ' ' :: quote :: (name ++ quote :: c :: rest) := by
      have := @drop_add_of_drop line p ['w']
        (cd ++ ' ' :: quote :: (name ++ quote :: c :: rest)) hdrop
      simpa using this
    have h2 : line.drop (p + 1 + cd.length) = ' ' :: quote :: (name ++ quote :: c :: rest) :=
      drop_add_of_drop h1
    have h3 : line.drop (p + 1 + cd.length + 1 + 1) = name ++ quote :: c :: rest := by
      have := @drop_add_of_drop line (p + 1 + cd.length) [' ', quote]
        (name ++ quote :: c :: rest) h2
      simpa using this
    have h4 : line.drop (p + 1 + cd.length + 1 + 1 + name.length) = quote :: c :: rest :=
      drop_add_of_drop h3
    have h5 : line.drop (p + 1 + cd.length + 1 + 1 + name.length + 1) = c :: rest := by
      have := @drop_add_of_drop line (p + 1 + cd.length + 1 + 1 + name.length) [quote]
        (c :: rest) h4
      simpa using this
    refine trailing_conclusion hcmd hptr (peek_of_drop h5) hc ?_
    rw [htrace, deviceOps_append]
    simp [deviceOps, Event.isDeviceOp]
  · obtain ⟨st', hcmd, hptr, htrace, -⟩ := command_read_file_ok env p hskip hdrop hcne hcd
      hlne hld hW hchan hlen hquote hne hname hmalloc hread hopen hwrite
    have h1 : line.drop (p + 1) =
        cd ++ ' ' :: (ld ++ ' ' :: quote :: (name ++ quote :: c :: rest)) := by
      have := @drop_add_of_drop line p ['r']
        (cd ++ ' ' :: (ld ++ ' ' :: quote :: (name ++ quote :: c :: rest))) hdrop
      simpa using this
    have h2 : line.drop (p + 1 + cd.length) =
        ' ' :: (ld ++ ' ' :: quote :: (name ++ quote :: c :: rest)) := drop_add_of_drop h1
    have h3 : line.drop (p + 1 + cd.length + 1) =
        ld ++ ' ' :: quote :: (name ++ quote :: c :: rest) := by
      have := @drop_add_of_drop line (p + 1 + cd.length) [' ']
        (ld ++ ' ' :: quote :: (name ++ quote :: c :: rest)) h2
      simpa using this
    have h4 : line.drop (p + 1 + cd.length + 1 + ld.length) =
        ' ' :: quote :: (name ++ quote :: c :: rest) := drop_add_of_drop h3
    have h5 : line.drop (p + 1 + cd.length + 1 + ld.length + 1 + 1) =
        name ++ quote :: c :: rest := by
      have := @drop_add_of_drop line (p + 1 + cd.length + 1 + ld.length) [' ', quote]
        (name ++ quote :: c :: rest) h4
      simpa using this
    have h6 : line.drop (p + 1 + cd.length + 1 + ld.length + 1 + 1 + name.length) =
        quote :: c :: rest := drop_add_of_drop h5
    have h7 : line.drop (p + 1 + cd.length + 1 + ld.length + 1 + 1 + name.length + 1) =
        c :: rest := by
      have := @drop_add_of_drop line (p + 1 + cd.length + 1 + ld.length + 1 + 1 + name.length)
        [quote] (c :: rest) h6
      simpa using this
    refine trailing_conclusion hcmd hptr (peek_of_drop h7) hc ?_
    rw [htrace, deviceOps_append]
    simp [deviceOps, Event.isDeviceOp]

theorem trailing_text_after_command_runs_witness :
    ∃ st', command idealEnv "w0 aa zz".data initialState = .ok st' ∧ st'.ptr = 5 ∧
      peek "w0 aa zz".data 5 = ' ' ∧
      deviceOps st'.trace = deviceOps initialState.trace ++
        [Event.flWriteChannel TIMEOUT 0 1 (some [170]) 0] ∧
      (∀ fuel, parseLoop idealEnv "w0 aa zz".data (fuel + 1) initialState = some (.ok st')) ∧
      ∃ r, parseLine idealEnv "w0 aa zz".data = some r ∧ r.returnCode = FLP_ILL_CHAR ∧
        r.atCleanup.ptr = 5 ∧
        deviceOps r.final.trace = [Event.flWriteChannel TIMEOUT 0 1 (some [170]) 0] ∧
        dumpCalls r.final.trace = [] :=
  (trailing_text_after_command_runs idealEnv "w0 aa zz".data initialState 0 5 ' '
    (Event.flWriteChannel TIMEOUT 0 1 (some [170]) 0) (by decide) rfl (by decide)
    (Or.inl ⟨"0".data, "aa".data, "zz".data, rfl, by decide, by decide, by decide, by decide,
      by decide, by decide, by decide, by decide, rfl, rfl, rfl⟩)).elim
    fun st' h => ⟨st', h.1, h.2.1, h.2.2.1, h.2.2.2.1, h.2.2.2.2.1, h.2.2.2.2.2 rfl rfl⟩

/-- C21 as stated fails for a command that ends with a number. After a channel,
a length or a conduit number the next character is checked before the
operation is issued: `"r0 4z"`, `"w0z"` and `"+0z"` return `FLP_ILL_CHAR` (at
columns 4, 2 and 2) without any call having been made, although `"r0 4"`,
`"w0"` and `"+0"` are valid commands that a character other than `;` and NUL
follows directly. And when the command itself fails, its failure is the
result: on `r5 10 "out.bin"` followed by a space, with a file system that comes
one byte short, the read is issued and the result is `FLP_CANNOT_SAVE`. -/
theorem trailing_text_counterexample :
    (parseLine idealEnv "r0 4z".data).map
        (fun r => (r.returnCode, r.atCleanup.ptr, r.final.trace)) =
      some (FLP_ILL_CHAR, 4, []) ∧
    (parseLine idealEnv "w0z".data).map
        (fun r => (r.returnCode, r.atCleanup.ptr, r.final.trace)) =
      some (FLP_ILL_CHAR, 2, []) ∧
    (parseLine idealEnv "+0z".data).map
        (fun r => (r.returnCode, r.atCleanup.ptr, r.final.trace)) =
      some (FLP_ILL_CHAR, 2, []) ∧
    (parseLine idealEnv "r0 4".data).map (fun r => r.returnCode) = some FLP_SUCCESS ∧
    (parseLine idealEnv "w0".data).map (fun r => r.returnCode) = some FLP_SUCCESS ∧
    (parseLine idealEnv "+0".data).map (fun r => r.returnCode) = some FLP_SUCCESS ∧
    (parseLine shortWriteEnv (readToOutBin ++ " ".data)).map
        (fun r => (r.returnCode, deviceOps r.final.trace)) =
      some (FLP_CANNOT_SAVE, [Event.flReadChannel 600000 5 16 none 0
        [5, 6, 7, 8, 9, 10, 11, 12, 13, 14, 15, 16, 17, 18, 19, 20]]) :=
  ⟨by rfl, by rfl, by rfl, by rfl, by rfl, by rfl, by rfl⟩

/-- Runs with trailing text after a command that ends with data or a closing
quote: `w0 aa zz` writes the byte 0xaa and fails at column 5; the read
`r5 10 "out.bin"` followed by a space reads 16 bytes, saves and closes the file
and fails at column 15; a write from a quoted file followed by `z` writes the
three bytes of the file and fails at column 7. -/
theorem trailing_text_examples :
    (parseLine idealEnv "w0 aa zz".data).map
        (fun r => (r.returnCode, r.atCleanup.ptr, r.final.trace)) =
      some (FLP_ILL_CHAR, 5, [Event.flWriteChannel 600000 0 1 (some [170]) 0]) ∧
    (parseLine idealEnv (readToOutBin ++ " ".data)).map
        (fun r => (r.returnCode, r.atCleanup.ptr, r.final.trace)) =
      some (FLP_ILL_CHAR, 15,
        [Event.flReadChannel 600000 5 16 none 0
          [5, 6, 7, 8, 9, 10, 11, 12, 13, 14, 15, 16, 17, 18, 19, 20],
         Event.fopen "out.bin".data true,
         Event.fwrite "out.bin".data
          [5, 6, 7, 8, 9, 10, 11, 12, 13, 14, 15, 16, 17, 18, 19, 20] 16 16,
         Event.fclose "out.bin".data]) ∧
    (parseLine idealEnv ("w1 ".data ++ SQUOTE :: ("in".data ++ SQUOTE :: "z".data))).map
        (fun r => (r.returnCode, r.atCleanup.ptr, r.final.trace)) =
      some (FLP_ILL_CHAR, 7,
        [Event.flLoadFile "in".data (some [1, 2, 3]),
         Event.flWriteChannel 600000 1 3 (some [1, 2, 3]) 0]) :=
  ⟨by rfl, by rfl, by rfl⟩

theorem command_at_r (env : Env) {line : List Char} {st : State} {p : Nat}
    (hskip : skipSemicolons line st.ptr = p) (hp : peek line p = 'r') :
    command env line st = caseRead env line { st with ptr := p } := by
  unfold command
  dsimp only
  rw [hskip, if_pos hp]

theorem command_at_plus (env : Env) {line : List Char} {st : State} {p : Nat}
    (hskip : skipSemicolons line st.ptr = p) (hp : peek line p = '+') :
    command env line st = casePlus env line { st with ptr := p } := by
  unfold command
  dsimp only
  rw [hskip, if_neg (by rw [hp]; decide), if_neg (by rw [hp]; decide), if_pos hp]

theorem agrees_error (code : ReturnCode) (st : State) (trace : List Event) (ptr : Nat)
    (h : st.trace = trace) :
    Agrees (.error (code, st)) (.error (code, trace)) ptr := ⟨rfl, h⟩

theorem agrees_ok (st : State) (trace : List Event) (acc : List Nat) (ptr : Nat)
    (h1 : st.trace = trace) (h2 : st.dataFromFPGA = acc) (h3 : st.ptr = ptr)
    (h4 : st.fileName = none) :
    Agrees (.ok st) (.ok (trace, acc)) ptr := ⟨h1, h2, h3, h4⟩

theorem step_read (env : Env) (hW : 32 ≤ env.ulongBits) (line : List Char) (st : State)
    (p chan length : Nat) (rest : List Char)
    (hskip : skipSemicolons line st.ptr = p)
    (hdrop : line.drop p = (ChainCmd.read chan length).text ++ rest)
    (hrest : rest.headD NUL = NUL ∨ rest.headD NUL = ';')
    (hwf : (ChainCmd.read chan length).wellFormed) (hname : st.fileName = none) :
    Agrees (command env line st)
      (specStep env (.read chan length) st.trace st.dataFromFPGA)
      (p + (ChainCmd.read chan length).text.length) := by
  obtain ⟨hc32, hl32⟩ := hwf
  obtain ⟨cne, chex, cval⟩ := toDigits_hex chan
  obtain ⟨lne, lhex, lval⟩ := toDigits_hex length
  have hdrop' : line.drop p =
      'r' :: (Nat.toDigits 16 chan ++ ' ' :: (Nat.toDigits 16 length ++ rest)) := by
    rw [hdrop]; simp [ChainCmd.text]
  have hlen : (ChainCmd.read chan length).text.length =
      1 + (Nat.toDigits 16 chan).length + 1 + (Nat.toDigits 16 length).length := by
    simp [ChainCmd.text]; omega
  unfold specStep
  dsimp only
  by_cases hchan : chan > 127
  · rw [if_pos hchan]
    have hr := @caseRead_range_at env line { st with ptr := p } (Nat.toDigits 16 chan)
      (' ' :: (Nat.toDigits 16 length ++ rest)) hdrop' cne chex (Or.inr (Or.inr rfl)) hW
      (by rw [cval]; exact hchan) (by rw [cval]; exact hc32)
    rw [command_at_r env hskip (peek_of_drop hdrop'), hr]
    exact agrees_error _ _ _ _ rfl
  · rw [if_neg hchan]
    have hcmd := command_read_at env p hskip hdrop' cne chex lne lhex hrest hW
      (by rw [cval]; omega) (by rw [lval]; exact hl32)
    rw [cval, lval] at hcmd
    rw [readExecute_noFile env chan length
      { st with ptr := p + 1 + (Nat.toDigits 16 chan).length + 1 +
        (Nat.toDigits 16 length).length } hname] at hcmd
    have hm : chan % 256 = chan := Nat.mod_eq_of_lt (by omega)
    rw [hm] at hcmd
    dsimp only at hcmd
    rw [hcmd]
    by_cases ha : env.bufAppendConst st.trace st.dataFromFPGA.length length ≠ 0
    · rw [if_pos ha, if_pos ha]
      exact agrees_error _ _ _ _ rfl
    · rw [if_neg ha, if_neg ha]
      by_cases hd : (env.flReadChannel st.trace TIMEOUT chan length).1 ≠ 0
      · rw [if_pos hd, if_pos hd]
        refine agrees_error _ _ _ _ ?_
        rw [afterRead_trace, hm]
      · rw [if_neg hd, if_neg hd]
        refine agrees_ok _ _ _ _ ?_ ?_ ?_ ?_
        · rw [afterRead_trace, hm]
        · rw [afterRead_dataFromFPGA, hm]
        · rw [afterRead_ptr, hlen]; dsimp only; omega
        · rw [afterRead_fileName]; exact hname

theorem command_read_default_at (env : Env) {line : List Char} {st : State} (p : Nat)
    {cd rest : List Char}
    (hskip : skipSemicolons line st.ptr = p)
    (hdrop : line.drop p = 'r' :: (cd ++ rest))
    (hcne : cd ≠ []) (hcd : ∀ c ∈ cd, isHexDigit c = true)
    (hrest : rest.headD NUL = NUL ∨ rest.headD NUL = ';')
    (hW : 32 ≤ env.ulongBits) (hchan : hexValue cd ≤ 127) :
    command env line st = readExecute env (hexValue cd) 1
      { st with ptr := p + 1 + cd.length } := by
  have h1 : line.drop (p + 1) = cd ++ rest := by
    have := @drop_add_of_drop line p ['r'] (cd ++ rest) hdrop
    simpa using this
  have h2 : line.drop (p + 1 + cd.length) = rest := drop_add_of_drop h1
  have s1 := strtoul_run_small env h1 hcne hcd
    (hrest.elim Or.inl (fun h => Or.inr (Or.inl h))) hW (by omega)
  have p2 : peek line (p + 1 + cd.length) = rest.headD NUL := by rw [peek_eq_headD, h2]
  have hm : hexValue cd % 4294967296 = hexValue cd := Nat.mod_eq_of_lt (by omega)
  have hns : rest.headD NUL ≠ ' ' := by
    rcases hrest with h | h <;> rw [h] <;> decide
  have hok : ¬ (rest.headD NUL ≠ NUL ∧ rest.headD NUL ≠ ';' ∧ rest.headD NUL ≠ ' ') := by
    intro h'
    rcases hrest with h | h
    · exact h'.1 h
    · exact h'.2.1 h
  rw [command_at_r env hskip (peek_of_drop hdrop)]
  unfold caseRead
  dsimp only
  rw [s1]
  dsimp only
  rw [hm, p2, if_neg (by simp), if_neg (not_lt.mpr hchan), if_neg hok]
  unfold readOperands
  dsimp only
  rw [p2, if_neg hns, bind_ok]

theorem step_readOne (env : Env) (hW : 32 ≤ env.ulongBits) (line : List Char) (st : State)
    (p chan : Nat) (rest : List Char)
    (hskip : skipSemicolons line st.ptr = p)
    (hdrop : line.drop p = (ChainCmd.readOne chan).text ++ rest)
    (hrest : rest.headD NUL = NUL ∨ rest.headD NUL = ';')
    (hwf : (ChainCmd.readOne chan).wellFormed) (hname : st.fileName = none) :
    Agrees (command env line st)
      (specStep env (.readOne chan) st.trace st.dataFromFPGA)
      (p + (ChainCmd.readOne chan).text.length) := by
  have hc32 : chan < 2 ^ 32 := hwf
  obtain ⟨cne, chex, cval⟩ := toDigits_hex chan
  have hdrop' : line.drop p = 'r' :: (Nat.toDigits 16 chan ++ rest) := by
    rw [hdrop]; simp [ChainCmd.text]
  have hlen : (ChainCmd.readOne chan).text.length = 1 + (Nat.toDigits 16 chan).length := by
    simp [ChainCmd.text]; omega
  unfold specStep
  dsimp only
  by_cases hchan : chan > 127
  · rw [if_pos hchan]
    have hr := @caseRead_range_at env line { st with ptr := p } (Nat.toDigits 16 chan)
      rest hdrop' cne chex (hrest.elim Or.inl (fun h => Or.inr (Or.inl h))) hW
      (by rw [cval]; exact hchan) (by rw [cval]; exact hc32)
    rw [command_at_r env hskip (peek_of_drop hdrop'), hr]
    exact agrees_error _ _ _ _ rfl
  · rw [if_neg hchan]
    have hcmd := command_read_default_at env p hskip hdrop' cne chex hrest hW
      (by rw [cval]; omega)
    rw [cval] at hcmd
    rw [readExecute_noFile env chan 1
      { st with ptr := p + 1 + (Nat.toDigits 16 chan).length } hname] at hcmd
    have hm : chan % 256 = chan := Nat.mod_eq_of_lt (by omega)
    rw [hm] at hcmd
    dsimp only at hcmd
    rw [hcmd]
    by_cases ha : env.bufAppendConst st.trace st.dataFromFPGA.length 1 ≠ 0
    · rw [if_pos ha, if_pos ha]
      exact agrees_error _ _ _ _ rfl
    · rw [if_neg ha, if_neg ha]
      by_cases hd : (env.flReadChannel st.trace TIMEOUT chan 1).1 ≠ 0
      · rw [if_pos hd, if_pos hd]
        refine agrees_error _ _ _ _ ?_
        rw [afterRead_trace, hm]
      · rw [if_neg hd, if_neg hd]
        refine agrees_ok _ _ _ _ ?_ ?_ ?_ ?_
        · rw [afterRead_trace, hm]
        · rw [afterRead_dataFromFPGA, hm]
        · rw [afterRead_ptr, hlen]; dsimp only; omega
        · rw [afterRead_fileName]; exact hname

theorem step_readTo (env : Env) (hW : 32 ≤ env.ulongBits)
    (hmalloc : ∀ tr n, env.mallocFileName tr n = true)
    (hfwrite : ∀ tr nm data count, env.fwrite tr nm data count ≤ count)
    (line : List Char) (st : State)
    (p chan length : Nat) (q : Char) (name rest : List Char)
    (hskip : skipSemicolons line st.ptr = p)
    (hdrop : line.drop p = (ChainCmd.readTo chan length q name).text ++ rest)
    (hwf : (ChainCmd.readTo chan length q name).wellFormed) :
    Agrees (command env line st)
      (specStep env (.readTo chan length q name) st.trace st.dataFromFPGA)
      (p + (ChainCmd.readTo chan length q name).text.length) := by
  obtain ⟨hc32, hl32, hq, hne, hnm⟩ := hwf
  obtain ⟨cne, chex, cval⟩ := toDigits_hex chan
  obtain ⟨lne, lhex, lval⟩ := toDigits_hex length
  have hdrop' : line.drop p =
      'r' :: (Nat.toDigits 16 chan ++ ' ' :: (Nat.toDigits 16 length ++
        ' ' :: q :: (name ++ q :: rest))) := by
    rw [hdrop]; simp [ChainCmd.text]
  have hlen : (ChainCmd.readTo chan length q name).text.length =
      1 + (Nat.toDigits 16 chan).length + 1 + (Nat.toDigits 16 length).length + 1 + 1 +
        name.length + 1 := by
    simp [ChainCmd.text]; omega
  unfold specStep
  dsimp only
  by_cases hchan : chan > 127
  · rw [if_pos hchan]
    have hr := @caseRead_range_at env line { st with ptr := p } (Nat.toDigits 16 chan)
      (' ' :: (Nat.toDigits 16 length ++ ' ' :: q :: (name ++ q :: rest))) hdrop'
      cne chex (Or.inr (Or.inr rfl)) hW (by rw [cval]; exact hchan) (by rw [cval]; exact hc32)
    rw [command_at_r env hskip (peek_of_drop hdrop'), hr]
    exact agrees_error _ _ _ _ rfl
  · rw [if_neg hchan]
    have hcmd := command_read_file env p hskip hdrop' cne chex lne lhex hW
      (by rw [cval]; omega) (by rw [lval]; exact hl32) hq hne hnm (hmalloc _ _)
    rw [cval, lval] at hcmd
    rw [readExecute_file env chan length _ name rfl] at hcmd
    have hm : chan % 256 = chan := Nat.mod_eq_of_lt (by omega)
    have hl' : length < 4294967296 := by omega
    dsimp only at hcmd
    rw [hm] at hcmd
    simp only [benchmark_trace] at hcmd
    rw [hcmd]
    by_cases hd : (env.flReadChannel st.trace TIMEOUT chan length).1 ≠ 0
    · rw [if_pos hd, if_pos hd]
      refine agrees_error _ _ _ _ ?_
      rw [benchmark_trace]
    · rw [if_neg hd, if_neg hd]
      cases hop : env.fopen (st.trace ++ [Event.flReadChannel TIMEOUT chan length none
          (env.flReadChannel st.trace TIMEOUT chan length).1
          (overwrite (List.replicate length 0)
            (env.flReadChannel st.trace TIMEOUT chan length).2)]) name with
      | false =>
        simp only [if_true]
        exact agrees_error _ _ _ _ rfl
      | true =>
        simp only [Bool.true_eq_false, if_false]
        have hle := hfwrite (st.trace ++ [Event.flReadChannel TIMEOUT chan length none
          (env.flReadChannel st.trace TIMEOUT chan length).1
          (overwrite (List.replicate length 0)
            (env.flReadChannel st.trace TIMEOUT chan length).2)] ++
          [Event.fopen name true]) name (overwrite (List.replicate length 0)
            (env.flReadChannel st.trace TIMEOUT chan length).2) length
        rw [Nat.mod_eq_of_lt (by omega)]
        by_cases hw : env.fwrite (st.trace ++ [Event.flReadChannel TIMEOUT chan length none
          (env.flReadChannel st.trace TIMEOUT chan length).1
          (overwrite (List.replicate length 0)
            (env.flReadChannel st.trace TIMEOUT chan length).2)] ++
          [Event.fopen name true]) name (overwrite (List.replicate length 0)
            (env.flReadChannel st.trace TIMEOUT chan length).2) length ≠ length
        · rw [if_pos hw, if_pos hw]
          exact agrees_error _ _ _ _ rfl
        · rw [if_neg hw, if_neg hw]
          refine agrees_ok _ _ _ _ rfl ?_ ?_ rfl
          · dsimp only
            rw [benchmark_dataFromFPGA]
          · dsimp only
            rw [benchmark_ptr, hlen]
            dsimp only
            omega

theorem caseWrite_range_at (env : Env) {line : List Char} {st : State} {ds rest : List Char}
    (hdrop : line.drop st.ptr = 'w' :: (ds ++ rest))
    (hne : ds ≠ []) (hds : ∀ c ∈ ds, isHexDigit c = true)
    (hrest : rest.headD NUL = NUL ∨ rest.headD NUL = ';' ∨ rest.headD NUL = ' ')
    (hW : 32 ≤ env.ulongBits) (hlo : 127 < hexValue ds) (hhi : hexValue ds < 2 ^ 32) :
    caseWrite env line st = .error (FLP_CHAN_RANGE, { st with ptr := st.ptr + 1 }) := by
  have h1 : line.drop (st.ptr + 1) = ds ++ rest := by
    have := @drop_add_of_drop line st.ptr ['w'] (ds ++ rest) hdrop
    simpa using this
  have s1 := strtoul_run_small env h1 hne hds hrest hW hhi
  unfold caseWrite
  dsimp only
  rw [s1]
  dsimp only
  rw [if_neg (by simp), if_pos hlo]

theorem casePlus_range_at (env : Env) {line : List Char} {st : State} {ds rest : List Char}
    (hdrop : line.drop st.ptr = '+' :: (ds ++ rest))
    (hne : ds ≠ []) (hds : ∀ c ∈ ds, isHexDigit c = true)
    (hrest : rest.headD NUL = NUL ∨ rest.headD NUL = ';' ∨ rest.headD NUL = ' ')
    (hW : 32 ≤ env.ulongBits) (hlo : 255 < hexValue ds) (hhi : hexValue ds < 2 ^ 32) :
    casePlus env line st = .error (FLP_CONDUIT_RANGE, { st with ptr := st.ptr + 1 }) := by
  have h1 : line.drop (st.ptr + 1) = ds ++ rest := by
    have := @drop_add_of_drop line st.ptr ['+'] (ds ++ rest) hdrop
    simpa using this
  have s1 := strtoul_run_small env h1 hne hds hrest hW hhi
  have hm : hexValue ds % 4294967296 = hexValue ds := Nat.mod_eq_of_lt (by omega)
  unfold casePlus
  dsimp only
  rw [s1]
  dsimp only
  rw [hm, if_neg (by simp), if_pos hlo]

theorem step_write (env : Env) (hW : 32 ≤ env.ulongBits) (line : List Char) (st : State)
    (p chan : Nat) (digits rest : List Char)
    (hskip : skipSemicolons line st.ptr = p)
    (hdrop : line.drop p = (ChainCmd.write chan digits).text ++ rest)
    (hrest : rest.headD NUL = NUL ∨ rest.headD NUL = ';')
    (hwf : (ChainCmd.write chan digits).wellFormed) (hname : st.fileName = none) :
    Agrees (command env line st)
      (specStep env (.write chan digits) st.trace st.dataFromFPGA)
      (p + (ChainCmd.write chan digits).text.length) := by
  obtain ⟨hc32, hne, hds, hl32⟩ := hwf
  obtain ⟨cne, chex, cval⟩ := toDigits_hex chan
  have hdrop' : line.drop p = 'w' :: (Nat.toDigits 16 chan ++ ' ' :: (digits ++ rest)) := by
    rw [hdrop]; simp [ChainCmd.text]
  have hlen : (ChainCmd.write chan digits).text.length =
      1 + (Nat.toDigits 16 chan).length + 1 + digits.length := by
    simp [ChainCmd.text]; omega
  have hnh : isHexDigit (rest.headD NUL) = false := by
    rcases hrest with h | h <;> rw [h] <;> decide
  unfold specStep
  dsimp only
  rw [command_write_at env hskip (peek_of_drop hdrop')]
  by_cases hchan : chan > 127
  · rw [if_pos hchan]
    have hr := @caseWrite_range_at env line { st with ptr := p } (Nat.toDigits 16 chan)
      (' ' :: (digits ++ rest)) hdrop' cne chex (Or.inr (Or.inr rfl)) hW
      (by rw [cval]; exact hchan) (by rw [cval]; exact hc32)
    rw [hr]
    exact agrees_error _ _ _ _ rfl
  · rw [if_neg hchan]
    have hc := @caseWrite_hex env line { st with ptr := p } (Nat.toDigits 16 chan) digits rest
      hdrop' cne chex hne hds hnh hW (by rw [cval]; omega) hl32
    rw [cval] at hc
    rw [hc]
    by_cases hodd : digits.length % 2 ≠ 0
    · rw [if_pos hodd, if_pos hodd]
      exact agrees_error _ _ _ _ rfl
    · rw [if_neg hodd, if_neg hodd]
      dsimp only
      by_cases hs : env.flWriteChannel st.trace TIMEOUT chan (digits.length / 2)
          (some (hexPairs digits)) ≠ 0
      · rw [if_pos hs, if_pos hs]
        refine agrees_error _ _ _ _ ?_
        rw [benchmark_trace]
      · rw [if_neg hs, if_neg hs]
        refine agrees_ok _ _ _ _ ?_ ?_ ?_ ?_
        · dsimp only; rw [benchmark_trace]
        · dsimp only; rw [benchmark_dataFromFPGA]
        · dsimp only; rw [benchmark_ptr, hlen]; dsimp only; omega
        · dsimp only; rw [benchmark_fileName]; exact hname

theorem writeOperands_quoted_none (env : Env) {line : List Char} {st : State} {q : Char}
    {name rest : List Char}
    (hdrop : line.drop st.ptr = ' ' :: q :: (name ++ q :: rest))
    (hquote : q = DQUOTE ∨ q = SQUOTE)
    (hne : name ≠ []) (hname : ∀ c ∈ name, c ≠ q ∧ c ≠ NUL)
    (hmalloc : env.mallocFileName st.trace (name.length + 1) = true)
    (hload : env.flLoadFile st.trace name = none) :
    ∃ st', writeOperands env line st = .error (FLP_CANNOT_LOAD, st') ∧
      st'.trace = st.trace ++ [Event.flLoadFile name none] := by
  have h1 : line.drop (st.ptr + 1) = q :: (name ++ q :: rest) := by
    have := @drop_add_of_drop line st.ptr [' '] (q :: (name ++ q :: rest)) hdrop
    simpa using this
  have p0 : peek line st.ptr = ' ' := peek_of_drop hdrop
  have p1 : peek line (st.ptr + 1) = q := peek_of_drop h1
  have hq : q ≠ NUL := by rcases hquote with h | h <;> rw [h] <;> decide
  have qf := @quotedFileName_run env line { st with ptr := st.ptr + 1 } q name rest h1 hne
    hname hq hmalloc
  unfold writeOperands
  dsimp only
  rw [p0, if_pos rfl, p1, if_pos hquote, qf, bind_ok]
  dsimp only
  rw [Option.getD_some, hload]
  exact ⟨_, rfl, rfl⟩

theorem step_writeFrom (env : Env) (hW : 32 ≤ env.ulongBits)
    (hmalloc : ∀ tr n, env.mallocFileName tr n = true)
    (hload : ∀ tr nm bytes, env.flLoadFile tr nm = some bytes → bytes.length < 2 ^ 32)
    (line : List Char) (st : State)
    (p chan : Nat) (q : Char) (name rest : List Char)
    (hskip : skipSemicolons line st.ptr = p)
    (hdrop : line.drop p = (ChainCmd.writeFrom chan q name).text ++ rest)
    (hwf : (ChainCmd.writeFrom chan q name).wellFormed) :
    Agrees (command env line st)
      (specStep env (.writeFrom chan q name) st.trace st.dataFromFPGA)
      (p + (ChainCmd.writeFrom chan q name).text.length) := by
  obtain ⟨hc32, hq, hne, hnm⟩ := hwf
  obtain ⟨cne, chex, cval⟩ := toDigits_hex chan
  have hdrop' : line.drop p =
      'w' :: (Nat.toDigits 16 chan ++ ' ' :: q :: (name ++ q :: rest)) := by
    rw [hdrop]; simp [ChainCmd.text]
  have hlen : (ChainCmd.writeFrom chan q name).text.length =
      1 + (Nat.toDigits 16 chan).length + 1 + 1 + name.length + 1 := by
    simp [ChainCmd.text]; omega
  have h1 : line.drop (p + 1) = Nat.toDigits 16 chan ++ ' ' :: q :: (name ++ q :: rest) := by
    have := @drop_add_of_drop line p ['w']
      (Nat.toDigits 16 chan ++ ' ' :: q :: (name ++ q :: rest)) hdrop'
    simpa using this
  have h2 : line.drop (p + 1 + (Nat.toDigits 16 chan).length) =
      ' ' :: q :: (name ++ q :: rest) := drop_add_of_drop h1
  unfold specStep
  dsimp only
  rw [command_write_at env hskip (peek_of_drop hdrop')]
  by_cases hchan : chan > 127
  · rw [if_pos hchan]
    have hr := @caseWrite_range_at env line { st with ptr := p } (Nat.toDigits 16 chan)
      (' ' :: q :: (name ++ q :: rest)) hdrop' cne chex (Or.inr (Or.inr rfl)) hW
      (by rw [cval]; exact hchan) (by rw [cval]; exact hc32)
    rw [hr]
    exact agrees_error _ _ _ _ rfl
  · rw [if_neg hchan]
    have s1 := strtoul_run_small env h1 cne chex (Or.inr (Or.inr rfl)) hW
      (by rw [cval]; exact hc32)
    rw [cval] at s1
    have p2 : peek line (p + 1 + (Nat.toDigits 16 chan).length) = ' ' := peek_of_drop h2
    have hm : chan % 256 = chan := Nat.mod_eq_of_lt (by omega)
    unfold caseWrite
    dsimp only
    rw [s1]
    dsimp only
    rw [p2, if_neg (by simp), if_neg hchan, if_neg (by simp)]
    cases hl : env.flLoadFile st.trace name with
    | none =>
      obtain ⟨st', hwo, htr⟩ := @writeOperands_quoted_none env line
        { st with ptr := p + 1 + (Nat.toDigits 16 chan).length } q name rest h2 hq hne hnm
        (hmalloc _ _) hl
      rw [hwo, bind_error]
      exact agrees_error _ _ _ _ htr
    | some bytes =>
      have hb : bytes.length % 4294967296 = bytes.length :=
        Nat.mod_eq_of_lt (by have := hload _ _ _ hl; omega)
      have wo := @writeOperands_quoted env line
        { st with ptr := p + 1 + (Nat.toDigits 16 chan).length } q name rest bytes h2 hq hne
        hnm (hmalloc _ _) hl
      rw [wo, bind_ok]
      dsimp only
      rw [hm, hb]
      by_cases hs : env.flWriteChannel (st.trace ++ [Event.flLoadFile name (some bytes)])
          TIMEOUT chan bytes.length (some bytes) ≠ 0
      · rw [if_pos hs, if_pos hs]
        refine agrees_error _ _ _ _ ?_
        rw [benchmark_trace]
      · rw [if_neg hs, if_neg hs]
        refine agrees_ok _ _ _ _ ?_ ?_ ?_ ?_
        · dsimp only; rw [benchmark_trace]
        · dsimp only; rw [benchmark_dataFromFPGA]
        · dsimp only; rw [benchmark_ptr, hlen]; dsimp only; omega
        · dsimp only; rw [benchmark_fileName]

theorem step_conduit (env : Env) (hW : 32 ≤ env.ulongBits) (line : List Char) (st : State)
    (p n : Nat) (rest : List Char)
    (hskip : skipSemicolons line st.ptr = p)
    (hdrop : line.drop p = (ChainCmd.conduit n).text ++ rest)
    (hrest : rest.headD NUL = NUL ∨ rest.headD NUL = ';')
    (hwf : (ChainCmd.conduit n).wellFormed) (hname : st.fileName = none) :
    Agrees (command env line st)
      (specStep env (.conduit n) st.trace st.dataFromFPGA)
      (p + (ChainCmd.conduit n).text.length) := by
  have hn32 : n < 2 ^ 32 := hwf
  obtain ⟨cne, chex, cval⟩ := toDigits_hex n
  have hdrop' : line.drop p = '+' :: (Nat.toDigits 16 n ++ rest) := by
    rw [hdrop]; simp [ChainCmd.text]
  have hlen : (ChainCmd.conduit n).text.length = 1 + (Nat.toDigits 16 n).length := by
    simp [ChainCmd.text]; omega
  unfold specStep
  dsimp only
  by_cases hbig : n > 255
  · rw [if_pos hbig]
    have hr := @casePlus_range_at env line { st with ptr := p } (Nat.toDigits 16 n) rest
      hdrop' cne chex (hrest.elim Or.inl (fun h => Or.inr (Or.inl h))) hW
      (by rw [cval]; exact hbig) (by rw [cval]; exact hn32)
    rw [command_at_plus env hskip (peek_of_drop hdrop'), hr]
    exact agrees_error _ _ _ _ rfl
  · rw [if_neg hbig]
    have hcmd := command_plus_at env p hskip hdrop' cne chex hrest hW (by rw [cval]; omega)
    have hm : n % 256 = n := Nat.mod_eq_of_lt (by omega)
    rw [cval, hm] at hcmd
    rw [hcmd]
    unfold afterFifo
    dsimp only
    rw [hm]
    by_cases hs : env.flFifoMode st.trace n ≠ 0
    · rw [if_pos hs, if_pos hs]
      exact agrees_error _ _ _ _ rfl
    · rw [if_neg hs, if_neg hs]
      exact agrees_ok _ _ _ _ rfl rfl (by dsimp only; rw [hlen]; omega) hname

theorem step_unknown (env : Env) (line : List Char) (st : State)
    (p : Nat) (letter : Char) (rest : List Char)
    (hskip : skipSemicolons line st.ptr = p)
    (hdrop : line.drop p = (ChainCmd.unknown letter).text ++ rest)
    (hwf : (ChainCmd.unknown letter).wellFormed) :
    Agrees (command env line st)
      (specStep env (.unknown letter) st.trace st.dataFromFPGA)
      (p + (ChainCmd.unknown letter).text.length) := by
  obtain ⟨h1, h2, h3, -, -⟩ := hwf
  have hp : peek line p = letter := peek_of_drop hdrop
  unfold command specStep
  dsimp only
  rw [hskip, hp, if_neg h1, if_neg h2, if_neg h3]
  exact agrees_error _ _ _ _ rfl

/-- One command of an action string, wherever it stands, does what the
specification's account of it says. -/
theorem step_agrees (env : Env) (hW : 32 ≤ env.ulongBits)
    (hmalloc : ∀ tr n, env.mallocFileName tr n = true)
    (hfwrite : ∀ tr nm data count, env.fwrite tr nm data count ≤ count)
    (hload : ∀ tr nm bytes, env.flLoadFile tr nm = some bytes → bytes.length < 2 ^ 32)
    (line : List Char) (st : State) (p : Nat) (cmd : ChainCmd) (rest : List Char)
    (hskip : skipSemicolons line st.ptr = p)
    (hdrop : line.drop p = cmd.text ++ rest)
    (hrest : rest.headD NUL = NUL ∨ rest.headD NUL = ';')
    (hwf : cmd.wellFormed) (hname : st.fileName = none) :
    Agrees (command env line st) (specStep env cmd st.trace st.dataFromFPGA)
      (p + cmd.text.length) := by
  cases cmd with
  | read chan length =>
    exact step_read env hW line st p chan length rest hskip hdrop hrest hwf hname
  | readOne chan => exact step_readOne env hW line st p chan rest hskip hdrop hrest hwf hname
  | readTo chan length q name =>
    exact step_readTo env hW hmalloc hfwrite line st p chan length q name rest hskip hdrop hwf
  | write chan digits =>
    exact step_write env hW line st p chan digits rest hskip hdrop hrest hwf hname
  | writeFrom chan q name =>
    exact step_writeFrom env hW hmalloc hload line st p chan q name rest hskip hdrop hwf
  | conduit n => exact step_conduit env hW line st p n rest hskip hdrop hrest hwf hname
  | unknown letter => exact step_unknown env line st p letter rest hskip hdrop hwf

theorem text_head (cmd : ChainCmd) (hwf : cmd.wellFormed) :
    ∃ c tl, cmd.text = c :: tl ∧ c ≠ ';' := by
  cases cmd with
  | read chan length => exact ⟨'r', _, rfl, by decide⟩
  | readOne chan => exact ⟨'r', _, rfl, by decide⟩
  | readTo chan length q name => exact ⟨'r', _, rfl, by decide⟩
  | write chan digits => exact ⟨'w', _, rfl, by decide⟩
  | writeFrom chan q name => exact ⟨'w', _, rfl, by decide⟩
  | conduit n => exact ⟨'+', _, rfl, by decide⟩
  | unknown letter => exact ⟨letter, [], rfl, hwf.2.2.2.1⟩

theorem chainText_single (cmd : ChainCmd) : chainText [cmd] = cmd.text := rfl

theorem chainText_cons (cmd next : ChainCmd) (rest : List ChainCmd) :
    chainText (cmd :: next :: rest) = cmd.text ++ ';' :: chainText (next :: rest) := rfl

theorem chainText_head (cmd : ChainCmd) (cs : List ChainCmd) (hwf : cmd.wellFormed) :
    ∃ c tl, chainText (cmd :: cs) = c :: tl ∧ c ≠ ';' := by
  obtain ⟨c, tl, ht, hc⟩ := text_head cmd hwf
  cases cs with
  | nil => exact ⟨c, tl, ht, hc⟩
  | cons next rest =>
    refine ⟨c, tl ++ ';' :: chainText (next :: rest), ?_, hc⟩
    rw [chainText_cons, ht]
    rfl

theorem length_chainText (cs : List ChainCmd) (hwf : ∀ c ∈ cs, c.wellFormed) :
    cs.length ≤ (chainText cs).length := by
  induction cs with
  | nil => exact Nat.le_refl _
  | cons cmd cs ih =>
    obtain ⟨c, tl, ht, -⟩ := text_head cmd (hwf cmd (by simp))
    cases cs with
    | nil => rw [chainText_single, ht]; simp
    | cons next rest =>
      have := ih (fun c hc => hwf c (by simp [hc]))
      rw [chainText_cons, ht]
      simp only [List.length_cons, List.length_append] at this ⊢
      omega

theorem skip_one {line : List Char} {q : Nat} {c : Char} {tl : List Char}
    (hdrop : line.drop q = ';' :: c :: tl) (hc : c ≠ ';') :
    skipSemicolons line q = q + 1 := by
  unfold skipSemicolons
  rw [hdrop, List.takeWhile_cons, List.takeWhile_cons]
  simp [hc]

theorem specChain_single (env : Env) (cmd : ChainCmd) (trace : List Event) (acc : List Nat) :
    specChain env [cmd] trace acc = specStep env cmd trace acc := by
  unfold specChain
  cases specStep env cmd trace acc with
  | error e => rfl
  | ok next => rfl

theorem agrees_error_ptr {e : ReturnCode × State}
    {spec : Except (ReturnCode × List Event) (List Event × List Nat)} {p : Nat} (q : Nat)
    (h : Agrees (.error e) spec p) : Agrees (.error e) spec q := by
  obtain ⟨code, st⟩ := e
  cases spec with
  | error f => exact h
  | ok nx => exact h.elim

/-- The loop of `parseLine` on the text of a chain does what the
specification's account of the chain says. -/
theorem chain_agrees (env : Env) (hW : 32 ≤ env.ulongBits)
    (hmalloc : ∀ tr n, env.mallocFileName tr n = true)
    (hfwrite : ∀ tr nm data count, env.fwrite tr nm data count ≤ count)
    (hload : ∀ tr nm bytes, env.flLoadFile tr nm = some bytes → bytes.length < 2 ^ 32)
    (line : List Char) :
    ∀ (cs : List ChainCmd) (st : State) (p : Nat), cs ≠ [] → (∀ c ∈ cs, c.wellFormed) →
      st.fileName = none → skipSemicolons line st.ptr = p → line.drop p = chainText cs →
      ∃ out, parseLoop env line cs.length st = some out ∧
        Agrees out (specChain env cs st.trace st.dataFromFPGA) line.length := by
  intro cs
  induction cs with
  | nil => intro st p h; exact absurd rfl h
  | cons cmd cs ih =>
    intro st p _ hwf hname hskip hdrop
    have hlt : p < line.length := by
      obtain ⟨c, tl, ht, -⟩ := chainText_head cmd cs (hwf cmd (by simp))
      rw [ht] at hdrop
      by_contra hge
      rw [List.drop_eq_nil_of_le (by omega)] at hdrop
      exact List.noConfusion hdrop
    cases cs with
    | nil =>
      rw [chainText_single] at hdrop
      have hstep := step_agrees env hW hmalloc hfwrite hload line st p cmd [] hskip
        (by rw [hdrop, List.append_nil]) (Or.inl rfl) (hwf cmd (by simp)) hname
      have hend : p + cmd.text.length = line.length := by
        have := congrArg List.length hdrop
        rw [List.length_drop] at this
        omega
      rw [specChain_single]
      cases hc : command env line st with
      | error e =>
        rw [hc] at hstep
        exact ⟨_, parseLoop_error 0 hc, agrees_error_ptr _ hstep⟩
      | ok st' =>
        rw [hc] at hstep
        cases hs : specStep env cmd st.trace st.dataFromFPGA with
        | error e => rw [hs] at hstep; exact hstep.elim
        | ok next =>
          rw [hs] at hstep
          obtain ⟨h1, h2, h3, h4⟩ := hstep
          have hpk : peek line st'.ptr = NUL := peek_of_length_le (by omega)
          refine ⟨_, parseLoop_last 0 hc (by rw [hpk]; decide), ?_⟩
          exact ⟨h1, h2, by omega, h4⟩
    | cons next rest =>
      rw [chainText_cons] at hdrop
      obtain ⟨c, tl, ht, hcne⟩ := chainText_head next rest (hwf next (by simp))
      have hstep := step_agrees env hW hmalloc hfwrite hload line st p cmd
        (';' :: chainText (next :: rest)) hskip hdrop (Or.inr rfl) (hwf cmd (by simp)) hname
      have hd2 : line.drop (p + cmd.text.length) = ';' :: chainText (next :: rest) :=
        drop_add_of_drop hdrop
      cases hc : command env line st with
      | error e =>
        rw [hc] at hstep
        refine ⟨_, parseLoop_error _ hc, ?_⟩
        unfold specChain
        cases hs : specStep env cmd st.trace st.dataFromFPGA with
        | error e' => rw [hs] at hstep; rw [bind_error]; exact agrees_error_ptr _ hstep
        | ok nx =>
          rw [hs] at hstep
          obtain ⟨code, st'⟩ := e
          exact hstep.elim
      | ok st' =>
        rw [hc] at hstep
        unfold specChain
        cases hs : specStep env cmd st.trace st.dataFromFPGA with
        | error e => rw [hs] at hstep; exact hstep.elim
        | ok nx =>
          rw [hs] at hstep
          obtain ⟨h1, h2, h3, h4⟩ := hstep
          rw [bind_ok]
          have hd3 : line.drop st'.ptr = ';' :: c :: tl := by rw [h3, hd2, ht]
          have hd4 : line.drop (st'.ptr + 1) = chainText (next :: rest) := by
            have := @drop_add_of_drop line st'.ptr [';'] (c :: tl) hd3
            rw [ht]
            simpa using this
          obtain ⟨out, ho, ha⟩ := ih st' (st'.ptr + 1) (by simp)
            (fun x hx => hwf x (by simp only [List.mem_cons] at hx ⊢; exact Or.inr hx)) h4
            (skip_one hd3 hcne) hd4
          rw [h1, h2] at ha
          refine ⟨out, ?_, ha⟩
          rw [List.length_cons, parseLoop_continue _ hc (peek_of_drop hd3)]
          exact ho

theorem specChain_nil (env : Env) (trace : List Event) (acc : List Nat) :
    specChain env [] trace acc = .ok (trace, acc) := rfl

theorem specChain_cons (env : Env) (cmd : ChainCmd) (rest : List ChainCmd)
    (trace : List Event) (acc : List Nat) :
    specChain env (cmd :: rest) trace acc =
      (specStep env cmd trace acc).bind fun next => specChain env rest next.1 next.2 := rfl

/-- When the commands before `cmd` succeed and `cmd` fails, the chain fails
with the error of `cmd`, whatever follows it. -/
theorem specChain_first_error (env : Env) (cmd : ChainCmd) (post : List ChainCmd)
    (e : ReturnCode × List Event) :
    ∀ (pre : List ChainCmd) (trace : List Event) (acc : List Nat) (tr : List Event)
      (bytes : List Nat),
      specChain env pre trace acc = .ok (tr, bytes) → specStep env cmd tr bytes = .error e →
      specChain env (pre ++ cmd :: post) trace acc = .error e := by
  intro pre
  induction pre with
  | nil =>
    intro trace acc tr bytes h1 h2
    rw [specChain_nil] at h1
    have h := Except.ok.inj h1
    rw [Prod.mk.injEq] at h
    rw [List.nil_append, specChain_cons, h.1, h.2, h2]
    rfl
  | cons c pre ih =>
    intro trace acc tr bytes h1 h2
    rw [specChain_cons] at h1
    rw [List.cons_append, specChain_cons]
    cases hs : specStep env c trace acc with
    | error f => rw [hs] at h1; exact Except.noConfusion h1
    | ok nx =>
      rw [hs, bind_ok] at h1
      rw [bind_ok]
      exact ih nx.1 nx.2 tr bytes h1 h2

theorem specStep_error_code (env : Env) (cmd : ChainCmd) (trace : List Event) (acc : List Nat)
    (code : ReturnCode) (tr : List Event)
    (h : specStep env cmd trace acc = .error (code, tr)) : code ≠ FLP_SUCCESS := by
  have key : ∀ (c : ReturnCode) (t : List Event),
      (Except.error (c, t) : Except (ReturnCode × List Event) (List Event × List Nat)) =
        .error (code, tr) → c ≠ FLP_SUCCESS → code ≠ FLP_SUCCESS := by
    intro c t he hc
    have h' := Except.error.inj he
    rw [Prod.mk.injEq] at h'
    rw [← h'.1]
    exact hc
  unfold specStep at h
  cases cmd with
  | read chan length =>
    dsimp only at h
    split_ifs at h <;> exact key _ _ h (by decide)
  | readOne chan =>
    dsimp only at h
    split_ifs at h <;> exact key _ _ h (by decide)
  | readTo chan length q name =>
    dsimp only at h
    split_ifs at h <;> exact key _ _ h (by decide)
  | write chan digits =>
    dsimp only at h
    split_ifs at h <;> exact key _ _ h (by decide)
  | writeFrom chan q name =>
    dsimp only at h
    cases hl : env.flLoadFile trace name with
    | none =>
      rw [hl] at h
      split_ifs at h <;> exact key _ _ h (by decide)
    | some bytes =>
      rw [hl] at h
      dsimp only at h
      split_ifs at h <;> exact key _ _ h (by decide)
  | conduit n =>
    dsimp only at h
    split_ifs at h <;> exact key _ _ h (by decide)
  | unknown letter =>
    exact key _ _ h (by decide)

theorem specChain_error_code (env : Env) (code : ReturnCode) (tr : List Event) :
    ∀ (cs : List ChainCmd) (trace : List Event) (acc : List Nat),
      specChain env cs trace acc = .error (code, tr) → code ≠ FLP_SUCCESS := by
  intro cs
  induction cs with
  | nil => intro trace acc h; exact Except.noConfusion h
  | cons c cs ih =>
    intro trace acc h
    rw [specChain_cons] at h
    cases hs : specStep env c trace acc with
    | error f =>
      rw [hs, bind_error] at h
      obtain ⟨fc, ft⟩ := f
      have h' := Except.error.inj h
      rw [Prod.mk.injEq] at h'
      rw [← h'.1]
      exact specStep_error_code env c trace acc fc ft hs
    | ok nx =>
      rw [hs, bind_ok] at h
      exact ih nx.1 nx.2 h

/-- On the text of a chain of well-formed commands `parseLine` returns, with
the result and the calls of the specification's account of the chain. -/
theorem parseLine_chain (env : Env) (hW : 32 ≤ env.ulongBits)
    (hmalloc : ∀ tr n, env.mallocFileName tr n = true)
    (hfwrite : ∀ tr nm data count, env.fwrite tr nm data count ≤ count)
    (hload : ∀ tr nm bytes, env.flLoadFile tr nm = some bytes → bytes.length < 2 ^ 32)
    (cs : List ChainCmd) (hne : cs ≠ []) (hwf : ∀ c ∈ cs, c.wellFormed) :
    ∃ r, parseLine env (chainText cs) = some r ∧
      r.returnCode = (specOutcome env cs).1 ∧
      r.atCleanup.trace = (specOutcome env cs).2 := by
  by_cases hinit : env.bufInitialise = 0
  · obtain ⟨cmd, rest, rfl⟩ := List.exists_cons_of_ne_nil hne
    obtain ⟨c, tl, ht, hc⟩ := chainText_head cmd rest (hwf cmd (by simp))
    have hskip : skipSemicolons (chainText (cmd :: rest)) initialState.ptr = 0 := by
      have hpk : peek (chainText (cmd :: rest)) 0 = c := by
        apply peek_of_drop
        rw [List.drop_zero, ht]
      exact skipSemicolons_of_ne (by rw [show initialState.ptr = 0 from rfl, hpk]; exact hc)
    obtain ⟨out, ho, ha⟩ := chain_agrees env hW hmalloc hfwrite hload (chainText (cmd :: rest))
      (cmd :: rest) initialState 0 hne hwf rfl hskip (List.drop_zero _)
    have hfuel : (cmd :: rest).length +
        ((chainText (cmd :: rest)).length + 1 - (cmd :: rest).length) =
        (chainText (cmd :: rest)).length + 1 := by
      have := length_chainText (cmd :: rest) hwf
      omega
    have hloop := parseLoop_mono env (chainText (cmd :: rest)) _ initialState out ho
      ((chainText (cmd :: rest)).length + 1 - (cmd :: rest).length)
    rw [hfuel] at hloop
    unfold specOutcome
    rw [if_neg (by simp [hinit])]
    rw [show initialState.trace = [] from rfl, show initialState.dataFromFPGA = [] from rfl] at ha
    cases hout : out with
    | error e =>
      obtain ⟨code, st⟩ := e
      rw [hout] at ha hloop
      cases hs : specChain env (cmd :: rest) [] [] with
      | error f =>
        obtain ⟨fc, ft⟩ := f
        rw [hs] at ha
        exact ⟨_, parseLine_of_error hinit hloop, ha.1, ha.2⟩
      | ok nx => rw [hs] at ha; exact ha.elim
    | ok st =>
      rw [hout] at ha hloop
      cases hs : specChain env (cmd :: rest) [] [] with
      | error f => rw [hs] at ha; exact ha.elim
      | ok nx =>
        obtain ⟨tr, acc⟩ := nx
        rw [hs] at ha
        obtain ⟨h1, h2, h3, h4⟩ := ha
        refine ⟨_, parseLine_of_ok hinit hloop (peek_of_length_le (by omega)), rfl, ?_⟩
        rw [cleanup_atCleanup]
        dsimp only
        rw [h1, h2]
  · refine ⟨cleanup (chainText cs) FLP_LIBERR initialState, ?_, ?_, ?_⟩
    · unfold parseLine
      rw [if_pos hinit]
    · unfold specOutcome
      rw [if_pos hinit]
      rfl
    · unfold specOutcome
      rw [if_pos hinit]
      rfl

theorem parseLine_is_cleanup {env : Env} {line : List Char} {r : Result}
    (h : parseLine env line = some r) : ∃ code st, r = cleanup line code st := by
  rcases parseLine_cases h with ⟨-, h⟩ | ⟨code, st, -, h⟩ | ⟨st, -, -, h⟩ | ⟨st, -, -, h⟩
  · exact ⟨_, _, h⟩
  · exact ⟨_, _, h⟩
  · exact ⟨_, _, h⟩
  · exact ⟨_, _, h⟩

theorem parseLine_deviceOps {env : Env} {line : List Char} {r : Result}
    (h : parseLine env line = some r) :
    deviceOps r.final.trace = deviceOps r.atCleanup.trace := by
  obtain ⟨code, st, rfl⟩ := parseLine_is_cleanup h
  exact deviceOps_cleanup_any line code st

theorem parseLine_dumpCalls {env : Env} {line : List Char} {r : Result}
    (h : parseLine env line = some r) :
    dumpCalls r.final.trace = dumpCalls r.atCleanup.trace := by
  obtain ⟨code, st, rfl⟩ := parseLine_is_cleanup h
  exact cleanup_dumpCalls line code st

/-- C6. For every chain of one or more well-formed commands, written with `;`
between them (as `r0 4;r1 4;+0`), and every behaviour of the device, the buffer
library and the file system (with `unsigned long` of 32 bits or more, a `malloc`
that succeeds, an `fwrite` that reports no more than it was asked for and
files of less than 2^32 bytes),
`parseLine` returns and does what carrying the commands out from left to right
up to the first failure does: its result, the calls it has made on arrival at
`cleanup` and the device operations it has issued at `return` are those of
`specOutcome`, in the same order. In particular, when the commands before some
command `cmd` of the chain all succeed and `cmd` fails with `code` (a parse
error such as a channel above 127, or a failing device call), having made the
calls `tr'`, the result is `code` and the calls are exactly `tr'`: nothing of a
later command is issued. -/
theorem chain_runs_left_to_right_until_first_error (env : Env) (hW : 32 ≤ env.ulongBits)
    (hmalloc : ∀ tr n, env.mallocFileName tr n = true)
    (hfwrite : ∀ tr nm data count, env.fwrite tr nm data count ≤ count)
    (hload : ∀ tr nm bytes, env.flLoadFile tr nm = some bytes → bytes.length < 2 ^ 32)
    (cs : List ChainCmd) (hne : cs ≠ []) (hwf : ∀ c ∈ cs, c.wellFormed) :
    ∃ r, parseLine env (chainText cs) = some r ∧
      r.returnCode = (specOutcome env cs).1 ∧
      r.atCleanup.trace = (specOutcome env cs).2 ∧
      deviceOps r.final.trace = deviceOps (specOutcome env cs).2 ∧
      (∀ (pre : List ChainCmd) (cmd : ChainCmd) (post : List ChainCmd) (tr : List Event)
          (acc : List Nat) (code : ReturnCode) (tr' : List Event),
        env.bufInitialise = 0 → cs = pre ++ cmd :: post →
        specChain env pre [] [] = .ok (tr, acc) →
        specStep env cmd tr acc = .error (code, tr') →
        r.returnCode = code ∧ r.atCleanup.trace = tr' ∧
          deviceOps r.final.trace = deviceOps tr') := by
  obtain ⟨r, hr, hcode, htrace⟩ := parseLine_chain env hW hmalloc hfwrite hload cs hne hwf
  have hdev := parseLine_deviceOps hr
  refine ⟨r, hr, hcode, htrace, by rw [hdev, htrace], ?_⟩
  intro pre cmd post tr acc code tr' hinit hcs hpre hcmd
  have hchain := specChain_first_error env cmd post (code, tr') pre [] [] tr acc hpre hcmd
  have hout : specOutcome env cs = (code, tr') := by
    unfold specOutcome
    rw [if_neg (by simp [hinit]), hcs, hchain]
  rw [hout] at hcode htrace
  exact ⟨hcode, htrace, by rw [hdev, htrace]⟩

theorem chain_runs_left_to_right_until_first_error_witness :
    chainText [.read 0 4, .read 1 4, .conduit 0] = "r0 4;r1 4;+0".data ∧
    ∃ r, parseLine idealEnv "r0 4;r1 4;+0".data = some r ∧
      r.returnCode = FLP_SUCCESS ∧
      deviceOps r.final.trace =
        [Event.flReadChannel 600000 0 4 (some 0) 0 [0, 1, 2, 3],
         Event.flReadChannel 600000 1 4 (some 4) 0 [1, 2, 3, 4],
         Event.flFifoMode 0 0] := by
  obtain ⟨r, hr, hcode, -, hdev, -⟩ :=
    chain_runs_left_to_right_until_first_error idealEnv (by decide) (fun _ _ => rfl)
      (fun _ _ _ _ => Nat.le_refl _) (fun _ _ _ h => by cases h; decide)
      [.read 0 4, .read 1 4, .conduit 0] (by simp)
      (by simp [ChainCmd.wellFormed])
  exact ⟨rfl, r, hr, hcode, hdev⟩

/-- A chain whose second command has a parse error (channel 0x80), on a device
that works: the read of the first command is issued, the result is
`FLP_CHAN_RANGE`, and the conduit of the third command is never selected. The
chain of the specification on a device whose second read fails: the result is
`FLP_LIBERR` and the third command issues nothing. And a chain that writes a
file, reads one byte and then names channel 0xc8: the file is loaded and
written, the byte is read, and the last command issues nothing. -/
theorem chain_first_error_examples :
    chainText [.read 0 4, .read 128 4, .conduit 0] = "r0 4;r80 4;+0".data ∧
    specOutcome idealEnv [.read 0 4, .read 128 4, .conduit 0] =
      (FLP_CHAN_RANGE, [Event.flReadChannel 600000 0 4 (some 0) 0 [0, 1, 2, 3]]) ∧
    (parseLine idealEnv "r0 4;r80 4;+0".data).map
        (fun r => (r.returnCode, r.atCleanup.trace)) =
      some (FLP_CHAN_RANGE, [Event.flReadChannel 600000 0 4 (some 0) 0 [0, 1, 2, 3]]) ∧
    specOutcome secondReadFailsEnv [.read 0 4, .read 1 4, .conduit 0] =
      (FLP_LIBERR, [Event.flReadChannel 600000 0 4 (some 0) 0 [0, 1, 2, 3],
        Event.flReadChannel 600000 1 4 (some 4) 1 [0, 0, 0, 0]]) ∧
    (parseLine secondReadFailsEnv "r0 4;r1 4;+0".data).map
        (fun r => (r.returnCode, r.atCleanup.trace)) =
      some (FLP_LIBERR, [Event.flReadChannel 600000 0 4 (some 0) 0 [0, 1, 2, 3],
        Event.flReadChannel 600000 1 4 (some 4) 1 [0, 0, 0, 0]]) ∧
    chainText [.writeFrom 1 SQUOTE "in".data, .readOne 7, .readOne 200] =
      ("w1 ".data ++ SQUOTE :: ("in".data ++ SQUOTE :: ";r7;rc8".data)) ∧
    specOutcome idealEnv [.writeFrom 1 SQUOTE "in".data, .readOne 7, .readOne 200] =
      (FLP_CHAN_RANGE, [Event.flLoadFile "in".data (some [1, 2, 3]),
        Event.flWriteChannel 600000 1 3 (some [1, 2, 3]) 0,
        Event.flReadChannel 600000 7 1 (some 0) 0 [7]]) ∧
    (parseLine idealEnv ("w1 ".data ++ SQUOTE :: ("in".data ++ SQUOTE :: ";r7;rc8".data))).map
        (fun r => (r.returnCode, r.atCleanup.trace)) =
      some (FLP_CHAN_RANGE, [Event.flLoadFile "in".data (some [1, 2, 3]),
        Event.flWriteChannel 600000 1 3 (some [1, 2, 3]) 0,
        Event.flReadChannel 600000 7 1 (some 0) 0 [7]]) :=
  ⟨by rfl, by rfl, by rfl, by rfl, by rfl, by rfl, by rfl, by rfl⟩

theorem specOutcome_ok {env : Env} {cs : List ChainCmd} {tr : List Event} {acc : List Nat}
    (hinit : env.bufInitialise = 0) (hs : specChain env cs [] [] = .ok (tr, acc)) :
    specOutcome env cs = (FLP_SUCCESS, tr ++ [Event.dump 0 acc acc.length]) := by
  unfold specOutcome
  rw [if_neg (by simp [hinit]), hs]

theorem specOutcome_error {env : Env} {cs : List ChainCmd} {f : ReturnCode × List Event}
    (hinit : env.bufInitialise = 0) (hs : specChain env cs [] [] = .error f) :
    specOutcome env cs = f := by
  unfold specOutcome
  rw [if_neg (by simp [hinit]), hs]

/-- A chain whose last command fails: nothing is dumped, although the first
command read four bytes. -/
theorem dump_examples :
    (parseLine idealEnv "r0 4;r80".data).map
        (fun r => (r.returnCode, dumpCalls r.final.trace)) = some (FLP_CHAN_RANGE, []) ∧
    (parseLine idealEnv "r0 4;r1 2".data).map
        (fun r => (r.returnCode, dumpCalls r.final.trace)) =
      some (FLP_SUCCESS, [Event.dump 0 [0, 1, 2, 3, 1, 2] 6]) ∧
    (parseLine idealEnv ("r0 4 ".data ++ DQUOTE :: 'f' :: [DQUOTE])).map
        (fun r => (r.returnCode, dumpCalls r.final.trace)) =
      some (FLP_SUCCESS, [Event.dump 0 [] 0]) :=
  ⟨by rfl, by rfl, by rfl⟩

theorem strtoul_none_glibc (env : Env) (line : List Char) (q : Nat)
    (hE : env.strtoulEinval = false)
    (hend : peek line q = NUL ∨ peek line q = ';') :
    strtoul env line q = { value := 0, endp := q, errno := 0 } := by
  have s1 := strtoul_none env line q (by rcases hend with h | h <;> rw [h] <;> decide)
    (by rcases hend with h | h <;> rw [h] <;> decide)
    (by rcases hend with h | h <;> rw [h] <;> decide)
    (by rcases hend with h | h <;> rw [h] <;> decide)
  rw [hE] at s1
  simpa using s1

theorem not_continuation {c : Char} (h : c = NUL ∨ c = ';') :
    ¬ (c ≠ NUL ∧ c ≠ ';' ∧ c ≠ ' ') := by
  intro h'
  rcases h with h | h
  · exact h'.1 h
  · exact h'.2.1 h

theorem ne_space {c : Char} (h : c = NUL ∨ c = ';') : c ≠ ' ' := by
  rcases h with h | h <;> rw [h] <;> decide

theorem command_read_bare_glibc (env : Env) (line : List Char) (st : State) (p : Nat)
    (hE : env.strtoulEinval = false) (hskip : skipSemicolons line st.ptr = p)
    (hletter : peek line p = 'r')
    (hend : peek line (p + 1) = NUL ∨ peek line (p + 1) = ';') :
    command env line st = readExecute env 0 1 { st with ptr := p + 1 } := by
  have s1 := strtoul_none_glibc env line (p + 1) hE hend
  unfold command
  dsimp only
  rw [hskip, if_pos hletter]
  unfold caseRead
  dsimp only
  rw [s1]
  dsimp only
  rw [if_neg (by simp), if_neg (by decide), if_neg (not_continuation hend)]
  unfold readOperands
  dsimp only
  rw [if_neg (ne_space hend), bind_ok]

theorem command_write_bare_glibc (env : Env) (line : List Char) (st : State) (p : Nat)
    (hE : env.strtoulEinval = false) (hskip : skipSemicolons line st.ptr = p)
    (hletter : peek line p = 'w')
    (hend : peek line (p + 1) = NUL ∨ peek line (p + 1) = ';') :
    command env line st =
      if env.flWriteChannel st.trace TIMEOUT 0 1 st.data ≠ 0 then
        .error (FLP_LIBERR, benchmark env false 1 st.data 0
          { st with
            ptr := p + 1,
            trace := st.trace ++ [Event.flWriteChannel TIMEOUT 0 1 st.data
              (env.flWriteChannel st.trace TIMEOUT 0 1 st.data)] })
      else
        .ok { benchmark env false 1 st.data 0
          { st with
            ptr := p + 1,
            trace := st.trace ++ [Event.flWriteChannel TIMEOUT 0 1 st.data
              (env.flWriteChannel st.trace TIMEOUT 0 1 st.data)] } with
          data := none } := by
  have s1 := strtoul_none_glibc env line (p + 1) hE hend
  unfold command
  dsimp only
  rw [hskip, if_neg (by rw [hletter]; decide), if_pos hletter]
  unfold caseWrite
  dsimp only
  rw [s1]
  dsimp only
  rw [if_neg (by simp), if_neg (by decide), if_neg (not_continuation hend)]
  unfold writeOperands
  dsimp only
  rw [if_neg (ne_space hend), bind_ok]

theorem command_plus_bare_glibc (env : Env) (line : List Char) (st : State) (p : Nat)
    (hE : env.strtoulEinval = false) (hskip : skipSemicolons line st.ptr = p)
    (hletter : peek line p = '+')
    (hend : peek line (p + 1) = NUL ∨ peek line (p + 1) = ';') :
    command env line st =
      if env.flFifoMode st.trace 0 ≠ 0 then
        .error (FLP_LIBERR, afterFifo env 0 { st with ptr := p + 1 })
      else .ok (afterFifo env 0 { st with ptr := p + 1 }) := by
  have s1 := strtoul_none_glibc env line (p + 1) hE hend
  unfold command
  dsimp only
  rw [hskip, if_neg (by rw [hletter]; decide), if_neg (by rw [hletter]; decide),
    if_pos hletter]
  unfold casePlus
  dsimp only
  rw [s1]
  dsimp only
  rw [if_neg (by simp), if_neg (by decide),
    if_neg (fun h => (hend.elim h.1 h.2))]
  rfl

theorem command_read_no_length_glibc (env : Env) (line : List Char) (st : State) (p : Nat)
    (cd rest : List Char)
    (hE : env.strtoulEinval = false) (hskip : skipSemicolons line st.ptr = p)
    (hdrop : line.drop p = 'r' :: (cd ++ ' ' :: rest))
    (hcne : cd ≠ []) (hcd : ∀ c ∈ cd, isHexDigit c = true)
    (hW : 32 ≤ env.ulongBits) (hchan : hexValue cd ≤ 127)
    (hend : rest.headD NUL = NUL ∨ rest.headD NUL = ';') :
    command env line st =
      readExecute env (hexValue cd) 0 { st with ptr := p + 1 + cd.length + 1 } := by
  have h1 : line.drop (p + 1) = cd ++ ' ' :: rest := by
    have := @drop_add_of_drop line p ['r'] (cd ++ ' ' :: rest) hdrop
    simpa using this
  have h2 : line.drop (p + 1 + cd.length) = ' ' :: rest := drop_add_of_drop h1
  have h3 : line.drop (p + 1 + cd.length + 1) = rest := by
    have := @drop_add_of_drop line (p + 1 + cd.length) [' '] rest h2
    simpa using this
  have pk : peek line (p + 1 + cd.length + 1) = rest.headD NUL := by
    rw [peek_eq_headD, h3]
  have hend' : peek line (p + 1 + cd.length + 1) = NUL ∨
      peek line (p + 1 + cd.length + 1) = ';' := by rw [pk]; exact hend
  have s1 := strtoul_run_small env h1 hcne hcd (Or.inr (Or.inr rfl)) hW (by omega)
  have s2 := strtoul_none_glibc env line (p + 1 + cd.length + 1) hE hend'
  have p0 : peek line p = 'r' := peek_of_drop hdrop
  have p2 : peek line (p + 1 + cd.length) = ' ' := peek_of_drop h2
  have hm : hexValue cd % 4294967296 = hexValue cd := Nat.mod_eq_of_lt (by omega)
  unfold command
  dsimp only
  rw [hskip, if_pos p0]
  unfold caseRead
  dsimp only
  rw [s1]
  dsimp only
  rw [hm, p2, if_neg (by simp), if_neg (not_lt.mpr hchan), if_neg (by simp)]
  unfold readOperands
  dsimp only
  rw [p2, if_pos rfl, s2]
  dsimp only
  rw [if_neg (by simp), if_neg (not_continuation hend'), if_neg (ne_space hend'), bind_ok]

theorem readExecute_not_bad_hex {env : Env} {chan length : Nat} {st : State}
    {e : ReturnCode × State} (h : readExecute env chan length st = .error e) :
    e.1 ≠ FLP_BAD_HEX := by
  simp only [readExecute] at h
  split at h <;> split_ifs at h <;>
    first
    | exact Except.noConfusion h
    | (simp only [Except.error.injEq] at h; subst h; dsimp only; decide)

/-- C12. Where `strtoul` leaves `errno` at 0 when it converts nothing (as glibc
does), a missing number is not rejected: the code tests only `errno` after
`strtoul` (`CHECK(errno, FLP_BAD_HEX)`), never whether any digit was converted,
so the number is taken as 0 and the command is carried out. For a command at
any position of the line, whose letter is directly followed by the end of the
string or by `;`: `r` is a read of 1 byte from channel 0, `w` is a write of 1
byte to channel 0 from the data pointer as it stands (`NULL`), `+` selects
conduit 0; and a read with a valid channel whose length field after the space
is followed by the end of the string or by `;` is a read of 0 bytes from that
channel. In none of these cases does the command fail with `FLP_BAD_HEX`. -/
theorem missing_number_is_taken_as_zero (env : Env) (line : List Char) (st : State) (p : Nat)
    (hE : env.strtoulEinval = false) (hW : 32 ≤ env.ulongBits)
    (hskip : skipSemicolons line st.ptr = p) :
    (peek line p = 'r' → (peek line (p + 1) = NUL ∨ peek line (p + 1) = ';') →
      command env line st = readExecute env 0 1 { st with ptr := p + 1 } ∧
      ∀ s, command env line st ≠ .error (FLP_BAD_HEX, s)) ∧
    (peek line p = 'w' → (peek line (p + 1) = NUL ∨ peek line (p + 1) = ';') →
      command env line st =
        (if env.flWriteChannel st.trace TIMEOUT 0 1 st.data ≠ 0 then
          .error (FLP_LIBERR, benchmark env false 1 st.data 0
            { st with
              ptr := p + 1,
              trace := st.trace ++ [Event.flWriteChannel TIMEOUT 0 1 st.data
                (env.flWriteChannel st.trace TIMEOUT 0 1 st.data)] })
        else
          .ok { benchmark env false 1 st.data 0
            { st with
              ptr := p + 1,
              trace := st.trace ++ [Event.flWriteChannel TIMEOUT 0 1 st.data
                (env.flWriteChannel st.trace TIMEOUT 0 1 st.data)] } with
            data := none }) ∧
      ∀ s, command env line st ≠ .error (FLP_BAD_HEX, s)) ∧
    (peek line p = '+' → (peek line (p + 1) = NUL ∨ peek line (p + 1) = ';') →
      command env line st =
        (if env.flFifoMode st.trace 0 ≠ 0 then
          .error (FLP_LIBERR, afterFifo env 0 { st with ptr := p + 1 })
        else .ok (afterFifo env 0 { st with ptr := p + 1 })) ∧
      ∀ s, command env line st ≠ .error (FLP_BAD_HEX, s)) ∧
    (∀ cd rest, line.drop p = 'r' :: (cd ++ ' ' :: rest) → cd ≠ [] →
      (∀ c ∈ cd, isHexDigit c = true) → hexValue cd ≤ 127 →
      (rest.headD NUL = NUL ∨ rest.headD NUL = ';') →
      command env line st =
        readExecute env (hexValue cd) 0 { st with ptr := p + 1 + cd.length + 1 } ∧
      ∀ s, command env line st ≠ .error (FLP_BAD_HEX, s)) := by
  refine ⟨?_, ?_, ?_, ?_⟩
  · intro hl hend
    have h := command_read_bare_glibc env line st p hE hskip hl hend
    refine ⟨h, ?_⟩
    intro s hs
    rw [h] at hs
    exact readExecute_not_bad_hex hs rfl
  · intro hl hend
    have h := command_write_bare_glibc env line st p hE hskip hl hend
    refine ⟨h, ?_⟩
    intro s hs
    rw [h] at hs
    split_ifs at hs
    exact absurd (congrArg Prod.fst (Except.error.inj hs)) (by simp)
  · intro hl hend
    have h := command_plus_bare_glibc env line st p hE hskip hl hend
    refine ⟨h, ?_⟩
    intro s hs
    rw [h] at hs
    split_ifs at hs
    exact absurd (congrArg Prod.fst (Except.error.inj hs)) (by simp)
  · intro cd rest hdrop hcne hcd hchan hend
    have h := command_read_no_length_glibc env line st p cd rest hE hskip hdrop hcne hcd hW
      hchan hend
    refine ⟨h, ?_⟩
    intro s hs
    rw [h] at hs
    exact readExecute_not_bad_hex hs rfl

theorem missing_number_is_taken_as_zero_witness :
    command idealEnv "r".data initialState =
      readExecute idealEnv 0 1 { initialState with ptr := 1 } ∧
    (∀ s, command idealEnv "r".data initialState ≠ .error (FLP_BAD_HEX, s)) ∧
    (parseLine idealEnv "r".data).map (fun r => (r.returnCode, deviceOps r.final.trace)) =
      some (FLP_SUCCESS, [Event.flReadChannel 600000 0 1 (some 0) 0 [0]]) :=
  ⟨((missing_number_is_taken_as_zero idealEnv "r".data initialState 0 rfl (by decide) rfl).1
      rfl (Or.inl rfl)).1,
    ((missing_number_is_taken_as_zero idealEnv "r".data initialState 0 rfl (by decide) rfl).1
      rfl (Or.inl rfl)).2,
    by rfl⟩

end Flcli
